import Mathlib

/-!
# apiwatch: a shallow embedding of the monitoring core

The development follows the Go sources package by package:

* `models/rule.go`      : `MonitorRule`, `MonitorRule.Validate`
* `extractor/extractor.go` : `Factory.Create`
* `monitor/task.go`     : `Task`, `Task.Start`, `Task.Stop`, `Task.RunOnce`, `Task.Update`
* `monitor/service.go`  : `MonitorService` (the task registry)
* `config/manager.go`   : `YAMLManager` (rule persistence built on load and save)
* `core/engine.go`      : `Engine`

Conventions of the embedding.

* A Go function that mutates its receiver and returns an `error` becomes a pure function
  returning the new state together with `Option GoError` (`none` is Go's `nil` error).
* A Go runtime panic (closing a closed channel, a ticker with a non-positive period) is a
  separate outcome, `Run.panic`: the call does not return.
* Library functions that are not part of the repository (`url.Parse`, `regexp.Compile`,
  `uuid.New`, `time.Now`, the HTTP round trip, the file system) are parameters.
* Go strings holding configuration text are Lean strings; `len` is the UTF-8 byte length.
* Rules are values. Where Go shares one rule object through a pointer (the in-memory list
  of the engine, the task, the argument `StartMonitoring` passes on to `UpdateRule`), a
  write through the pointer is written to the in-memory list explicitly, and a task keeps
  its own view of the rule. The engine never changes the ID, the interval or the extractor
  of a shared rule in place, which are the fields the task registry depends on.
* The configuration file is modelled by the list of rules written in it: what `Save`
  writes is what `Load` reads.
* Calls are sequential: the background check loop of a task is not a step of the engine.
-/

set_option autoImplicit false

namespace ApiWatch

/-! ## Go errors and panics -/

/-- A Go `error` value: either created with a message, or wrapping another error
(`fmt.Errorf("...: %w", err)`). -/
inductive GoError where
  | new (msg : String)
  | wrapf (pre : String) (inner : GoError)
  deriving DecidableEq, Repr

/-- The `Error()` method: the message of an error, wrapping errors prepend their text. -/
def GoError.Error : GoError → String
  | .new msg => msg
  | .wrapf pre inner => pre ++ inner.Error

/-- The `errors.Unwrap` chain: the error itself and every error it wraps. -/
def GoError.chain : GoError → List GoError
  | .new msg => [.new msg]
  | .wrapf pre inner => .wrapf pre inner :: inner.chain

/-- Outcome of running Go code: it returns a value, or the goroutine panics. -/
inductive Run (α : Type) where
  | ret (a : α)
  | panic (msg : String)
  deriving DecidableEq, Repr

/-- Sequencing of Go statements: a panic aborts what follows. -/
def Run.bind {α β : Type} : Run α → (α → Run β) → Run β
  | .ret a, f => f a
  | .panic m, _ => .panic m

instance : Monad Run where
  pure := Run.ret
  bind := Run.bind

/-- The call returned (did not panic). -/
def Run.returned {α : Type} : Run α → Bool
  | .ret _ => true
  | .panic _ => false

/-! ## models/rule.go -/

/-- Go `models.Duration`: a number of nanoseconds (an `int64`). -/
abbrev Duration := Int

/-- Go `time.Second`, in nanoseconds. -/
def Second : Duration := 1000000000

/-- Go `models.ExtractorType`, a string type. -/
abbrev ExtractorType := String

def ExtractorCSS : ExtractorType := "css"
def ExtractorRegex : ExtractorType := "regex"
def ExtractorJSON : ExtractorType := "json"

/-- Go `models.RuleStatus`, a string type. -/
abbrev RuleStatus := String

def StatusRunning : RuleStatus := "running"
def StatusPaused : RuleStatus := "paused"
def StatusError : RuleStatus := "error"
def StatusIdle : RuleStatus := "idle"

/-- Go `models.DefaultMethod = http.MethodGet`. -/
def DefaultMethod : String := "GET"

/-- Go `models.MonitorRule`. -/
structure MonitorRule where
  ID : String
  Name : String
  Description : String
  URL : String
  Method : String
  Headers : List (String × String)
  Body : String
  Interval : Duration
  ExtractorType : ExtractorType
  ExtractorExpr : String
  NotifyEnabled : Bool
  Enabled : Bool
  LastContent : String
  LastChecked : String
  Status : RuleStatus
  ErrorMessage : String
  deriving DecidableEq, Repr

/-- The library functions the core calls into. -/
structure Lib where
  /-- The error of `url.Parse` on the string, `none` when it parses. -/
  urlParse : String → Option GoError
  /-- The error of `regexp.Compile` on the pattern, `none` when it compiles. -/
  regexCompile : String → Option GoError

/-- The keys of the `validMethods` map in `Validate`. -/
def validMethods : List String :=
  ["GET", "POST", "PUT", "DELETE", "PATCH", "HEAD", "OPTIONS"]

/-- The keys of the `validExtractors` map in `Validate`. -/
def validExtractors : List ExtractorType :=
  [ExtractorCSS, ExtractorRegex, ExtractorJSON]

/-- Go `(*MonitorRule).Validate`: the rule after the call (the method may have been
defaulted in place) and the returned error. -/
def MonitorRule.Validate (lib : Lib) (r : MonitorRule) : MonitorRule × Option GoError :=
  if r.Name = "" then (r, some (.new "规则名称不能为空"))
  else if r.URL = "" then (r, some (.new "URL不能为空"))
  else if let some err := lib.urlParse r.URL then (r, some (.wrapf "无效的URL: " err))
  else
    let r := if r.Method = "" then { r with Method := DefaultMethod } else r
    if !validMethods.contains r.Method then
      (r, some (.new ("无效的HTTP方法: " ++ r.Method)))
    else if r.Interval < Second then (r, some (.new "检查间隔不能小于1秒"))
    else if r.ExtractorExpr = "" then (r, some (.new "提取表达式不能为空"))
    else if !validExtractors.contains r.ExtractorType then
      (r, some (.new ("无效的提取器类型: " ++ r.ExtractorType)))
    else (r, none)

/-! ## extractor/extractor.go -/

/-- An extractor instance: the implementation chosen by the factory and the expression
it was constructed from. -/
inductive Extractor where
  | css (selector : String)
  | regex (pattern : String)
  | json (path : String)
  deriving DecidableEq, Repr

/-- Go `NewRegexExtractor`: compiling the pattern may fail. -/
def NewRegexExtractor (lib : Lib) (pattern : String) : Except GoError Extractor :=
  match lib.regexCompile pattern with
  | some err => .error (.wrapf "无效的正则表达式: " err)
  | none => .ok (.regex pattern)

/-- Go `(*Factory).Create`. -/
def Factory.Create (lib : Lib) (extractorType : ExtractorType) (expr : String) :
    Except GoError Extractor :=
  if extractorType = ExtractorCSS then .ok (.css expr)
  else if extractorType = ExtractorRegex then NewRegexExtractor lib expr
  else if extractorType = ExtractorJSON then .ok (.json expr)
  else .error (.new ("不支持的提取器类型: " ++ extractorType))

/-! ## fetcher/fetcher.go (interface types) -/

/-- Go `fetcher.Request`. -/
structure Request where
  URL : String
  Method : String
  Headers : List (String × String)
  Body : String
  deriving DecidableEq, Repr

/-- Go `fetcher.Response`. -/
structure Response where
  Body : List UInt8
  ContentType : String
  StatusCode : Int
  deriving DecidableEq, Repr

/-! ## monitor/task.go -/

/-- Go `len(s)` of a string: its length in bytes. -/
def goLen (s : String) : Nat := s.utf8ByteSize

/-- The bytes of a Go string. -/
def goBytes (s : String) : List UInt8 := s.toUTF8.data.toList

/-- A `*time.Ticker`: its period and whether `Stop` was called on it. -/
structure Ticker where
  period : Duration
  stopped : Bool
  deriving DecidableEq, Repr

/-- Go `time.NewTicker`: panics on a non-positive period. -/
def NewTicker (d : Duration) : Run Ticker :=
  if d ≤ 0 then .panic "non-positive interval for NewTicker" else .ret ⟨d, false⟩

/-- Go `monitor.Task`. The rule is the task's view of the rule object it points to;
`stopClosed` records whether the channel `stopCh` has been closed; `hasOnUpdate` records
whether the callback `onUpdate` is non-nil. The fetcher and the notifier are collaborators
and are passed to `RunOnce` as a `CheckEnv`. -/
structure Task where
  rule : MonitorRule
  extractor : Extractor
  ticker : Option Ticker
  stopClosed : Bool
  running : Bool
  hasOnUpdate : Bool
  deriving DecidableEq, Repr

/-- Go `NewTask`: builds the extractor, and a fresh, open stop channel. -/
def NewTask (lib : Lib) (rule : MonitorRule) (hasOnUpdate : Bool) : Except GoError Task :=
  match Factory.Create lib rule.ExtractorType rule.ExtractorExpr with
  | .error err => .error (.wrapf "创建提取器失败: " err)
  | .ok ext =>
    .ok { rule := rule, extractor := ext, ticker := none, stopClosed := false,
          running := false, hasOnUpdate := hasOnUpdate }

/-- Go `(*Task).Start`. The check loop `run` is launched as a goroutine; see `Task.selectReady`
for what that loop does at its `select`. -/
def Task.Start (t : Task) : Run (Task × Option GoError) :=
  if t.running then .ret (t, some (.new "任务已在运行中"))
  else do
    let t := { t with running := true }
    let ticker ← NewTicker t.rule.Interval
    pure ({ t with ticker := some ticker }, none)

/-- Go `(*Task).Stop`. `close(t.stopCh)` panics when the channel is already closed. -/
def Task.Stop (t : Task) : Run Task :=
  if !t.running then .ret t
  else
    let t := { t with running := false }
    if t.stopClosed then .panic "close of closed channel"
    else
      let t := { t with stopClosed := true }
      .ret { t with ticker := t.ticker.map fun k => { k with stopped := true } }

/-- The task a running task with an open stop channel becomes by `Stop`. -/
def Task.stopped (t : Task) : Task :=
  { t with running := false, stopClosed := true,
           ticker := t.ticker.map fun k => { k with stopped := true } }

/-- The task a running task with an open stop channel becomes by `Stop`, `Update` to
`rule` with extractor `ext`, and `Start`. -/
def Task.restarted (t : Task) (ext : Extractor) (rule : MonitorRule) : Task :=
  { t.stopped with
      extractor := ext, rule := rule, running := true, ticker := some ⟨rule.Interval, false⟩ }

/-- The task `NewTask` builds for `rule` with extractor `ext`, after a successful `Start`. -/
def Task.started (rule : MonitorRule) (ext : Extractor) (hasOnUpdate : Bool) : Task :=
  { rule := rule, extractor := ext, ticker := some ⟨rule.Interval, false⟩,
    stopClosed := false, running := true, hasOnUpdate := hasOnUpdate }

/-- A case of the `select` statement in `Task.run`. -/
inductive SelectCase where
  /-- The case `<-t.stopCh`: the loop returns. -/
  | stop
  /-- The case `<-t.ticker.C`: the loop runs a check and selects again. -/
  | tick
  deriving DecidableEq, Repr

/-- The cases of the `select` in `Task.run` that are ready when the loop reaches it:
a receive on the stop channel is ready exactly when the channel is closed (nothing is
ever sent on it), a receive on the ticker channel when a tick is pending. The loop blocks
when no case is ready, and Go picks among the ready ones otherwise. -/
def Task.selectReady (t : Task) (tickPending : Bool) : List SelectCase :=
  (if t.stopClosed then [SelectCase.stop] else []) ++
  (if tickPending then [SelectCase.tick] else [])

/-- Go `(*Task).IsRunning`. -/
def Task.IsRunning (t : Task) : Bool := t.running

/-- Go `(*Task).GetRule`. -/
def Task.GetRule (t : Task) : MonitorRule := t.rule

/-- What a check cycle does to its collaborators, in order. -/
inductive Effect where
  /-- The callback `t.onUpdate(t.rule)`, with the rule as it is at the call. -/
  | onUpdate (rule : MonitorRule)
  /-- The call `t.fetcher.Fetch(req)`. -/
  | fetch (req : Request)
  /-- The call `t.notifier.Notify(title, message)`. -/
  | notify (title : String) (message : List UInt8)
  deriving DecidableEq, Repr

/-- The collaborators of a check cycle and what they answer. -/
structure CheckEnv where
  /-- The result of `t.fetcher.Fetch`. -/
  fetch : Request → Except GoError Response
  /-- The result of `t.extractor.Extract` for the task's extractor. -/
  extract : Extractor → List UInt8 → String → Except GoError String
  /-- The result of `t.notifier.Notify`. -/
  notify : String → List UInt8 → Option GoError
  /-- The value of `time.Now()` as stored in the rule. -/
  now : String

/-- The request `RunOnce` builds from the rule. -/
def Task.request (t : Task) : Request :=
  { URL := t.rule.URL, Method := t.rule.Method, Headers := t.rule.Headers, Body := t.rule.Body }

/-- The rules passed to the update callback, in order. -/
def updatesOf : List Effect → List MonitorRule
  | [] => []
  | Effect.onUpdate rule :: fx => rule :: updatesOf fx
  | _ :: fx => updatesOf fx

/-- The notifications handed to the notifier, in order. -/
def notificationsOf : List Effect → List (String × List UInt8)
  | [] => []
  | Effect.notify title message :: fx => (title, message) :: notificationsOf fx
  | _ :: fx => notificationsOf fx

/-- The requests handed to the fetcher, in order. -/
def fetchesOf : List Effect → List Request
  | [] => []
  | Effect.fetch req :: fx => req :: fetchesOf fx
  | _ :: fx => fetchesOf fx

/-- Go `(*Task).notifyUpdate`. -/
def Task.notifyUpdate (t : Task) : List Effect :=
  if t.hasOnUpdate then [Effect.onUpdate t.rule] else []

/-- Go `(*Task).handleError`. -/
def Task.handleError (t : Task) (err : GoError) : Task × List Effect :=
  let t := { t with rule := { t.rule with Status := StatusError } }
  let t := { t with rule := { t.rule with ErrorMessage := err.Error } }
  (t, t.notifyUpdate)

/-- Go `(*Task).sendNotification`: the title and message handed to the notifier and the
notifier's answer. The message is cut at 200 bytes. -/
def Task.sendNotification (env : CheckEnv) (t : Task) (newContent : String) :
    List Effect × Option GoError :=
  let title := "内容变化: " ++ t.rule.Name
  let message := goBytes newContent
  let message := if goLen newContent > 200 then message.take 200 ++ goBytes "..." else message
  let message :=
    if t.rule.Description ≠ "" then goBytes t.rule.Description ++ goBytes "\n\n" ++ message
    else message
  ([Effect.notify title message], env.notify title message)

/-- Go `(*Task).RunOnce`: the task afterwards, the effects on the collaborators in order,
and the returned error. -/
def Task.RunOnce (env : CheckEnv) (t : Task) : Task × List Effect × Option GoError :=
  let t := { t with rule := { t.rule with Status := StatusRunning } }
  let t := { t with rule := { t.rule with ErrorMessage := "" } }
  let fx := t.notifyUpdate
  let req := t.request
  let fx := fx ++ [Effect.fetch req]
  match env.fetch req with
  | .error err =>
    let (t, fx') := t.handleError (.wrapf "HTTP请求失败: " err)
    (t, fx ++ fx', some err)
  | .ok resp =>
    match env.extract t.extractor resp.Body resp.ContentType with
    | .error err =>
      let (t, fx') := t.handleError (.wrapf "内容提取失败: " err)
      (t, fx ++ fx', some err)
    | .ok content =>
      let t := { t with rule := { t.rule with LastChecked := env.now } }
      let fx :=
        if t.rule.LastContent ≠ "" ∧ t.rule.LastContent ≠ content then
          if t.rule.NotifyEnabled then fx ++ (t.sendNotification env content).1 else fx
        else fx
      let t := { t with rule := { t.rule with LastContent := content } }
      let t := { t with rule := { t.rule with Status := StatusRunning } }
      (t, fx ++ t.notifyUpdate, none)

/-- The first block of `Task.Update` ("检查是否需要重新创建提取器"): a new extractor is
built when the kind or the expression differs from the task's rule, otherwise the task's
extractor is kept. -/
def Task.extractorFor (lib : Lib) (t : Task) (rule : MonitorRule) : Except GoError Extractor :=
  if rule.ExtractorType ≠ t.rule.ExtractorType ∨ rule.ExtractorExpr ≠ t.rule.ExtractorExpr then
    Factory.Create lib rule.ExtractorType rule.ExtractorExpr
  else .ok t.extractor

/-- Go `(*Task).Update`. -/
def Task.Update (lib : Lib) (t : Task) (rule : MonitorRule) : Run (Task × Option GoError) :=
  match t.extractorFor lib rule with
  | .error err => .ret (t, some (.wrapf "创建提取器失败: " err))
  | .ok ext => do
    let t := { t with extractor := ext }
    let ticker ←
      if rule.Interval ≠ t.rule.Interval ∧ t.running then
        (NewTicker rule.Interval).bind fun k => pure (some k)
      else pure t.ticker
    let t := { t with ticker := ticker }
    pure ({ t with rule := rule }, none)

/-! ## monitor/service.go -/

/-- Go `map[string]*Task`: a finite map with one entry per key. -/
abbrev TaskMap := AList (fun _ : String => Task)

/-- Go `monitor.MonitorService`: the task registry. `hasOnRuleUpdate` records whether the
callback `onRuleUpdate` handed to new tasks is non-nil. -/
structure MonitorService where
  tasks : TaskMap
  hasOnRuleUpdate : Bool
  deriving DecidableEq

/-- Go `NewMonitorService`. -/
def NewMonitorService (hasOnRuleUpdate : Bool) : MonitorService :=
  { tasks := ∅, hasOnRuleUpdate := hasOnRuleUpdate }

/-- The second half of `StartTask`: create the task, start it, register it. -/
def MonitorService.createAndStart (lib : Lib) (s : MonitorService) (rule : MonitorRule) :
    Run (MonitorService × Option GoError) :=
  match NewTask lib rule s.hasOnRuleUpdate with
  | .error err => .ret (s, some (.wrapf "创建任务失败: " err))
  | .ok task => do
    let (task, err) ← task.Start
    match err with
    | some err => pure (s, some (.wrapf "启动任务失败: " err))
    | none => pure ({ s with tasks := s.tasks.insert rule.ID task }, none)

/-- Go `(*MonitorService).StartTask`. -/
def MonitorService.StartTask (lib : Lib) (s : MonitorService) (rule : MonitorRule) :
    Run (MonitorService × Option GoError) :=
  match s.tasks.lookup rule.ID with
  | some task =>
    if task.IsRunning then .ret (s, some (.new ("任务已在运行中: " ++ rule.ID)))
    else do
      let _ ← task.Stop
      MonitorService.createAndStart lib { s with tasks := s.tasks.erase rule.ID } rule
  | none => MonitorService.createAndStart lib s rule

/-- Go `(*MonitorService).StopTask`. -/
def MonitorService.StopTask (s : MonitorService) (ruleID : String) :
    Run (MonitorService × Option GoError) :=
  match s.tasks.lookup ruleID with
  | none => .ret (s, some (.new ("任务不存在: " ++ ruleID)))
  | some task => do
    let _ ← task.Stop
    pure ({ s with tasks := s.tasks.erase ruleID }, none)

/-- The loop of `StopAll` over the entries of the map. -/
def MonitorService.stopEach : List (Σ _ : String, Task) → MonitorService → Run MonitorService
  | [], s => .ret s
  | e :: es, s => do
    let _ ← e.2.Stop
    MonitorService.stopEach es { s with tasks := s.tasks.erase e.1 }

/-- Go `(*MonitorService).StopAll`. -/
def MonitorService.StopAll (s : MonitorService) : Run MonitorService :=
  MonitorService.stopEach s.tasks.entries s

/-- The second half of `UpdateTask`, after the task was stopped if it was running: update
the configuration and start the task again if it was running. The task is mutated in
place, so every step is written back to the registry entry. -/
def MonitorService.updateAndRestart (lib : Lib) (s : MonitorService) (rule : MonitorRule)
    (wasRunning : Bool) (task : Task) : Run (MonitorService × Option GoError) := do
  let (task, err) ← task.Update lib rule
  let s := { s with tasks := s.tasks.replace rule.ID task }
  match err with
  | some err => pure (s, some (.wrapf "更新任务失败: " err))
  | none =>
    if wasRunning then do
      let (task, err) ← task.Start
      let s := { s with tasks := s.tasks.replace rule.ID task }
      match err with
      | some err => pure (s, some (.wrapf "重启任务失败: " err))
      | none => pure (s, none)
    else pure (s, none)

/-- Go `(*MonitorService).UpdateTask`. -/
def MonitorService.UpdateTask (lib : Lib) (s : MonitorService) (rule : MonitorRule) :
    Run (MonitorService × Option GoError) :=
  match s.tasks.lookup rule.ID with
  | none => .ret (s, some (.new ("任务不存在: " ++ rule.ID)))
  | some task =>
    let wasRunning := task.IsRunning
    (if wasRunning then task.Stop else pure task).bind fun task =>
      MonitorService.updateAndRestart lib s rule wasRunning task

/-- Go `(*MonitorService).RunTaskOnce`. -/
def MonitorService.RunTaskOnce (env : CheckEnv) (s : MonitorService) (ruleID : String) :
    MonitorService × List Effect × Option GoError :=
  match s.tasks.lookup ruleID with
  | none => (s, [], some (.new ("任务不存在或未启动: " ++ ruleID ++ "，请先启动监控")))
  | some task =>
    let (task, fx, err) := task.RunOnce env
    ({ s with tasks := s.tasks.replace ruleID task }, fx, err)

/-- Go `(*MonitorService).GetTaskStatus`. -/
def MonitorService.GetTaskStatus (s : MonitorService) (ruleID : String) : RuleStatus :=
  match s.tasks.lookup ruleID with
  | none => StatusIdle
  | some task => task.GetRule.Status

/-- Go `(*MonitorService).IsTaskRunning`. -/
def MonitorService.IsTaskRunning (s : MonitorService) (ruleID : String) : Bool :=
  match s.tasks.lookup ruleID with
  | none => false
  | some task => task.IsRunning

/-- Go `(*MonitorService).GetActiveTasks`. -/
def MonitorService.GetActiveTasks (s : MonitorService) : Nat := s.tasks.entries.length

/-! ## config/manager.go -/

/-- Go `config.YAMLManager` together with the file it manages: `none` when the file does
not exist, otherwise the rules written in it. -/
structure YAMLManager where
  file : Option (List MonitorRule)
  deriving DecidableEq, Repr

/-- What the file system does during one call: the error of reading the file, of writing
the temporary file and of renaming it over the configuration file (`none`: the operation
succeeds). -/
structure Faults where
  read : Option GoError
  write : Option GoError
  rename : Option GoError
  deriving DecidableEq, Repr

/-- No file-system failure. -/
def Faults.none : Faults :=
  { read := Option.none, write := Option.none, rename := Option.none }

/-- Go `(*YAMLManager).Load`: an absent file is an empty rule set. -/
def YAMLManager.Load (io : Faults) (m : YAMLManager) : Except GoError (List MonitorRule) :=
  match m.file with
  | none => .ok []
  | some rules =>
    match io.read with
    | some err => .error (.wrapf "读取配置文件失败: " err)
    | none => .ok rules

/-- Go `(*YAMLManager).Save`: the file is replaced as a whole, or left as it was. -/
def YAMLManager.Save (io : Faults) (m : YAMLManager) (rules : List MonitorRule) :
    YAMLManager × Option GoError :=
  match io.write with
  | some err => (m, some (.wrapf "写入临时配置文件失败: " err))
  | none =>
    match io.rename with
    | some err => (m, some (.wrapf "更新配置文件失败: " err))
    | none => ({ m with file := some rules }, none)

/-- Go `(*YAMLManager).AddRule`. -/
def YAMLManager.AddRule (io : Faults) (m : YAMLManager) (rule : MonitorRule) :
    YAMLManager × Option GoError :=
  match m.Load io with
  | .error err => (m, some err)
  | .ok rules =>
    if rules.any (fun r => r.ID = rule.ID) then (m, some (.new ("规则ID已存在: " ++ rule.ID)))
    else m.Save io (rules ++ [rule])

/-- The loop `for i, r := range rules { if r.ID == rule.ID { rules[i] = rule; found = true;
break } }`: the list afterwards and `found`. -/
def replaceFirst : List MonitorRule → MonitorRule → List MonitorRule × Bool
  | [], _ => ([], false)
  | r :: rs, rule =>
    if r.ID = rule.ID then (rule :: rs, true)
    else ((r :: (replaceFirst rs rule).1), (replaceFirst rs rule).2)

/-- The loop `for i, r := range rules { if r.ID == id { rules = append(rules[:i],
rules[i+1:]...); found = true; break } }`: the list afterwards and `found`. -/
def removeFirst : List MonitorRule → String → List MonitorRule × Bool
  | [], _ => ([], false)
  | r :: rs, id =>
    if r.ID = id then (rs, true)
    else ((r :: (removeFirst rs id).1), (removeFirst rs id).2)

/-- Go `(*YAMLManager).UpdateRule`. -/
def YAMLManager.UpdateRule (io : Faults) (m : YAMLManager) (rule : MonitorRule) :
    YAMLManager × Option GoError :=
  match m.Load io with
  | .error err => (m, some err)
  | .ok rules =>
    let (rules, found) := replaceFirst rules rule
    if !found then (m, some (.new ("规则不存在: " ++ rule.ID)))
    else m.Save io rules

/-- Go `(*YAMLManager).DeleteRule`. -/
def YAMLManager.DeleteRule (io : Faults) (m : YAMLManager) (id : String) :
    YAMLManager × Option GoError :=
  match m.Load io with
  | .error err => (m, some err)
  | .ok rules =>
    let newRules := rules.filter (fun r => r.ID ≠ id)
    let found := rules.any (fun r => r.ID = id)
    if !found then (m, some (.new ("规则不存在: " ++ id)))
    else m.Save io newRules

/-- Go `(*YAMLManager).GetRule`. -/
def YAMLManager.GetRule (io : Faults) (m : YAMLManager) (id : String) :
    Except GoError MonitorRule :=
  match m.Load io with
  | .error err => .error err
  | .ok rules =>
    match rules.find? (fun r => r.ID = id) with
    | some r => .ok r
    | none => .error (.new ("规则不存在: " ++ id))

/-! ## core/event.go, core/engine.go -/

/-- Go `core.EventType`, a string type. -/
abbrev EventType := String

def EventRuleAdded : EventType := "rule_added"
def EventRuleUpdated : EventType := "rule_updated"
def EventRuleDeleted : EventType := "rule_deleted"
def EventRuleStatusChanged : EventType := "rule_status_changed"

/-- Go `core.Event` (the field `Type` is called `Kind` here; the timestamp is left out). -/
structure Event where
  Kind : EventType
  RuleID : String
  Rule : Option MonitorRule
  deriving DecidableEq, Repr

/-- Go `core.Engine`: the in-memory rule list `rules`, the configuration manager, the
monitor service, and the events handed to `eventBus.Publish`, oldest first. -/
structure Engine where
  configMgr : YAMLManager
  monitorSvc : MonitorService
  rules : List MonitorRule
  published : List Event
  deriving DecidableEq

/-- Go `NewEngine`. -/
def NewEngine (configMgr : YAMLManager) (monitorSvc : MonitorService) : Engine :=
  { configMgr := configMgr, monitorSvc := monitorSvc, rules := [], published := [] }

/-- The call `e.eventBus.Publish(event)`. -/
def Engine.publish (e : Engine) (ev : Event) : Engine :=
  { e with published := e.published ++ [ev] }

/-- The loop of `Initialize` that starts the task of every enabled rule; a failure to
start is logged and the loop goes on. -/
def Engine.startEnabled (lib : Lib) : List MonitorRule → MonitorService → Run MonitorService
  | [], s => .ret s
  | rule :: rest, s =>
    if rule.Enabled then do
      let (s, _) ← s.StartTask lib rule
      Engine.startEnabled lib rest s
    else Engine.startEnabled lib rest s

/-- Go `(*Engine).Initialize`. -/
def Engine.Initialize (lib : Lib) (io : Faults) (e : Engine) : Run (Engine × Option GoError) :=
  match e.configMgr.Load io with
  | .error err => .ret (e, some (.wrapf "加载配置失败: " err))
  | .ok rules => do
    let e := { e with rules := rules }
    let svc ← Engine.startEnabled lib rules e.monitorSvc
    pure ({ e with monitorSvc := svc }, none)

/-- Go `(*Engine).Shutdown`. -/
def Engine.Shutdown (io : Faults) (e : Engine) : Run (Engine × Option GoError) := do
  let svc ← e.monitorSvc.StopAll
  let e := { e with monitorSvc := svc }
  let (m, err) := e.configMgr.Save io e.rules
  pure ({ e with configMgr := m }, err)

/-- Go `(*Engine).GetRules`. -/
def Engine.GetRules (e : Engine) : List MonitorRule := e.rules

/-- Go `(*Engine).GetRule`: the first rule with the ID. -/
def Engine.GetRule (e : Engine) (id : String) : Except GoError MonitorRule :=
  match e.rules.find? (fun r => r.ID = id) with
  | some rule => .ok rule
  | none => .error (.new ("规则不存在: " ++ id))

/-- Go `(*Engine).AddRule`. `newID` is the value of `uuid.New().String()`. -/
def Engine.AddRule (lib : Lib) (io : Faults) (newID : String) (e : Engine) (rule : MonitorRule) :
    Run (Engine × Option GoError) :=
  match rule.Validate lib with
  | (_, some err) => .ret (e, some (.wrapf "规则验证失败: " err))
  | (rule, none) =>
    let rule := if rule.ID = "" then { rule with ID := newID } else rule
    let rule := if rule.Status = "" then { rule with Status := StatusIdle } else rule
    let e := { e with rules := e.rules ++ [rule] }
    match e.configMgr.AddRule io rule with
    | (m, some err) =>
      let e := { e with configMgr := m }
      let e := { e with rules := (removeFirst e.rules rule.ID).1 }
      .ret (e, some (.wrapf "保存规则失败: " err))
    | (m, none) => do
      let e := { e with configMgr := m }
      let svc ←
        if rule.Enabled then (e.monitorSvc.StartTask lib rule).bind fun r => pure r.1
        else pure e.monitorSvc
      let e := { e with monitorSvc := svc }
      let e := e.publish { Kind := EventRuleAdded, RuleID := rule.ID, Rule := some rule }
      pure (e, none)

/-- The task reconciliation of `UpdateRule` (the block under "更新监控任务"); errors of the
service are logged and dropped. -/
def Engine.reconcileTask (lib : Lib) (svc : MonitorService) (rule : MonitorRule) :
    Run MonitorService :=
  if rule.Enabled then
    if svc.IsTaskRunning rule.ID then (svc.UpdateTask lib rule).bind fun r => pure r.1
    else (svc.StartTask lib rule).bind fun r => pure r.1
  else
    if svc.IsTaskRunning rule.ID then (svc.StopTask rule.ID).bind fun r => pure r.1
    else pure svc

/-- Go `(*Engine).UpdateRule`. `aliased` tells whether the argument is the pointer stored
in `e.rules` (the first rule with its ID), as it is when `StartMonitoring` and
`StopMonitoring` pass on the result of `GetRule`: what `Validate` changes in the rule is
then changed in memory as well. A rule coming from outside is a fresh object. -/
def Engine.UpdateRule (lib : Lib) (io : Faults) (e : Engine) (rule : MonitorRule)
    (aliased : Bool) : Run (Engine × Option GoError) :=
  let (rule, verr) := rule.Validate lib
  let e := if aliased then { e with rules := (replaceFirst e.rules rule).1 } else e
  match verr with
  | some err => .ret (e, some (.wrapf "规则验证失败: " err))
  | none =>
    let (rules, found) := replaceFirst e.rules rule
    let e := { e with rules := rules }
    if !found then .ret (e, some (.new ("规则不存在: " ++ rule.ID)))
    else
      match e.configMgr.UpdateRule io rule with
      | (m, some err) => .ret ({ e with configMgr := m }, some (.wrapf "保存规则失败: " err))
      | (m, none) => do
        let e := { e with configMgr := m }
        let svc ← Engine.reconcileTask lib e.monitorSvc rule
        let e := { e with monitorSvc := svc }
        let e := e.publish { Kind := EventRuleUpdated, RuleID := rule.ID, Rule := some rule }
        pure (e, none)

/-- The block "停止监控任务" of `DeleteRule`: stop the task of the ID if one is running; an
error of the service is logged and dropped. -/
def Engine.stopIfRunning (svc : MonitorService) (id : String) : Run MonitorService :=
  if svc.IsTaskRunning id then (svc.StopTask id).bind fun r => pure r.1
  else pure svc

/-- Go `(*Engine).DeleteRule`. -/
def Engine.DeleteRule (io : Faults) (e : Engine) (id : String) : Run (Engine × Option GoError) :=
  let (rules, found) := removeFirst e.rules id
  let e := { e with rules := rules }
  if !found then .ret (e, some (.new ("规则不存在: " ++ id)))
  else
    (Engine.stopIfRunning e.monitorSvc id).bind fun svc =>
      let e := { e with monitorSvc := svc }
      match e.configMgr.DeleteRule io id with
      | (m, some err) => pure ({ e with configMgr := m }, some (.wrapf "删除规则失败: " err))
      | (m, none) =>
        let e := { e with configMgr := m }
        let e := e.publish { Kind := EventRuleDeleted, RuleID := id, Rule := none }
        pure (e, none)

/-- Go `(*Engine).StartMonitoring`. The rule returned by `GetRule` is the object stored in
`e.rules`, so `rule.Enabled = true` is written to memory before `UpdateRule` runs. -/
def Engine.StartMonitoring (lib : Lib) (io : Faults) (e : Engine) (ruleID : String) :
    Run (Engine × Option GoError) :=
  match e.GetRule ruleID with
  | .error err => .ret (e, some err)
  | .ok rule => do
    let (svc, err) ← e.monitorSvc.StartTask lib rule
    let e := { e with monitorSvc := svc }
    match err with
    | some err => pure (e, some (.wrapf "启动监控失败: " err))
    | none =>
      let rule := { rule with Enabled := true }
      let e := { e with rules := (replaceFirst e.rules rule).1 }
      e.UpdateRule lib io rule true

/-- Go `(*Engine).StopMonitoring`. -/
def Engine.StopMonitoring (lib : Lib) (io : Faults) (e : Engine) (ruleID : String) :
    Run (Engine × Option GoError) := do
  let (svc, err) ← e.monitorSvc.StopTask ruleID
  let e := { e with monitorSvc := svc }
  match err with
  | some err => pure (e, some (.wrapf "停止监控失败: " err))
  | none =>
    match e.GetRule ruleID with
    | .error err => pure (e, some err)
    | .ok rule =>
      let rule := { rule with Enabled := false }
      let rule := { rule with Status := StatusPaused }
      let e := { e with rules := (replaceFirst e.rules rule).1 }
      e.UpdateRule lib io rule true

/-- Go `(*Engine).StopAllMonitoring`. -/
def Engine.StopAllMonitoring (e : Engine) : Run (Engine × Option GoError) := do
  let svc ← e.monitorSvc.StopAll
  let e := { e with monitorSvc := svc }
  let e := { e with rules := e.rules.map fun rule =>
    { rule with Enabled := false, Status := StatusPaused } }
  pure (e, none)

/-- Go `(*Engine).CheckNow`. -/
def Engine.CheckNow (env : CheckEnv) (e : Engine) (ruleID : String) :
    Engine × List Effect × Option GoError :=
  let (svc, fx, err) := e.monitorSvc.RunTaskOnce env ruleID
  ({ e with monitorSvc := svc }, fx, err)

/-- Go `(*Engine).UpdateRuleInMemory`. -/
def Engine.UpdateRuleInMemory (e : Engine) (rule : MonitorRule) : Engine :=
  { e with rules := (replaceFirst e.rules rule).1 }

/-! ## Sequences of engine operations -/

/-- A call of one of the engine operations that change rules or tasks, with what the file
system does during the call and, for `AddRule`, the identifier `uuid.New` would produce. -/
inductive EngineOp where
  | Initialize (io : Faults)
  | AddRule (io : Faults) (newID : String) (rule : MonitorRule)
  | UpdateRule (io : Faults) (rule : MonitorRule)
  | DeleteRule (io : Faults) (id : String)
  | StartMonitoring (io : Faults) (id : String)
  | StopMonitoring (io : Faults) (id : String)
  | StopAllMonitoring
  deriving DecidableEq, Repr

/-- The engine after one call, and the error the call returned. -/
def Engine.step (lib : Lib) (e : Engine) : EngineOp → Run (Engine × Option GoError)
  | .Initialize io => e.Initialize lib io
  | .AddRule io newID rule => e.AddRule lib io newID rule
  | .UpdateRule io rule => e.UpdateRule lib io rule false
  | .DeleteRule io id => e.DeleteRule io id
  | .StartMonitoring io id => e.StartMonitoring lib io id
  | .StopMonitoring io id => e.StopMonitoring lib io id
  | .StopAllMonitoring => e.StopAllMonitoring

/-- The engine after a sequence of calls, and the errors the calls returned, in order. A
panic in one call ends the run. -/
def Engine.runOps (lib : Lib) : Engine → List EngineOp → Run (Engine × List (Option GoError))
  | e, [] => .ret (e, [])
  | e, op :: ops =>
    (e.step lib op).bind fun r =>
      (Engine.runOps lib r.1 ops).bind fun r' => .ret (r'.1, r.2 :: r'.2)

/-- Whether an error returned by the engine is its "saving the rule failed" error
(`fmt.Errorf("保存规则失败: %w", err)` in `AddRule` and `UpdateRule`). -/
def saveFailed : Option GoError → Bool
  | some (.wrapf pre _) => pre = "保存规则失败: "
  | _ => false

/-- The rules written in the configuration file (none when the file is absent). -/
def Engine.fileRules (e : Engine) : List MonitorRule := e.configMgr.file.getD []

/-- The invariant carried along a run of the engine. With `skip = some id` the three
conditions on running tasks are not required for `id` (the state in the middle of
`StartMonitoring`). -/
structure Engine.Inv (lib : Lib) (skip : Option String) (e : Engine) : Prop where
  fileNodup : (e.fileRules.map fun r => r.ID).Nodup
  memNodup : (e.rules.map fun r => r.ID).Nodup
  memSub : ∀ r ∈ e.rules, ∃ r' ∈ e.fileRules, r'.ID = r.ID
  validMem : ∀ r ∈ e.rules, r.Validate lib = (r, none)
  validFile : ∀ r ∈ e.fileRules, r.Validate lib = (r, none)
  runMem : ∀ r ∈ e.rules, some r.ID ≠ skip →
    e.monitorSvc.IsTaskRunning r.ID = true → r.Enabled = true
  runFile : ∀ r ∈ e.fileRules, some r.ID ≠ skip →
    e.monitorSvc.IsTaskRunning r.ID = true → r.Enabled = true
  runIn : ∀ id, e.monitorSvc.IsTaskRunning id = true → ∃ r ∈ e.fileRules, r.ID = id

/-! ## fetcher/fetcher.go -/

/-- An `*http.Request` as `doRequest` hands it to the client. `Body` is the body reader,
`none` when the request has no body. -/
structure HTTPRequest where
  Method : String
  URL : String
  Header : List (String × String)
  Body : Option String
  deriving DecidableEq, Repr

/-- An `*http.Response` as the client returns it: the status, the `Content-Type` header, and
the body stream, given by the bytes it delivers and the error, if any, with which it ends
instead of `io.EOF`. -/
structure HTTPResponse where
  StatusCode : Int
  Status : String
  ContentType : String
  Body : List UInt8
  BodyErr : Option GoError
  deriving DecidableEq, Repr

/-- What lies outside the fetcher during one request attempt. -/
structure HTTPWorld where
  /-- The error of `http.NewRequest` for the method and the URL, `none` when it builds the
  request. -/
  newRequest : String → String → Option GoError
  /-- The canonical form of a header key (`textproto.CanonicalMIMEHeaderKey`). -/
  canonicalKey : String → String
  /-- The result of `f.client.Do`. -/
  clientDo : HTTPRequest → Except GoError HTTPResponse

/-- Go `http.Header.Set`: the value replaces the values stored under the canonical key. -/
def headerSet (w : HTTPWorld) (h : List (String × String)) (key value : String) :
    List (String × String) :=
  h.filter (fun kv => kv.1 ≠ w.canonicalKey key) ++ [(w.canonicalKey key, value)]

/-- The constant `maxBodySize` of `doRequest`: 10 MiB. -/
def maxBodySize : Nat := 10 * 1024 * 1024

/-- Go `io.ReadAll(io.LimitReader(httpResp.Body, n))`: the first `n` bytes of the stream when
it delivers that many; otherwise everything it delivers, or the error it ends with. -/
def readAllLimited (resp : HTTPResponse) (n : Nat) : Except GoError (List UInt8) :=
  if n ≤ resp.Body.length then .ok (resp.Body.take n)
  else
    match resp.BodyErr with
    | some err => .error err
    | none => .ok resp.Body

/-- The number of bytes `httpResp.Body.Read(buf[:])` reads into the one-byte buffer once
`consumed` bytes of the stream have been read: 1 if the stream delivers more, else 0. -/
def readOneMore (resp : HTTPResponse) (consumed : Nat) : Nat :=
  if (resp.Body.drop consumed).isEmpty then 0 else 1

/-- Go `(*HTTPFetcher).doRequest`: one request attempt. -/
def HTTPFetcher.doRequest (w : HTTPWorld) (req : Request) : Except GoError Response :=
  let bodyReader := if req.Body ≠ "" then some req.Body else none
  match w.newRequest req.Method req.URL with
  | some err => .error (.wrapf "创建请求失败: " err)
  | none =>
    let header := headerSet w [] "User-Agent" "URL-Monitor/1.0"
    let header := req.Headers.foldl (fun h kv => headerSet w h kv.1 kv.2) header
    match w.clientDo { Method := req.Method, URL := req.URL, Header := header,
                       Body := bodyReader } with
    | .error err => .error (.wrapf "发送请求失败: " err)
    | .ok httpResp =>
      if httpResp.StatusCode < 200 ∨ httpResp.StatusCode ≥ 300 then
        .error (.new ("HTTP错误: " ++ toString httpResp.StatusCode ++ " " ++ httpResp.Status))
      else
        match readAllLimited httpResp maxBodySize with
        | .error err => .error (.wrapf "读取响应失败: " err)
        | .ok body =>
          if body.length = maxBodySize ∧ readOneMore httpResp maxBodySize > 0 then
            .error (.new "响应体过大（超过10MB）")
          else
            .ok { Body := body, ContentType := httpResp.ContentType,
                  StatusCode := httpResp.StatusCode }

/-- What `Fetch` does besides returning, in order. -/
inductive FetchEvent where
  /-- The call `time.Sleep(backoff)`. -/
  | sleep (backoff : Duration)
  /-- The call `f.doRequest(req)` of the attempt with the given number (from 0). -/
  | request (attempt : Nat)
  deriving DecidableEq, Repr

/-- The number of request attempts in a log. -/
def attemptsOf : List FetchEvent → Nat
  | [] => 0
  | FetchEvent.request _ :: l => attemptsOf l + 1
  | FetchEvent.sleep _ :: l => attemptsOf l

/-- The backoffs slept in a log, in order. -/
def sleepsOf : List FetchEvent → List Duration
  | [] => []
  | FetchEvent.sleep d :: l => d :: sleepsOf l
  | FetchEvent.request _ :: l => sleepsOf l

/-- The loop `for attempt := 0; attempt < 3; attempt++` of `Fetch`, with `remaining` the
number of iterations left (3 - attempt), and what follows the loop. `outcome k` is the
result of `f.doRequest(req)` in attempt `k`. -/
def HTTPFetcher.fetchLoop (outcome : Nat → Except GoError Response) :
    Nat → Nat → Option GoError → List FetchEvent → Except GoError Response × List FetchEvent
  | 0, _, lastErr, log =>
    match lastErr with
    | some err => (.error (.wrapf "请求失败（已重试3次）: " err), log)
    | none => (.error (.new "请求失败（已重试3次）: %!w(<nil>)"), log)
  | remaining + 1, attempt, _, log =>
    let log :=
      if attempt > 0 then log ++ [FetchEvent.sleep (((1 <<< (attempt - 1) : Nat) : Int) * Second)]
      else log
    let log := log ++ [FetchEvent.request attempt]
    match outcome attempt with
    | .ok resp => (.ok resp, log)
    | .error err => HTTPFetcher.fetchLoop outcome remaining (attempt + 1) (some err) log

/-- Go `(*HTTPFetcher).Fetch`: the result and the log of sleeps and request attempts.
`w k` is the world at attempt `k`. -/
def HTTPFetcher.Fetch (w : Nat → HTTPWorld) (req : Request) :
    Except GoError Response × List FetchEvent :=
  HTTPFetcher.fetchLoop (fun k => HTTPFetcher.doRequest (w k) req) 3 0 none []

/-- The `CheckRedirect` function installed by `NewHTTPFetcher`. -/
def HTTPFetcher.CheckRedirect (_req : HTTPRequest) (via : List HTTPRequest) : Option GoError :=
  if via.length ≥ 10 then some (.new "重定向次数过多") else none

/-- What a server answers to a request. -/
inductive ServerAnswer where
  /-- A response that is not a redirect. -/
  | response (resp : HTTPResponse)
  /-- A redirect to the location. -/
  | redirect (location : String)
  /-- No response: the transport fails. -/
  | failure (err : GoError)
  deriving DecidableEq, Repr

/-- Go `net/http`, `urlErrorOp`: the operation named in a `*url.Error`, the method with its
first letter kept and the rest in lower case. -/
def urlErrorOp (method : String) : String :=
  match method.data with
  | [] => "Get"
  | c :: cs => String.mk (c :: cs.map Char.toLower)

/-- Go `net/http`, `(*Client).do`, as its documentation describes it: the request is sent and
added to the requests made; when the answer is a redirect the client builds the request for
the location and calls `CheckRedirect` with that upcoming request and the requests made
already, oldest first; an error of `CheckRedirect` ends the call, wrapped in a `*url.Error`,
and otherwise the upcoming request is sent in turn. `server k req` is the answer to `req`
when `k` requests were made before it. The result is `none` when `fuel` requests did not
end the call. -/
def Client.do (checkRedirect : HTTPRequest → List HTTPRequest → Option GoError)
    (server : Nat → HTTPRequest → ServerAnswer) :
    Nat → HTTPRequest → List HTTPRequest → Option (Except GoError HTTPResponse)
  | 0, _, _ => none
  | fuel + 1, req, reqs =>
    match server reqs.length req with
    | .failure err =>
      some (.error (.wrapf (urlErrorOp req.Method ++ " \"" ++ req.URL ++ "\": ") err))
    | .response resp => some (.ok resp)
    | .redirect location =>
      let next := { req with URL := location }
      match checkRedirect next (reqs ++ [req]) with
      | some err =>
        some (.error (.wrapf (urlErrorOp req.Method ++ " \"" ++ location ++ "\": ") err))
      | none => Client.do checkRedirect server fuel next (reqs ++ [req])

/-- The call `f.client.Do(httpReq)` of the fetcher's client against a server; eleven
requests always end the call (see `client_do_total`). -/
def HTTPFetcher.clientDo (server : Nat → HTTPRequest → ServerAnswer) (req : HTTPRequest) :
    Except GoError HTTPResponse :=
  match Client.do HTTPFetcher.CheckRedirect server 11 req [] with
  | some r => r
  | none => .error (.new "net/http: request did not end")

/-- A server that redirects the first `n` requests of a chain and answers the next one with
`final`. -/
def redirectChain (n : Nat) (final : HTTPResponse) : Nat → HTTPRequest → ServerAnswer :=
  fun k _ => if k < n then .redirect "/next" else .response final

/-! ## extractor/regex.go, extractor/css.go, extractor/json.go -/

/-- Go `strings.Join`. -/
def goJoin : List String → String → String
  | [], _ => ""
  | [a], _ => a
  | a :: b :: rest, sep => a ++ sep ++ goJoin (b :: rest) sep

/-- The functions of Go's `regexp` package that `RegexExtractor` calls on its compiled
pattern, given by the pattern's text. -/
structure RegexLib where
  /-- The result of `re.FindAllStringSubmatch(text, -1)`: for each non-overlapping match, in
  order of occurrence, the whole match followed by the text of each capture group. -/
  findAllStringSubmatch : String → List UInt8 → List (List String)
  /-- The result of `re.NumSubexp()`: the number of capture groups of the pattern. -/
  numSubexp : String → Nat

/-- The loop of `Extract` over the matches: capture group 1 when the match has more than one
entry, else the whole match. -/
def RegexExtractor.collect : List (List String) → List String → List String
  | [], results => results
  | m :: rest, results =>
    if m.length > 1 then RegexExtractor.collect rest (results ++ [m.getD 1 ""])
    else if m.length > 0 then RegexExtractor.collect rest (results ++ [m.getD 0 ""])
    else RegexExtractor.collect rest results

/-- Go `(*RegexExtractor).Extract` for the extractor compiled from `pattern`. The matching
runs in a goroutine; `timedOut` tells whether the five-second deadline of the context
passes before the goroutine delivers, in which case the `select` takes `ctx.Done()`. -/
def RegexExtractor.Extract (lib : RegexLib) (pattern : String) (timedOut : Bool)
    (body : List UInt8) : Except GoError String :=
  if timedOut then .error (.new "正则表达式匹配超时（可能存在ReDoS风险）")
  else
    let found := lib.findAllStringSubmatch pattern body
    if found.length = 0 then .error (.new ("正则表达式未匹配到任何内容: " ++ pattern))
    else .ok (goJoin (RegexExtractor.collect found []) "\n")

/-- Go `unicode.IsSpace`: the characters with the Unicode property White_Space. -/
def goIsSpace (c : Char) : Bool :=
  c = '\t' || c = '\n' || c.toNat = 0x0B || c.toNat = 0x0C || c = '\r' || c = ' ' ||
  c.toNat = 0x85 || c.toNat = 0xA0 || c.toNat = 0x1680 ||
  (0x2000 ≤ c.toNat && c.toNat ≤ 0x200A) || c.toNat = 0x2028 || c.toNat = 0x2029 ||
  c.toNat = 0x202F || c.toNat = 0x205F || c.toNat = 0x3000

/-- Go `strings.TrimSpace`: the string without leading and trailing white space. -/
def goTrimSpace (s : String) : String :=
  String.mk ((s.data.dropWhile goIsSpace).reverse.dropWhile goIsSpace).reverse

/-- The functions of `goquery` that `CSSExtractor` calls. -/
structure HTMLLib where
  /-- The error of `goquery.NewDocumentFromReader` on the body, `none` when it parses. -/
  parse : List UInt8 → Option GoError
  /-- The elements `doc.Find(selector)` selects in the parsed body, in document order, each
  given by its `Text()`. -/
  findTexts : List UInt8 → String → List String

/-- The callback of `selection.Each` in `Extract`, run over the selected elements in order:
the trimmed text of an element is appended when it is not empty. -/
def CSSExtractor.collect : List String → List String → List String
  | [], results => results
  | s :: rest, results =>
    let text := goTrimSpace s
    if text ≠ "" then CSSExtractor.collect rest (results ++ [text])
    else CSSExtractor.collect rest results

/-- Go `(*CSSExtractor).Extract` for the extractor with the selector. -/
def CSSExtractor.Extract (lib : HTMLLib) (selector : String) (body : List UInt8) :
    Except GoError String :=
  match lib.parse body with
  | some err => .error (.wrapf "解析HTML失败: " err)
  | none =>
    let selection := lib.findTexts body selector
    if selection.length = 0 then .error (.new ("CSS选择器未匹配到任何元素: " ++ selector))
    else
      let results := CSSExtractor.collect selection []
      if results.length = 0 then .error (.new "匹配的元素没有文本内容")
      else .ok (goJoin results "\n")

/-- Go `gjson.Type`. -/
inductive GjsonType where
  | Null | False | Number | String | True | JSON
  deriving DecidableEq, Repr

/-- Go `gjson.Result`: `Kind`, the field `Type` of the value, `Raw`, the text of the value (for a value of
the input, as it is written there), `Str`, the decoded text of a string value, and
`NumText`, which stands for the number `Num` through its rendering
`strconv.FormatFloat(t.Num, 'f', -1, 64)`. -/
structure GjsonResult where
  Kind : GjsonType
  Raw : String
  Str : String
  NumText : String
  deriving DecidableEq, Repr

/-- Go `gjson.Result.Exists`. -/
def GjsonResult.Exists (t : GjsonResult) : Bool :=
  t.Kind ≠ GjsonType.Null || goLen t.Raw ≠ 0

/-- The test of `gjson.Result.String` on a number: `Raw` is an optional minus sign followed
by digits only. -/
def GjsonResult.plainInteger (raw : String) : Bool :=
  match raw.data with
  | [] => false
  | c :: cs => (if c = '-' then cs else c :: cs).all fun d => '0' ≤ d && d ≤ '9'

/-- Go `gjson.Result.String`. -/
def GjsonResult.String (t : GjsonResult) : String :=
  match t.Kind with
  | .Null => ""
  | .False => "false"
  | .Number =>
    if goLen t.Raw = 0 then t.NumText
    else if GjsonResult.plainInteger t.Raw then t.Raw
    else t.NumText
  | .String => t.Str
  | .JSON => t.Raw
  | .True => "true"

/-- The functions of `gjson` that `JSONExtractor` calls. -/
structure GjsonLib where
  /-- The result of `gjson.ValidBytes`. -/
  ValidBytes : List UInt8 → Bool
  /-- The result of `gjson.GetBytes` for the body and the path. -/
  GetBytes : List UInt8 → String → GjsonResult

/-- Go `(*JSONExtractor).Extract` for the extractor with the path. -/
def JSONExtractor.Extract (lib : GjsonLib) (path : String) (body : List UInt8) :
    Except GoError String :=
  if !lib.ValidBytes body then .error (.new "无效的JSON格式")
  else
    let result := lib.GetBytes body path
    if !result.Exists then .error (.new ("JSON路径未找到: " ++ path))
    else .ok result.String

/-! ## core/event.go: the event bus -/

/-- An `EventListener`: `name` identifies the listener object, and `OnEvent` tells what its
method does with an event: it returns or it panics. -/
structure EventListener where
  name : String
  OnEvent : Event → Run Unit

/-- Go `core.DefaultEventBus`. -/
structure DefaultEventBus where
  listeners : List EventListener

/-- Go `NewEventBus`. -/
def NewEventBus : DefaultEventBus := { listeners := [] }

/-- Go `(*DefaultEventBus).Subscribe`. -/
def DefaultEventBus.Subscribe (b : DefaultEventBus) (listener : EventListener) :
    DefaultEventBus :=
  { b with listeners := b.listeners ++ [listener] }

/-- A goroutine launched by `Publish`: the listener it calls, the event it hands over, and
how the goroutine ends. -/
structure Delivery where
  listener : String
  event : Event
  outcome : Run Unit
  deriving DecidableEq, Repr

/-- The body of the goroutine `Publish` launches for a listener: `l.OnEvent(event)` under
the deferred `recover()`, which ends a panic of the listener: the goroutine returns. -/
def DefaultEventBus.dispatch (l : EventListener) (event : Event) : Run Unit :=
  match l.OnEvent event with
  | .ret _ => .ret ()
  | .panic _ => .ret ()

/-- Go `(*DefaultEventBus).Publish`: the bus afterwards and the goroutines launched, one for
each listener of the copy taken under the read lock, in the order of the loop. The
goroutines run on their own, so the order in which the listeners see the event is not
fixed; `Publish` itself returns as soon as they are launched. -/
def DefaultEventBus.Publish (b : DefaultEventBus) (event : Event) :
    DefaultEventBus × List Delivery :=
  let listeners := b.listeners
  (b, listeners.map fun l =>
    { listener := l.name, event := event, outcome := DefaultEventBus.dispatch l event })

/-! ## models/rule.go (`Duration` in YAML) and config/manager.go (the YAML document) -/

/-- The functions of Go's `time` package that `Duration` calls. -/
structure TimeLib where
  /-- The result of `time.Duration(d).String()`. -/
  durationString : Duration → String
  /-- The result of `time.ParseDuration`. -/
  parseDuration : String → Except GoError Duration

/-- Go `Duration.MarshalYAML`: the duration is written as the text `String()` gives. -/
def Duration.MarshalYAML (lib : TimeLib) (d : Duration) : String :=
  lib.durationString d

/-- Go `(*Duration).UnmarshalYAML` on a scalar with text `s`. -/
def Duration.UnmarshalYAML (lib : TimeLib) (s : String) : Except GoError Duration :=
  match lib.parseDuration s with
  | .error err => .error err
  | .ok tmp => .ok tmp

/-- The YAML mapping of a rule, named by the `yaml` tags of `MonitorRule`: a field tagged
`omitempty` is absent when its value is empty, and the interval is the text written by
`Duration.MarshalYAML`. -/
structure RuleYAML where
  id : String
  name : String
  description : String
  url : String
  method : String
  headers : Option (List (String × String))
  body : Option String
  interval : String
  extractor_type : String
  extractor_expr : String
  notify_enabled : Bool
  enabled : Bool
  last_content : String
  last_checked : String
  status : String
  error_message : Option String
  deriving DecidableEq, Repr

/-- What `yaml.Marshal` writes for a rule. -/
def MonitorRule.toYAML (lib : TimeLib) (r : MonitorRule) : RuleYAML :=
  { id := r.ID, name := r.Name, description := r.Description, url := r.URL,
    method := r.Method,
    headers := if r.Headers.length = 0 then none else some r.Headers,
    body := if r.Body = "" then none else some r.Body,
    interval := Duration.MarshalYAML lib r.Interval,
    extractor_type := r.ExtractorType, extractor_expr := r.ExtractorExpr,
    notify_enabled := r.NotifyEnabled, enabled := r.Enabled,
    last_content := r.LastContent, last_checked := r.LastChecked, status := r.Status,
    error_message := if r.ErrorMessage = "" then none else some r.ErrorMessage }

/-- What `yaml.Unmarshal` reads from the mapping of a rule: an absent field keeps the zero
value, and the interval goes through `Duration.UnmarshalYAML`. -/
def MonitorRule.ofYAML (lib : TimeLib) (y : RuleYAML) : Except GoError MonitorRule :=
  match Duration.UnmarshalYAML lib y.interval with
  | .error err => .error err
  | .ok interval =>
    .ok { ID := y.id, Name := y.name, Description := y.description, URL := y.url,
          Method := y.method, Headers := y.headers.getD [], Body := y.body.getD "",
          Interval := interval, ExtractorType := y.extractor_type,
          ExtractorExpr := y.extractor_expr, NotifyEnabled := y.notify_enabled,
          Enabled := y.enabled, LastContent := y.last_content,
          LastChecked := y.last_checked, Status := y.status,
          ErrorMessage := y.error_message.getD "" }

/-- What `yaml.Unmarshal` reads from the sequence under `rules`: the first rule that cannot
be read fails the whole call. -/
def rulesOfYAML (lib : TimeLib) : List RuleYAML → Except GoError (List MonitorRule)
  | [] => .ok []
  | y :: ys =>
    match MonitorRule.ofYAML lib y with
    | .error err => .error err
    | .ok r =>
      match rulesOfYAML lib ys with
      | .error err => .error err
      | .ok rs => .ok (r :: rs)

/-- The YAML document of Go `config.Config`. -/
structure ConfigYAML where
  version : String
  rules : List RuleYAML
  deriving DecidableEq, Repr

/-- The configuration file as a YAML document: `none` when the file does not exist. -/
structure ConfigFile where
  content : Option ConfigYAML
  deriving DecidableEq, Repr

/-- Go `(*YAMLManager).Save` with the document it writes made explicit: `yaml.Marshal` of
`Config{Version: "1.0", Rules: rules}` (which does not fail on these types), written to a
temporary file that is renamed over the configuration file. -/
def ConfigFile.Save (lib : TimeLib) (io : Faults) (f : ConfigFile) (rules : List MonitorRule) :
    ConfigFile × Option GoError :=
  let data : ConfigYAML := { version := "1.0", rules := rules.map (MonitorRule.toYAML lib) }
  match io.write with
  | some err => (f, some (.wrapf "写入临时配置文件失败: " err))
  | none =>
    match io.rename with
    | some err => (f, some (.wrapf "更新配置文件失败: " err))
    | none => ({ content := some data }, none)

/-- Go `(*YAMLManager).Load` with the document it reads made explicit. -/
def ConfigFile.Load (lib : TimeLib) (io : Faults) (f : ConfigFile) :
    Except GoError (List MonitorRule) :=
  match f.content with
  | none => .ok []
  | some data =>
    match io.read with
    | some err => .error (.wrapf "读取配置文件失败: " err)
    | none =>
      match rulesOfYAML lib data.rules with
      | .error err => .error (.wrapf "解析配置文件失败: " err)
      | .ok rules => .ok rules

/-! ## Concrete inputs used to evaluate the definitions -/

/-- A library in which every URL except `"://invalid-url"` parses and every pattern except
`"("` compiles. -/
def demoLib : Lib where
  urlParse := fun u => if u = "://invalid-url" then some (.new "missing protocol scheme") else none
  regexCompile := fun p => if p = "(" then some (.new "missing closing )") else none

/-- A valid rule, as in the first case of `TestMonitorRule_Validate`, checking every second. -/
def demoRule : MonitorRule where
  ID := "a"
  Name := "demo"
  Description := ""
  URL := "https://example.com"
  Method := "GET"
  Headers := []
  Body := ""
  Interval := Second
  ExtractorType := ExtractorCSS
  ExtractorExpr := ".content"
  NotifyEnabled := true
  Enabled := true
  LastContent := ""
  LastChecked := ""
  Status := ""
  ErrorMessage := ""

/-- A task for `demoRule` as `NewTask` builds it, with an update callback. -/
def demoTask : Task where
  rule := demoRule
  extractor := .css ".content"
  ticker := none
  stopClosed := false
  running := false
  hasOnUpdate := true

/-- Collaborators for which the fetch succeeds and the extraction yields `"v2"`. -/
def demoEnv : CheckEnv where
  fetch := fun _ => .ok { Body := [], ContentType := "text/html", StatusCode := 200 }
  extract := fun _ _ _ => .ok "v2"
  notify := fun _ _ => none
  now := "2024-01-01T00:00:00Z"

/-- Collaborators for which the fetch fails. -/
def demoEnvFetchFails : CheckEnv where
  fetch := fun _ => .error (.new "connection refused")
  extract := fun _ _ _ => .ok "v2"
  notify := fun _ _ => none
  now := "2024-01-01T00:00:00Z"

/-- An engine with no rules, no tasks and no configuration file. -/
def emptyEngine : Engine := NewEngine { file := none } (NewMonitorService true)

/-- A valid rule carrying the ID of `demoRule` but another name, and disabled. -/
def dupRule : MonitorRule := { demoRule with Name := "other", Enabled := false }

/-- The rule `demoRule`, disabled. -/
def pausedRule : MonitorRule := { demoRule with Enabled := false }

/-- A valid, enabled rule with the ID of `demoRule` whose regular expression does not
compile: `Validate` does not compile the pattern. -/
def badRegexRule : MonitorRule :=
  { demoRule with ExtractorType := ExtractorRegex, ExtractorExpr := "(" }

/-- An engine holding `pausedRule` in memory and in the file, with no task. -/
def demoEngine : Engine :=
  { configMgr := { file := some [pausedRule] }, monitorSvc := NewMonitorService true,
    rules := [pausedRule], published := [] }

/-- The value a call returned, or `d` if it panicked. -/
def Run.getD {α : Type} (r : Run α) (d : α) : α :=
  match r with
  | .ret a => a
  | .panic _ => d

/-- A run in which every call returns and none fails to save: add the enabled `demoRule`,
stop monitoring it, delete a rule that does not exist. -/
def demoOps : List EngineOp :=
  [.AddRule Faults.none "u1" demoRule, .StopMonitoring Faults.none "a",
   .DeleteRule Faults.none "b"]

/-- The engine after `demoOps` and the errors returned. -/
def demoOutcome : Engine × List (Option GoError) :=
  (Engine.runOps demoLib emptyEngine demoOps).getD (emptyEngine, [])

/-- New content of 67 Chinese characters: 67 characters, 201 bytes. -/
def cjkContent : String := String.mk (List.replicate 67 '内')

/-- Collaborators for which the fetch succeeds and the extraction yields `cjkContent`. -/
def cjkEnv : CheckEnv where
  fetch := fun _ => .ok { Body := [], ContentType := "text/html", StatusCode := 200 }
  extract := fun _ _ _ => .ok cjkContent
  notify := fun _ _ => none
  now := "2024-01-01T00:00:00Z"

/-- The service after `StartTask(demoRule)` on an empty registry followed by
`UpdateTask(demoRule)`: the task is stopped, updated and started again. -/
def restartedService : MonitorService :=
  ((((NewMonitorService true).StartTask demoLib demoRule).bind fun r =>
      r.1.UpdateTask demoLib demoRule).getD (NewMonitorService true, none)).1

/-- The service after `StartTask(demoRule)` on an empty registry. -/
def startedService : MonitorService :=
  (((NewMonitorService true).StartTask demoLib demoRule).getD (NewMonitorService true, none)).1

/-- The rule `AddRule` appends and persists once validation has succeeded: the rule as
`Validate` left it, with `newID` as ID when it had none, then with status idle when it had
none. -/
def Engine.addedRule (lib : Lib) (newID : String) (rule : MonitorRule) : MonitorRule :=
  let rule := (rule.Validate lib).1
  let rule := if rule.ID = "" then { rule with ID := newID } else rule
  if rule.Status = "" then { rule with Status := StatusIdle } else rule

/-- A world in which the request is built and the client returns a response with the given
status code and the body "ok". -/
def statusWorld (code : Int) : HTTPWorld where
  newRequest := fun _ _ => none
  canonicalKey := fun k => k
  clientDo := fun _ =>
    .ok { StatusCode := code, Status := "", ContentType := "text/plain",
          Body := [111, 107], BodyErr := none }

/-- The server of `TestHTTPFetcher_Fetch_Retry`: status 500 in the first two attempts,
status 200 afterwards. -/
def retryWorld : Nat → HTTPWorld :=
  fun k => if k < 2 then statusWorld 500 else statusWorld 200

/-- The request of the fetcher tests. -/
def demoRequest : Request := { URL := "http://server", Method := "GET", Headers := [], Body := "" }

/-- A final response with status 200 and the body "ok". -/
def okResponse : HTTPResponse :=
  { StatusCode := 200, Status := "200 OK", ContentType := "text/plain", Body := [111, 107],
    BodyErr := none }

/-- A world whose server redirects `n` times and then answers `okResponse`, seen through the
fetcher's client. -/
def redirectWorld (n : Nat) : HTTPWorld where
  newRequest := fun _ _ => none
  canonicalKey := fun k => k
  clientDo := HTTPFetcher.clientDo (redirectChain n okResponse)

/-- The request `doRequest` hands to the client for `demoRequest`. -/
def demoHTTPRequest : HTTPRequest :=
  { Method := "GET", URL := "http://server", Header := [("User-Agent", "URL-Monitor/1.0")],
    Body := none }

/-- The regexp package on two cases of `TestRegexExtractor_Extract`: the pattern with a
capture group on "name: John, age: 30, name: Jane", and the pattern `\d+` on
"The price is 100 dollars and 50 cents"; no match elsewhere. -/
def demoRegexLib : RegexLib where
  findAllStringSubmatch := fun pattern body =>
    if pattern = "name:\\s*(\\w+)" ∧ body = goBytes "name: John, age: 30, name: Jane" then
      [["name: John", "John"], ["name: Jane", "Jane"]]
    else if pattern = "\\d+" ∧ body = goBytes "The price is 100 dollars and 50 cents" then
      [["100"], ["50"]]
    else []
  numSubexp := fun pattern => if pattern = "name:\\s*(\\w+)" then 1 else 0

/-- The goquery package on a document in which ".text" selects one element with text
"   Content with spaces   " and ".empty" one element with no text (as in
`TestCSSExtractor_Extract`), ".item" selects three elements, the second with white space
only, and no other selector selects anything. -/
def demoHTMLLib : HTMLLib where
  parse := fun _ => none
  findTexts := fun _ selector =>
    if selector = ".text" then ["   Content with spaces   "]
    else if selector = ".empty" then [""]
    else if selector = ".item" then ["Item 1", " \n ", "Item 3\n"]
    else []

/-- The result gjson gives for a path that resolves to nothing: the zero `Result`. -/
def GjsonResult.missing : GjsonResult := { Kind := .Null, Raw := "", Str := "", NumText := "0" }

/-- The gjson package on the inputs of `TestJSONExtractor_Extract`, with the results that
make `Extract` return what the test cases expect. -/
def demoGjson : GjsonLib where
  ValidBytes := fun body => body ≠ goBytes "{invalid json}"
  GetBytes := fun body path =>
    if body = goBytes "\x7b\"tags\": [\"go\", \"json\", \"api\"]\x7d" ∧ path = "tags" then
      { Kind := .JSON, Raw := "[\"go\", \"json\", \"api\"]", Str := "", NumText := "0" }
    else if body = goBytes "\x7b\"users\": [\x7b\"name\": \"John\"\x7d, \x7b\"name\": \"Jane\"\x7d]\x7d" ∧
        path = "users.#.name" then
      { Kind := .JSON, Raw := "[\"John\",\"Jane\"]", Str := "", NumText := "0" }
    else if body = goBytes "\x7b\"value\": null\x7d" ∧ path = "value" then
      { Kind := .Null, Raw := "null", Str := "", NumText := "0" }
    else if body = goBytes "\x7b\"count\": 42, \"price\": 19.99\x7d" ∧ path = "count" then
      { Kind := .Number, Raw := "42", Str := "", NumText := "42" }
    else if body = goBytes "\x7b\"name\": \"John\", \"age\": 30\x7d" ∧ path = "name" then
      { Kind := .String, Raw := "\"John\"", Str := "John", NumText := "0" }
    else GjsonResult.missing

/-- A bus with three listeners, the second of which panics on every event. -/
def demoBus : DefaultEventBus :=
  ((NewEventBus.Subscribe { name := "ui", OnEvent := fun _ => .ret () }).Subscribe
    { name := "broken", OnEvent := fun _ => .panic "listener failed" }).Subscribe
    { name := "log", OnEvent := fun _ => .ret () }

/-- A rule-added event for `demoRule`. -/
def demoEvent : Event := { Kind := EventRuleAdded, RuleID := "a", Rule := some demoRule }

/-- The time package on the durations of the demo rules: one second, five minutes, and
1.5 seconds. -/
def demoTimeLib : TimeLib where
  durationString := fun d =>
    if d = 1000000000 then "1s" else if d = 300000000000 then "5m0s"
    else if d = 1500000000 then "1.5s" else "?"
  parseDuration := fun s =>
    if s = "1s" then .ok 1000000000 else if s = "5m0s" then .ok 300000000000
    else if s = "1.5s" then .ok 1500000000
    else .error (.new ("time: invalid duration " ++ s))

/-- The second rule of the test "保存和加载规则": a POST rule with a header and a body,
here with an interval of 1.5 seconds. -/
def postRule : MonitorRule :=
  { demoRule with
      ID := "b", Name := "测试规则2", URL := "https://api.example.com", Method := "POST",
      Headers := [("Authorization", "Bearer token")], Body := "\x7b\"query\": \"test\"\x7d",
      Interval := 1500000000, ExtractorType := ExtractorJSON, ExtractorExpr := "data.result",
      NotifyEnabled := false, Enabled := false }

/-- The YAML mapping of `demoRule` with the interval text replaced by "soon". -/
def badIntervalRule : RuleYAML :=
  { (MonitorRule.toYAML demoTimeLib demoRule) with interval := "soon" }

/-- A configuration file holding `badIntervalRule`. -/
def badIntervalFile : ConfigFile :=
  { content := some { version := "1.0", rules := [badIntervalRule] } }

/-! ## Theorems -/

/-! ### models/rule.go: `Validate` -/

theorem validMethods_contains_default : DefaultMethod ∈ validMethods := by decide

/-- C10: `Validate` returns an error exactly when the name is empty, the URL is empty, the
URL does not parse, the method is non-empty and not one of the seven methods, the interval
is below one second, the extractor expression is empty, or the extractor kind is not one of
css, regex, json. An interval of exactly one second is accepted, and the lower-case method
"get" is rejected. -/
theorem validate_error_iff (lib : Lib) (r : MonitorRule) :
    ((r.Validate lib).2.isSome = true ↔
      (r.Name = "" ∨ r.URL = "" ∨ (lib.urlParse r.URL).isSome = true ∨
        (r.Method ≠ "" ∧ r.Method ∉ ["GET", "POST", "PUT", "DELETE", "PATCH", "HEAD", "OPTIONS"]) ∨
        r.Interval < 1000000000 ∨ r.ExtractorExpr = "" ∨
        r.ExtractorType ∉ ["css", "regex", "json"])) ∧
    ((({ r with Name := "n", URL := "u", Method := "GET", Interval := 1000000000,
                ExtractorExpr := "e", ExtractorType := "css" } : MonitorRule).Validate
        { lib with urlParse := fun _ => none }).2 = none) ∧
    (({ r with Method := "get" } : MonitorRule).Validate lib).2.isSome = true := by
  refine ⟨?_, ?_, ?_⟩
  · unfold MonitorRule.Validate
    by_cases h1 : r.Name = ""
    · simp [h1]
    by_cases h2 : r.URL = ""
    · simp [h1, h2]
    cases h3 : lib.urlParse r.URL with
    | some err => simp [h1, h2, h3]
    | none =>
      by_cases h4 : r.Method = ""
      · by_cases h5 : r.Interval < Second
        · have h5' : r.Interval < 1000000000 := h5
          simp [h1, h2, h3, h4, validMethods_contains_default, h5, h5']
        · have h5' : ¬ r.Interval < 1000000000 := h5
          by_cases h6 : r.ExtractorExpr = ""
          · simp [h1, h2, h3, h4, validMethods_contains_default, h5, h6]
          · by_cases h7 : r.ExtractorType ∈ validExtractors
            · have h7' : r.ExtractorType = "css" ∨ r.ExtractorType = "regex" ∨
                  r.ExtractorType = "json" := by
                simpa [validExtractors, ExtractorCSS, ExtractorRegex, ExtractorJSON] using h7
              simp [h1, h2, h3, h4, validMethods_contains_default, h5, h5', h6, h7, h7']
            · have h7' : ¬ (r.ExtractorType = "css" ∨ r.ExtractorType = "regex" ∨
                  r.ExtractorType = "json") := by
                simpa [validExtractors, ExtractorCSS, ExtractorRegex, ExtractorJSON] using h7
              simp [h1, h2, h3, h4, validMethods_contains_default, h5, h5', h6, h7, h7']
      · by_cases hm : r.Method ∈ validMethods
        · have hm' : r.Method = "GET" ∨ r.Method = "POST" ∨ r.Method = "PUT" ∨
              r.Method = "DELETE" ∨ r.Method = "PATCH" ∨ r.Method = "HEAD" ∨
              r.Method = "OPTIONS" := by
            simpa [validMethods] using hm
          by_cases h5 : r.Interval < Second
          · have h5' : r.Interval < 1000000000 := h5
            simp [h1, h2, h3, h4, hm, h5, h5']
          · have h5' : ¬ r.Interval < 1000000000 := h5
            by_cases h6 : r.ExtractorExpr = ""
            · simp [h1, h2, h3, h4, hm, h5, h6]
            · by_cases h7 : r.ExtractorType ∈ validExtractors
              · have h7' : r.ExtractorType = "css" ∨ r.ExtractorType = "regex" ∨
                    r.ExtractorType = "json" := by
                  simpa [validExtractors, ExtractorCSS, ExtractorRegex, ExtractorJSON] using h7
                simp [h1, h2, h3, h4, hm, hm', h5, h5', h6, h7, h7']
              · have h7' : ¬ (r.ExtractorType = "css" ∨ r.ExtractorType = "regex" ∨
                    r.ExtractorType = "json") := by
                  simpa [validExtractors, ExtractorCSS, ExtractorRegex, ExtractorJSON] using h7
                simp [h1, h2, h3, h4, hm, h5, h5', h6, h7, h7']
        · have hm' : ¬ (r.Method = "GET" ∨ r.Method = "POST" ∨ r.Method = "PUT" ∨
              r.Method = "DELETE" ∨ r.Method = "PATCH" ∨ r.Method = "HEAD" ∨
              r.Method = "OPTIONS") := by
            simpa [validMethods] using hm
          simp [h1, h2, h3, h4, hm, hm']
  · simp [MonitorRule.Validate, validMethods, validExtractors, ExtractorCSS, Second]
  · unfold MonitorRule.Validate
    by_cases h1 : r.Name = ""
    · simp [h1]
    by_cases h2 : r.URL = ""
    · simp [h1, h2]
    cases h3 : lib.urlParse r.URL with
    | some err => simp [h1, h2, h3]
    | none => simp [h1, h2, h3, validMethods]

/-! ### monitor/task.go: one check cycle -/

@[simp] theorem updatesOf_append (a b : List Effect) :
    updatesOf (a ++ b) = updatesOf a ++ updatesOf b := by
  induction a with
  | nil => rfl
  | cons x xs ih => cases x <;> simp [updatesOf, ih]

@[simp] theorem notificationsOf_append (a b : List Effect) :
    notificationsOf (a ++ b) = notificationsOf a ++ notificationsOf b := by
  induction a with
  | nil => rfl
  | cons x xs ih => cases x <;> simp [notificationsOf, ih]

theorem notificationsOf_notifyUpdate (t : Task) : notificationsOf t.notifyUpdate = [] := by
  unfold Task.notifyUpdate; split <;> rfl

theorem updatesOf_notifyUpdate (t : Task) (h : t.hasOnUpdate = true) :
    updatesOf t.notifyUpdate = [t.rule] := by
  simp [Task.notifyUpdate, h, updatesOf]

theorem GoError.Error_wrapf_ne_empty (pre : String) (err : GoError) (h : pre ≠ "") :
    (GoError.wrapf pre err).Error ≠ "" := by
  intro hc
  have hl : (pre ++ err.Error).length = 0 := by
    have : (GoError.wrapf pre err).Error = pre ++ err.Error := rfl
    rw [← this, hc]; rfl
  rw [String.length_append] at hl
  have hp : pre.length = 0 := by omega
  apply h
  cases pre with
  | mk data =>
    have : data = [] := List.length_eq_zero.mp hp
    subst this; rfl

/-- C1: in a check cycle in which fetch and extraction succeed with content `c`, the
notifier is invoked exactly once if the previous last content is non-empty, differs from
`c` and the notify flag is set, and not at all otherwise; a first check (empty previous
content) never notifies. -/
theorem runOnce_notifies_iff (env : CheckEnv) (t : Task) (resp : Response) (c : String)
    (hf : env.fetch t.request = .ok resp)
    (hx : env.extract t.extractor resp.Body resp.ContentType = .ok c) :
    (notificationsOf (t.RunOnce env).2.1).length =
        (if t.rule.LastContent ≠ "" ∧ t.rule.LastContent ≠ c ∧ t.rule.NotifyEnabled = true
          then 1 else 0) ∧
      (t.rule.LastContent = "" → notificationsOf (t.RunOnce env).2.1 = []) := by
  have hf' : env.fetch (Task.request { t with rule := { t.rule with
      Status := StatusRunning, ErrorMessage := "" } }) = .ok resp := hf
  simp only [Task.RunOnce, hf', hx]
  by_cases h1 : t.rule.LastContent = ""
  · simp [h1, notificationsOf_notifyUpdate, notificationsOf]
  · by_cases h2 : t.rule.LastContent = c
    · simp [h1, h2, notificationsOf_notifyUpdate, notificationsOf]
    · by_cases h3 : t.rule.NotifyEnabled = true
      · simp [h1, h2, h3, notificationsOf_notifyUpdate, notificationsOf, Task.sendNotification]
      · simp [h1, h2, h3, notificationsOf_notifyUpdate, notificationsOf]

/-- C1 at a concrete task: previous content "v1", new content "v2", notifications on. -/
theorem runOnce_notifies_iff_witness :
    (notificationsOf (({ demoTask with rule := { demoRule with LastContent := "v1" } } :
        Task).RunOnce demoEnv).2.1).length = 1 :=
  (runOnce_notifies_iff demoEnv { demoTask with rule := { demoRule with LastContent := "v1" } }
    { Body := [], ContentType := "text/html", StatusCode := 200 } "v2" rfl rfl).1

/-- The rule at the start of a check cycle: status running, error message cleared. -/
theorem runOnce_ok_eq (env : CheckEnv) (t : Task) (resp : Response) (c : String)
    (hf : env.fetch t.request = .ok resp)
    (hx : env.extract t.extractor resp.Body resp.ContentType = .ok c) :
    t.RunOnce env =
      ({ t with rule := { t.rule with Status := StatusRunning, ErrorMessage := "",
                                      LastChecked := env.now, LastContent := c } },
       (Task.notifyUpdate { t with rule := { t.rule with Status := StatusRunning,
                                                         ErrorMessage := "" } } ++
          [Effect.fetch t.request] ++
          (if t.rule.LastContent ≠ "" ∧ t.rule.LastContent ≠ c ∧ t.rule.NotifyEnabled = true then
            (Task.sendNotification env
              { t with rule :=
                { t.rule with Status := StatusRunning, ErrorMessage := "", LastChecked := env.now } }
              c).1
           else [])) ++
          Task.notifyUpdate { t with rule := { t.rule with
            Status := StatusRunning, ErrorMessage := "", LastChecked := env.now, LastContent := c } },
       none) := by
  have hf' : env.fetch (Task.request { t with rule := { t.rule with
      Status := StatusRunning, ErrorMessage := "" } }) = .ok resp := hf
  simp only [Task.RunOnce, hf', hx]
  by_cases h1 : t.rule.LastContent = ""
  · simp [h1, Task.request]
  · by_cases h2 : t.rule.LastContent = c
    · simp [h1, h2, Task.request]
    · by_cases h3 : t.rule.NotifyEnabled = true
      · simp [h1, h2, h3, Task.request]
      · simp [h1, h2, h3, Task.request]

/-- C2: a check cycle in which fetch and extraction succeed with content `c` returns no
error; afterwards the last content is `c`, the status is running and the error message is
empty, whether or not `c` differs from the previous content; the update callback was
invoked exactly twice, as the first effect of the cycle and, with the final rule, as its
last effect. -/
theorem runOnce_success (env : CheckEnv) (t : Task) (resp : Response) (c : String)
    (hcb : t.hasOnUpdate = true)
    (hf : env.fetch t.request = .ok resp)
    (hx : env.extract t.extractor resp.Body resp.ContentType = .ok c) :
    (t.RunOnce env).2.2 = none ∧
      (t.RunOnce env).1.rule.LastContent = c ∧
      (t.RunOnce env).1.rule.Status = StatusRunning ∧
      (t.RunOnce env).1.rule.ErrorMessage = "" ∧
      updatesOf (t.RunOnce env).2.1 =
        [{ t.rule with Status := StatusRunning, ErrorMessage := "" }, (t.RunOnce env).1.rule] ∧
      (t.RunOnce env).2.1.head? =
        some (Effect.onUpdate { t.rule with Status := StatusRunning, ErrorMessage := "" }) ∧
      (t.RunOnce env).2.1.getLast? = some (Effect.onUpdate (t.RunOnce env).1.rule) := by
  rw [runOnce_ok_eq env t resp c hf hx]
  refine ⟨rfl, rfl, rfl, rfl, ?_, ?_, ?_⟩
  · split_ifs <;>
      simp [Task.notifyUpdate, hcb, updatesOf, Task.sendNotification]
  · simp [Task.notifyUpdate, hcb]
  · simp only [Task.notifyUpdate, hcb, if_true]
    exact List.getLast?_concat _

/-- C2 at the first check of `demoTask`. -/
theorem runOnce_success_witness :
    (demoTask.RunOnce demoEnv).2.2 = none ∧
      (demoTask.RunOnce demoEnv).1.rule.LastContent = "v2" :=
  ⟨(runOnce_success demoEnv demoTask { Body := [], ContentType := "text/html", StatusCode := 200 }
      "v2" rfl rfl rfl).1,
   (runOnce_success demoEnv demoTask { Body := [], ContentType := "text/html", StatusCode := 200 }
      "v2" rfl rfl rfl).2.1⟩

/-- The outcome of a check cycle whose fetch fails. -/
theorem runOnce_fetch_error_eq (env : CheckEnv) (t : Task) (err : GoError)
    (hf : env.fetch t.request = .error err) :
    t.RunOnce env =
      ({ t with rule := { t.rule with
           Status := StatusError, ErrorMessage := "HTTP请求失败: " ++ err.Error } },
       (Task.notifyUpdate { t with rule := { t.rule with
           Status := StatusRunning, ErrorMessage := "" } } ++ [Effect.fetch t.request]) ++
         Task.notifyUpdate { t with rule := { t.rule with
           Status := StatusError, ErrorMessage := "HTTP请求失败: " ++ err.Error } },
       some err) := by
  have hf' : env.fetch (Task.request { t with rule := { t.rule with
      Status := StatusRunning, ErrorMessage := "" } }) = .error err := hf
  simp only [Task.RunOnce, hf', Task.handleError]
  rfl

/-- The outcome of a check cycle whose fetch succeeds and whose extraction fails. -/
theorem runOnce_extract_error_eq (env : CheckEnv) (t : Task) (resp : Response) (err : GoError)
    (hf : env.fetch t.request = .ok resp)
    (hx : env.extract t.extractor resp.Body resp.ContentType = .error err) :
    t.RunOnce env =
      ({ t with rule := { t.rule with
           Status := StatusError, ErrorMessage := "内容提取失败: " ++ err.Error } },
       (Task.notifyUpdate { t with rule := { t.rule with
           Status := StatusRunning, ErrorMessage := "" } } ++ [Effect.fetch t.request]) ++
         Task.notifyUpdate { t with rule := { t.rule with
           Status := StatusError, ErrorMessage := "内容提取失败: " ++ err.Error } },
       some err) := by
  have hf' : env.fetch (Task.request { t with rule := { t.rule with
      Status := StatusRunning, ErrorMessage := "" } }) = .ok resp := hf
  simp only [Task.RunOnce, hf', hx, Task.handleError]
  rfl

/-- C3: a check cycle in which the fetch fails, or the fetch succeeds and the extraction
fails, returns the underlying error; the status becomes error with a non-empty error
message (the error's text behind a fixed heading); the update callback, when installed, is
invoked with that final rule as the last effect; no notification is sent; and the last
content is what it was before the cycle. -/
theorem runOnce_failure (env : CheckEnv) (t : Task) (err : GoError)
    (h : env.fetch t.request = .error err ∨
      ∃ resp, env.fetch t.request = .ok resp ∧
        env.extract t.extractor resp.Body resp.ContentType = .error err) :
    (t.RunOnce env).2.2 = some err ∧
      (t.RunOnce env).1.rule.Status = StatusError ∧
      (t.RunOnce env).1.rule.ErrorMessage ≠ "" ∧
      ((t.RunOnce env).1.rule.ErrorMessage = "HTTP请求失败: " ++ err.Error ∨
        (t.RunOnce env).1.rule.ErrorMessage = "内容提取失败: " ++ err.Error) ∧
      (t.hasOnUpdate = true →
        updatesOf (t.RunOnce env).2.1 =
            [{ t.rule with Status := StatusRunning, ErrorMessage := "" },
              (t.RunOnce env).1.rule] ∧
          (t.RunOnce env).2.1.getLast? = some (Effect.onUpdate (t.RunOnce env).1.rule)) ∧
      notificationsOf (t.RunOnce env).2.1 = [] ∧
      (t.RunOnce env).1.rule.LastContent = t.rule.LastContent := by
  rcases h with hf | ⟨resp, hf, hx⟩
  · rw [runOnce_fetch_error_eq env t err hf]
    refine ⟨rfl, rfl, ?_, Or.inl rfl, ?_, ?_, rfl⟩
    · exact GoError.Error_wrapf_ne_empty "HTTP请求失败: " err (by decide)
    · intro hcb
      refine ⟨?_, ?_⟩
      · simp [Task.notifyUpdate, hcb, updatesOf]
      · simp only [Task.notifyUpdate, hcb, if_true]
        exact List.getLast?_concat _
    · simp [notificationsOf_notifyUpdate, notificationsOf]
  · rw [runOnce_extract_error_eq env t resp err hf hx]
    refine ⟨rfl, rfl, ?_, Or.inr rfl, ?_, ?_, rfl⟩
    · exact GoError.Error_wrapf_ne_empty "内容提取失败: " err (by decide)
    · intro hcb
      refine ⟨?_, ?_⟩
      · simp [Task.notifyUpdate, hcb, updatesOf]
      · simp only [Task.notifyUpdate, hcb, if_true]
        exact List.getLast?_concat _
    · simp [notificationsOf_notifyUpdate, notificationsOf]

/-- C3 at a check of `demoTask` whose fetch fails. -/
theorem runOnce_failure_witness :
    (demoTask.RunOnce demoEnvFetchFails).2.2 = some (GoError.new "connection refused") ∧
      (demoTask.RunOnce demoEnvFetchFails).1.rule.Status = StatusError :=
  ⟨(runOnce_failure demoEnvFetchFails demoTask (.new "connection refused") (Or.inl rfl)).1,
   (runOnce_failure demoEnvFetchFails demoTask (.new "connection refused") (Or.inl rfl)).2.1⟩

/-! ### Sequencing in `Run` -/

@[simp] theorem Run.ret_bind {α β : Type} (a : α) (f : α → Run β) : (Run.ret a >>= f) = f a := rfl

@[simp] theorem Run.panic_bind {α β : Type} (m : String) (f : α → Run β) :
    (Run.panic m >>= f) = Run.panic m := rfl

@[simp] theorem Run.pure_eq {α : Type} (a : α) : (pure a : Run α) = Run.ret a := rfl

@[simp] theorem Run.bind_ret {α β : Type} (a : α) (f : α → Run β) : (Run.ret a).bind f = f a := rfl

@[simp] theorem Run.bind_panic {α β : Type} (m : String) (f : α → Run β) :
    (Run.panic m).bind f = Run.panic m := rfl

/-! ### monitor/task.go: `Start` and `Stop` -/

theorem Task.Start_of_running (t : Task) (h : t.running = true) :
    t.Start = .ret (t, some (.new "任务已在运行中")) := by
  simp [Task.Start, h]

theorem Task.Start_of_stopped (t : Task) (h : t.running = false) (hi : 0 < t.rule.Interval) :
    t.Start = .ret ({ t with running := true, ticker := some ⟨t.rule.Interval, false⟩ }, none) := by
  have hi' : ¬ t.rule.Interval ≤ 0 := not_le.mpr hi
  simp [Task.Start, h, NewTicker, hi']

theorem Task.Start_panics (t : Task) (h : t.running = false) (hi : t.rule.Interval ≤ 0) :
    t.Start = .panic "non-positive interval for NewTicker" := by
  simp [Task.Start, h, NewTicker, hi]

theorem Task.Stop_of_stopped (t : Task) (h : t.running = false) : t.Stop = .ret t := by
  simp [Task.Stop, h]

theorem Task.Stop_of_running_open (t : Task) (h : t.running = true) (hc : t.stopClosed = false) :
    t.Stop = .ret t.stopped := by
  simp [Task.Stop, h, hc, Task.stopped]

theorem Task.Stop_of_running_closed (t : Task) (h : t.running = true) (hc : t.stopClosed = true) :
    t.Stop = .panic "close of closed channel" := by
  simp [Task.Stop, h, hc]

/-- C6 (the code at the failing input): for every task that has not been started yet
(stop channel open) and whose rule has a positive interval, `Start`, `Stop`, `Start`
all return; the task is then marked running, but its stop channel is closed, so the
`select` of the new check loop has its stop case ready without any tick pending (the loop
leaves instead of waiting), and the following `Stop` panics on closing the closed channel. -/
theorem restart_leaves_stop_channel_closed (t : Task) (hr : t.running = false)
    (hc : t.stopClosed = false) (hi : 0 < t.rule.Interval) :
    ∃ t1 t2 t3, t.Start = .ret (t1, none) ∧ t1.Stop = .ret t2 ∧ t2.Start = .ret (t3, none) ∧
      t3.running = true ∧ t3.stopClosed = true ∧
      t3.selectReady false = [SelectCase.stop] ∧
      t3.Stop = .panic "close of closed channel" := by
  refine ⟨_, _, _, Task.Start_of_stopped t hr hi, Task.Stop_of_running_open _ rfl hc,
    Task.Start_of_stopped _ rfl hi, rfl, rfl, ?_, ?_⟩
  · simp [Task.selectReady, Task.stopped]
  · exact Task.Stop_of_running_closed _ rfl rfl

/-- C6 at `demoTask`. -/
theorem restart_leaves_stop_channel_closed_witness :
    ∃ t1 t2 t3, demoTask.Start = .ret (t1, none) ∧ t1.Stop = .ret t2 ∧
      t2.Start = .ret (t3, none) ∧ t3.running = true ∧ t3.stopClosed = true ∧
      t3.selectReady false = [SelectCase.stop] ∧
      t3.Stop = .panic "close of closed channel" :=
  restart_leaves_stop_channel_closed demoTask rfl rfl (by decide)

/-! ### monitor/service.go: `StartTask` -/

theorem NewTask_ok {lib : Lib} {rule : MonitorRule} {cb : Bool} {t0 : Task}
    (h : NewTask lib rule cb = .ok t0) :
    t0.rule = rule ∧ t0.running = false ∧ t0.stopClosed = false ∧ t0.hasOnUpdate = cb ∧
      Factory.Create lib rule.ExtractorType rule.ExtractorExpr = .ok t0.extractor := by
  unfold NewTask at h
  split at h
  · cases h
  · rename_i ext hext
    injection h with h
    subst h
    exact ⟨rfl, rfl, rfl, rfl, hext⟩

/-- What `createAndStart` returns: either the task was built and started and is now
registered, or building it failed and the registry is untouched. -/
theorem MonitorService.createAndStart_ret {lib : Lib} {s s' : MonitorService}
    {rule : MonitorRule} {err : Option GoError}
    (h : MonitorService.createAndStart lib s rule = .ret (s', err)) :
    (err = none ∧ ∃ t0 task, NewTask lib rule s.hasOnRuleUpdate = .ok t0 ∧
        t0.Start = .ret (task, none) ∧ task.running = true ∧
        s' = { s with tasks := s.tasks.insert rule.ID task }) ∨
      (s' = s ∧ ∃ e, err = some (.wrapf "创建任务失败: " e) ∧
        NewTask lib rule s.hasOnRuleUpdate = .error e) := by
  unfold MonitorService.createAndStart at h
  split at h
  · rename_i e he
    injection h with h
    injection h with h1 h2
    exact Or.inr ⟨h1.symm, e, h2.symm, he⟩
  · rename_i t0 ht0
    obtain ⟨-, hrun, -, -, -⟩ := NewTask_ok ht0
    by_cases hi : 0 < t0.rule.Interval
    · rw [Task.Start_of_stopped t0 hrun hi] at h
      simp only [Run.ret_bind, Run.pure_eq] at h
      injection h with h
      injection h with h1 h2
      exact Or.inl ⟨h2.symm, t0, _, ht0, Task.Start_of_stopped t0 hrun hi, rfl, h1.symm⟩
    · rw [Task.Start_panics t0 hrun (not_lt.mp hi)] at h
      simp at h

/-- The call `createAndStart` returns whenever the rule's interval is positive. -/
theorem MonitorService.createAndStart_returns (lib : Lib) (s : MonitorService)
    (rule : MonitorRule) (hi : 0 < rule.Interval) :
    (MonitorService.createAndStart lib s rule).returned = true := by
  unfold MonitorService.createAndStart
  split
  · rfl
  · rename_i t0 ht0
    obtain ⟨hrule, hrun, -, -, -⟩ := NewTask_ok ht0
    rw [Task.Start_of_stopped t0 hrun (hrule ▸ hi)]
    rfl

/-- C7: `StartTask` fails and leaves the registry unchanged when a running task is
registered under the rule's ID. Otherwise, whenever it returns: a task is registered under
the ID afterwards only if the call succeeded, and then that task is the one that `NewTask`
built (extractor included) and `Start` started; after a successful call exactly one task is
registered under the ID and it is running; in every case the entries of all other IDs are
unchanged. The call returns whenever the rule's interval is positive. -/
theorem startTask_spec (lib : Lib) (s : MonitorService) (rule : MonitorRule) :
    (∀ task, s.tasks.lookup rule.ID = some task → task.running = true →
        s.StartTask lib rule = .ret (s, some (.new ("任务已在运行中: " ++ rule.ID)))) ∧
      (∀ s' err, (∀ task, s.tasks.lookup rule.ID = some task → task.running = false) →
        s.StartTask lib rule = .ret (s', err) →
          (∀ task, s'.tasks.lookup rule.ID = some task →
            err = none ∧ ∃ t0, NewTask lib rule s.hasOnRuleUpdate = .ok t0 ∧
              t0.Start = .ret (task, none)) ∧
          (err = none → ∃ task, s'.tasks.lookup rule.ID = some task ∧ task.running = true ∧
            s'.tasks.keys.count rule.ID = 1) ∧
          (∀ id, id ≠ rule.ID → s'.tasks.lookup id = s.tasks.lookup id)) ∧
      (0 < rule.Interval → (s.StartTask lib rule).returned = true) := by
  refine ⟨?_, ?_, ?_⟩
  · intro task hl hr
    simp [MonitorService.StartTask, hl, Task.IsRunning, hr]
  · intro s' err hnr h
    -- reduce to `createAndStart` on the registry without the stale entry
    have key : ∃ s0 : MonitorService, s0.hasOnRuleUpdate = s.hasOnRuleUpdate ∧
        s0.tasks.lookup rule.ID = none ∧
        (∀ id, id ≠ rule.ID → s0.tasks.lookup id = s.tasks.lookup id) ∧
        MonitorService.createAndStart lib s0 rule = .ret (s', err) := by
      unfold MonitorService.StartTask at h
      split at h
      · rename_i task hl
        have hr := hnr task hl
        simp only [Task.IsRunning, hr, Bool.false_eq_true, if_false,
          Task.Stop_of_stopped task hr, Run.ret_bind] at h
        exact ⟨{ s with tasks := s.tasks.erase rule.ID }, rfl, AList.lookup_erase _ _,
          fun id hid => AList.lookup_erase_ne hid, h⟩
      · rename_i hl
        exact ⟨s, rfl, hl, fun _ _ => rfl, h⟩
    obtain ⟨s0, hcb, hl0, hother, hcs⟩ := key
    rcases MonitorService.createAndStart_ret hcs with
      ⟨herr, t0, task, hnew, hstart, hrun, hs'⟩ | ⟨hs', e, herr, -⟩
    · subst hs'
      refine ⟨?_, ?_, ?_⟩
      · intro task' hl'
        rw [AList.lookup_insert] at hl'
        injection hl' with hl'
        subst hl'
        exact ⟨herr, t0, hcb ▸ hnew, hstart⟩
      · intro _
        refine ⟨task, AList.lookup_insert _, hrun, ?_⟩
        apply List.count_eq_one_of_mem (AList.keys_nodup _)
        exact AList.mem_keys.mpr ((AList.mem_insert _).mpr (Or.inl rfl))
      · intro id hid
        show AList.lookup id (AList.insert rule.ID task s0.tasks) = _
        rw [AList.lookup_insert_ne hid]
        exact hother id hid
    · subst hs'
      refine ⟨?_, ?_, hother⟩
      · intro task' hl'
        rw [hl0] at hl'
        cases hl'
      · intro hnone
        rw [herr] at hnone
        cases hnone
  · intro hi
    unfold MonitorService.StartTask
    split
    · rename_i task hl
      by_cases hr : task.running = true
      · simp [Task.IsRunning, hr, Run.returned]
      · have hr' : task.running = false := by simpa using hr
        simp only [Task.IsRunning, hr', Bool.false_eq_true, if_false,
          Task.Stop_of_stopped task hr', Run.ret_bind]
        exact MonitorService.createAndStart_returns lib _ rule hi
    · exact MonitorService.createAndStart_returns lib s rule hi

/-! ### core/engine.go: rules that are not in memory -/

/-- The rule after `Validate` is the rule before, except that an empty method may have
been replaced by the default. -/
theorem Validate_fst (lib : Lib) (r : MonitorRule) :
    (r.Validate lib).1 = r ∨
      (r.Method = "" ∧ (r.Validate lib).1 = { r with Method := DefaultMethod }) := by
  unfold MonitorRule.Validate
  by_cases h1 : r.Name = ""
  · simp [h1]
  by_cases h2 : r.URL = ""
  · simp [h1, h2]
  cases h3 : lib.urlParse r.URL with
  | some err => simp [h1, h2, h3]
  | none =>
    by_cases h4 : r.Method = ""
    · right
      refine ⟨h4, ?_⟩
      simp only [h1, h2, h4, if_true, if_false]
      split_ifs <;> rfl
    · left
      simp only [h1, h2, h4, if_false]
      split_ifs <;> rfl

theorem Validate_ID (lib : Lib) (r : MonitorRule) : (r.Validate lib).1.ID = r.ID := by
  rcases Validate_fst lib r with h | ⟨-, h⟩ <;> rw [h]

theorem replaceFirst_of_absent (rules : List MonitorRule) (rule : MonitorRule)
    (h : ∀ r ∈ rules, r.ID ≠ rule.ID) : replaceFirst rules rule = (rules, false) := by
  induction rules with
  | nil => rfl
  | cons r rs ih =>
    have h1 : r.ID ≠ rule.ID := h r (List.mem_cons_self _ _)
    have h2 := ih (fun x hx => h x (List.mem_cons_of_mem _ hx))
    simp [replaceFirst, h1, h2]

theorem removeFirst_of_absent (rules : List MonitorRule) (id : String)
    (h : ∀ r ∈ rules, r.ID ≠ id) : removeFirst rules id = (rules, false) := by
  induction rules with
  | nil => rfl
  | cons r rs ih =>
    have h1 : r.ID ≠ id := h r (List.mem_cons_self _ _)
    have h2 := ih (fun x hx => h x (List.mem_cons_of_mem _ hx))
    simp [removeFirst, h1, h2]

/-- C9: for an ID that no in-memory rule has, `GetRule`, `DeleteRule` and `UpdateRule`
(for any rule carrying the ID) each return an error, and the engine afterwards (in-memory
rules, configuration file, task registry) is the engine before the call. -/
theorem unknown_id_fails (lib : Lib) (io : Faults) (e : Engine) (id : String)
    (h : ∀ r ∈ e.rules, r.ID ≠ id) :
    e.GetRule id = .error (.new ("规则不存在: " ++ id)) ∧
      e.DeleteRule io id = .ret (e, some (.new ("规则不存在: " ++ id))) ∧
      ∀ rule : MonitorRule, rule.ID = id →
        ∃ err, e.UpdateRule lib io rule false = .ret (e, some err) := by
  refine ⟨?_, ?_, ?_⟩
  · have hf : e.rules.find? (fun r => decide (r.ID = id)) = none := by
      rw [List.find?_eq_none]
      intro r hr
      simpa using h r hr
    simp [Engine.GetRule, hf]
  · simp [Engine.DeleteRule, removeFirst_of_absent e.rules id h]
  · intro rule hid
    have hv := Validate_ID lib rule
    unfold Engine.UpdateRule
    cases hval : rule.Validate lib with
    | mk rule' verr =>
      rw [hval] at hv
      simp only [] at hv
      cases verr with
      | some err => exact ⟨_, rfl⟩
      | none =>
        have habs : ∀ r ∈ e.rules, r.ID ≠ rule'.ID := by
          intro r hr
          rw [hv, hid]
          exact h r hr
        refine ⟨.new ("规则不存在: " ++ rule'.ID), ?_⟩
        simp [replaceFirst_of_absent e.rules rule' habs]

/-- C9 at the empty engine and the ID "a". -/
theorem unknown_id_fails_witness :
    emptyEngine.GetRule "a" = .error (.new ("规则不存在: " ++ "a")) ∧
      emptyEngine.DeleteRule Faults.none "a" =
        .ret (emptyEngine, some (.new ("规则不存在: " ++ "a"))) ∧
      ∀ rule : MonitorRule, rule.ID = "a" →
        ∃ err, emptyEngine.UpdateRule demoLib Faults.none rule false =
          .ret (emptyEngine, some err) :=
  unknown_id_fails demoLib Faults.none emptyEngine "a" (fun _ hr => nomatch hr)

/-! ### core/engine.go: `AddRule` with an ID that is already stored -/

/-- C4 (the code at the failing input): starting from the empty engine, `AddRule` of the
valid rule `demoRule` (ID "a") succeeds and stores it in memory and in the file. A second
`AddRule`, of the valid rule `dupRule` with the same ID, returns an error and leaves the
file as it was, but the in-memory list has changed: the rollback loop removed the first
rule with that ID, which is the rule stored before, and kept the rejected one. The task
of the removed rule is still running under the ID of the (disabled) rule now in memory. -/
theorem addRule_duplicate_replaces_stored_rule :
    ∃ e1 e2 err,
      Engine.AddRule demoLib Faults.none "u1" emptyEngine demoRule = .ret (e1, none) ∧
      e1.rules = [{ demoRule with Status := StatusIdle }] ∧
      e1.configMgr.file = some [{ demoRule with Status := StatusIdle }] ∧
      (dupRule.Validate demoLib).2 = none ∧
      Engine.AddRule demoLib Faults.none "u2" e1 dupRule = .ret (e2, some err) ∧
      e2.configMgr = e1.configMgr ∧
      e2.rules = [{ dupRule with Status := StatusIdle }] ∧
      e2.rules ≠ e1.rules ∧
      e2.monitorSvc.IsTaskRunning "a" = true := by
  refine ⟨_, _, _, rfl, ?_, ?_, ?_, rfl, ?_, ?_, ?_, ?_⟩ <;> decide

/-! ### The task map: replacing the value of a key -/

theorem dlookup_kreplace_self {β : String → Type} (a : String) (b : β a) :
    ∀ l : List (Sigma β), a ∈ l.keys → List.dlookup a (List.kreplace a b l) = some b := by
  intro l
  induction l with
  | nil => intro h; simp at h
  | cons x xs ih =>
    intro h
    by_cases hx : a = x.1
    · have : List.kreplace a b (x :: xs) = ⟨a, b⟩ :: xs := by
        simp [List.kreplace, List.lookmap_cons_some, hx]
      rw [this, List.dlookup_cons_eq]
    · have : List.kreplace a b (x :: xs) = x :: List.kreplace a b xs := by
        simp [List.kreplace, hx]
      rw [this, List.dlookup_cons_ne _ _ hx]
      apply ih
      simpa [List.keys, hx] using h

theorem dlookup_kreplace_ne {β : String → Type} (a a' : String) (b : β a) (h : a' ≠ a) :
    ∀ l : List (Sigma β), List.dlookup a' (List.kreplace a b l) = List.dlookup a' l := by
  intro l
  induction l with
  | nil => rfl
  | cons x xs ih =>
    by_cases hx : a = x.1
    · have : List.kreplace a b (x :: xs) = ⟨a, b⟩ :: xs := by
        simp [List.kreplace, List.lookmap_cons_some, hx]
      rw [this, List.dlookup_cons_ne _ _ h, List.dlookup_cons_ne _ _ (hx ▸ h)]
    · have : List.kreplace a b (x :: xs) = x :: List.kreplace a b xs := by
        simp [List.kreplace, hx]
      rw [this]
      by_cases hx' : a' = x.1
      · cases x with
        | mk k v =>
          simp only at hx'
          subst hx'
          rw [List.dlookup_cons_eq, List.dlookup_cons_eq]
      · rw [List.dlookup_cons_ne _ _ hx', List.dlookup_cons_ne _ _ hx', ih]

theorem TaskMap.lookup_replace_self (s : TaskMap) (id : String) (t : Task) (h : id ∈ s) :
    (s.replace id t).lookup id = some t :=
  @dlookup_kreplace_self (fun _ => Task) id t s.entries (AList.mem_keys.mpr h)

theorem TaskMap.lookup_replace_ne (s : TaskMap) (id id' : String) (t : Task) (h : id' ≠ id) :
    (s.replace id t).lookup id' = s.lookup id' :=
  @dlookup_kreplace_ne (fun _ => Task) id id' t h s.entries

theorem TaskMap.mem_of_lookup {s : TaskMap} {id : String} {t : Task}
    (h : s.lookup id = some t) : id ∈ s :=
  AList.lookup_isSome.mp (by rw [h]; rfl)

theorem kreplace_kreplace {β : String → Type} (a : String) (b b' : β a) :
    ∀ l : List (Sigma β), List.kreplace a b' (List.kreplace a b l) = List.kreplace a b' l := by
  intro l
  induction l with
  | nil => rfl
  | cons x xs ih =>
    by_cases hx : a = x.1
    · have h1 : List.kreplace a b (x :: xs) = ⟨a, b⟩ :: xs := by
        simp [List.kreplace, List.lookmap_cons_some, hx]
      have h2 : List.kreplace a b' (x :: xs) = ⟨a, b'⟩ :: xs := by
        simp [List.kreplace, List.lookmap_cons_some, hx]
      have h3 : List.kreplace a b' (⟨a, b⟩ :: xs) = ⟨a, b'⟩ :: xs := by
        simp [List.kreplace, List.lookmap_cons_some]
      rw [h1, h2, h3]
    · have h1 : List.kreplace a b (x :: xs) = x :: List.kreplace a b xs := by
        simp [List.kreplace, hx]
      have h2 : List.kreplace a b' (x :: xs) = x :: List.kreplace a b' xs := by
        simp [List.kreplace, hx]
      have h3 : List.kreplace a b' (x :: List.kreplace a b xs) =
          x :: List.kreplace a b' (List.kreplace a b xs) := by
        simp [List.kreplace, hx]
      rw [h1, h2, h3, ih]

theorem TaskMap.replace_replace (s : TaskMap) (id : String) (t t' : Task) :
    (s.replace id t).replace id t' = s.replace id t' :=
  AList.ext (@kreplace_kreplace (fun _ => Task) id t t' s.entries)

/-! ### monitor/service.go: `StopTask` and `UpdateTask` -/

theorem MonitorService.IsTaskRunning_eq_true {s : MonitorService} {id : String} :
    s.IsTaskRunning id = true ↔ ∃ task, s.tasks.lookup id = some task ∧ task.running = true := by
  unfold MonitorService.IsTaskRunning
  cases h : s.tasks.lookup id with
  | none => simp
  | some task => simp [Task.IsRunning]

theorem MonitorService.StopTask_of_absent (s : MonitorService) (id : String)
    (h : s.tasks.lookup id = none) :
    s.StopTask id = .ret (s, some (.new ("任务不存在: " ++ id))) := by
  simp [MonitorService.StopTask, h]

theorem MonitorService.StopTask_of_open (s : MonitorService) (id : String) (task : Task)
    (h : s.tasks.lookup id = some task) (hc : task.running = true → task.stopClosed = false) :
    s.StopTask id = .ret ({ s with tasks := s.tasks.erase id }, none) := by
  unfold MonitorService.StopTask
  rw [h]
  by_cases hr : task.running = true
  · simp [Task.Stop_of_running_open task hr (hc hr)]
  · have hr' : task.running = false := by simpa using hr
    simp [Task.Stop_of_stopped task hr']

theorem Task.Update_of_stopped (lib : Lib) (t : Task) (rule : MonitorRule)
    (hr : t.running = false) :
    t.Update lib rule =
      match t.extractorFor lib rule with
      | .error err => .ret (t, some (.wrapf "创建提取器失败: " err))
      | .ok ext => .ret ({ t with extractor := ext, rule := rule }, none) := by
  unfold Task.Update
  cases t.extractorFor lib rule with
  | error err => rfl
  | ok ext => simp [hr]

/-- The task a running task becomes by a successful `UpdateTask`: stopped, updated,
started again. -/
theorem MonitorService.UpdateTask_of_running_open (lib : Lib) (s : MonitorService)
    (rule : MonitorRule) (task : Task) (hl : s.tasks.lookup rule.ID = some task)
    (hr : task.running = true) (hc : task.stopClosed = false) (hi : 0 < rule.Interval) :
    s.UpdateTask lib rule =
      match task.extractorFor lib rule with
      | .error err =>
        .ret ({ s with tasks := s.tasks.replace rule.ID task.stopped },
          some (.wrapf "更新任务失败: " (.wrapf "创建提取器失败: " err)))
      | .ok ext =>
        .ret ({ s with tasks := s.tasks.replace rule.ID (task.restarted ext rule) }, none) := by
  unfold MonitorService.UpdateTask
  rw [hl]
  simp only [Task.IsRunning, hr, if_true, Task.Stop_of_running_open task hr hc, Run.bind_ret]
  unfold MonitorService.updateAndRestart
  have hs : Task.extractorFor lib task.stopped rule = Task.extractorFor lib task rule := rfl
  rw [Task.Update_of_stopped lib task.stopped rule rfl, hs]
  cases hx : task.extractorFor lib rule with
  | error err => simp
  | ok ext =>
    simp only [Run.ret_bind]
    rw [Task.Start_of_stopped _ rfl hi]
    simp only [Run.ret_bind, Run.pure_eq, TaskMap.replace_replace]
    rfl

/-- The task `createAndStart` registers: built by `NewTask`, then started. -/
theorem MonitorService.createAndStart_eval (lib : Lib) (s : MonitorService) (rule : MonitorRule)
    (hi : 0 < rule.Interval) :
    MonitorService.createAndStart lib s rule =
      match Factory.Create lib rule.ExtractorType rule.ExtractorExpr with
      | .error err =>
        .ret (s, some (.wrapf "创建任务失败: " (.wrapf "创建提取器失败: " err)))
      | .ok ext =>
        .ret ({ s with tasks := s.tasks.insert rule.ID (Task.started rule ext s.hasOnRuleUpdate) },
              none) := by
  unfold MonitorService.createAndStart NewTask
  cases Factory.Create lib rule.ExtractorType rule.ExtractorExpr with
  | error err => rfl
  | ok ext =>
    simp only []
    rw [Task.Start_of_stopped _ rfl hi]
    rfl

theorem MonitorService.StartTask_of_not_running (lib : Lib) (s : MonitorService)
    (rule : MonitorRule) (h : s.IsTaskRunning rule.ID = false) :
    s.StartTask lib rule =
      MonitorService.createAndStart lib
        (match s.tasks.lookup rule.ID with
          | some _ => { s with tasks := s.tasks.erase rule.ID }
          | none => s) rule := by
  unfold MonitorService.StartTask
  unfold MonitorService.IsTaskRunning at h
  cases hl : s.tasks.lookup rule.ID with
  | none => rfl
  | some task =>
    rw [hl] at h
    simp only [] at h
    simp only [h, Bool.false_eq_true, if_false]
    have hr : task.running = false := h
    rw [Task.Stop_of_stopped task hr]
    rfl

theorem replaceFirst_of_present (rules : List MonitorRule) (rule : MonitorRule)
    (h : ∃ r ∈ rules, r.ID = rule.ID) :
    ∃ pre old post, rules = pre ++ old :: post ∧ (∀ r ∈ pre, r.ID ≠ rule.ID) ∧
      old.ID = rule.ID ∧ replaceFirst rules rule = (pre ++ rule :: post, true) := by
  induction rules with
  | nil => obtain ⟨r, hr, -⟩ := h; cases hr
  | cons x xs ih =>
    by_cases hx : x.ID = rule.ID
    · refine ⟨[], x, xs, rfl, ?_, hx, ?_⟩
      · intro r hr; cases hr
      · simp [replaceFirst, hx]
    · have h' : ∃ r ∈ xs, r.ID = rule.ID := by
        obtain ⟨r, hr, hid⟩ := h
        rcases List.mem_cons.mp hr with rfl | hr
        · exact absurd hid hx
        · exact ⟨r, hr, hid⟩
      obtain ⟨pre, old, post, h1, h2, h3, h4⟩ := ih h'
      refine ⟨x :: pre, old, post, by rw [h1]; rfl, ?_, h3, by simp [replaceFirst, hx, h4]⟩
      intro r hr
      rcases List.mem_cons.mp hr with rfl | hr
      · exact hx
      · exact h2 r hr

/-- What a rule that passes `Validate` satisfies. -/
theorem Validate_none_imp {lib : Lib} {r : MonitorRule} (h : (r.Validate lib).2 = none) :
    r.Name ≠ "" ∧ r.URL ≠ "" ∧ lib.urlParse r.URL = none ∧
      (r.Method = "" ∨ r.Method ∈ validMethods) ∧ ¬ r.Interval < Second ∧
      r.ExtractorExpr ≠ "" ∧ r.ExtractorType ∈ validExtractors := by
  unfold MonitorRule.Validate at h
  by_cases h1 : r.Name = ""
  · simp [h1] at h
  by_cases h2 : r.URL = ""
  · simp [h1, h2] at h
  cases h3 : lib.urlParse r.URL with
  | some err => simp [h1, h2, h3] at h
  | none =>
    have hm : r.Method = "" ∨ r.Method ∈ validMethods := by
      by_cases h4 : r.Method = ""
      · exact Or.inl h4
      · by_cases hm : r.Method ∈ validMethods
        · exact Or.inr hm
        · simp [h1, h2, h3, h4, hm] at h
    have hm' : (if r.Method = "" then { r with Method := DefaultMethod } else r).Method
        ∈ validMethods := by
      rcases hm with h4 | h4
      · simp [h4, validMethods_contains_default]
      · by_cases h5 : r.Method = ""
        · simp [h5, validMethods_contains_default]
        · simpa [h5] using h4
    by_cases h5 : r.Interval < Second
    · by_cases h4 : r.Method = "" <;> simp [h1, h2, h3, h4, h5, hm'] at h <;>
        simp_all [validMethods_contains_default]
    by_cases h6 : r.ExtractorExpr = ""
    · by_cases h4 : r.Method = "" <;> simp [h1, h2, h3, h4, h5, h6, hm'] at h <;>
        simp_all [validMethods_contains_default]
    by_cases h7 : r.ExtractorType ∈ validExtractors
    · exact ⟨h1, h2, rfl, hm, h5, h6, h7⟩
    · by_cases h4 : r.Method = "" <;> simp [h1, h2, h3, h4, h5, h6, h7, hm'] at h <;>
        simp_all [validMethods_contains_default]

/-- A rule with a non-empty method that satisfies the checks of `Validate` passes it
unchanged. -/
theorem Validate_of_checks {lib : Lib} {r : MonitorRule}
    (h1 : r.Name ≠ "") (h2 : r.URL ≠ "") (h3 : lib.urlParse r.URL = none)
    (h4 : r.Method ∈ validMethods) (h5 : ¬ r.Interval < Second) (h6 : r.ExtractorExpr ≠ "")
    (h7 : r.ExtractorType ∈ validExtractors) : r.Validate lib = (r, none) := by
  have hne : r.Method ≠ "" := by
    intro hc
    rw [hc] at h4
    revert h4
    decide
  unfold MonitorRule.Validate
  simp [h1, h2, h3, h4, h5, h6, h7, hne]

theorem Validate_ok_interval {lib : Lib} {r r' : MonitorRule}
    (h : r.Validate lib = (r', none)) : Second ≤ r'.Interval := by
  have hfst : (r.Validate lib).1 = r' := by rw [h]
  have hint : r'.Interval = r.Interval := by
    rcases Validate_fst lib r with h1 | ⟨-, h1⟩ <;> rw [← hfst, h1]
  rw [hint]
  have := (Validate_none_imp (show (r.Validate lib).2 = none by rw [h])).2.2.2.2.1
  exact not_lt.mp this

/-! ### core/engine.go: `UpdateRule` -/

theorem Validate_ok_fields {lib : Lib} {r r' : MonitorRule} (h : r.Validate lib = (r', none)) :
    r'.ID = r.ID ∧ r'.Enabled = r.Enabled := by
  have hfst : (r.Validate lib).1 = r' := by rw [h]
  rcases Validate_fst lib r with h1 | ⟨-, h1⟩ <;> rw [← hfst, h1] <;> exact ⟨rfl, rfl⟩

/-- `UpdateRule` on a fresh rule that passes validation, is found in memory and is saved:
the call is the task reconciliation followed by the event. -/
theorem Engine.UpdateRule_eval (lib : Lib) (io : Faults) (e : Engine) (rule rule' : MonitorRule)
    (m : YAMLManager) (pre post : List MonitorRule)
    (hv : rule.Validate lib = (rule', none))
    (hrf : replaceFirst e.rules rule' = (pre ++ rule' :: post, true))
    (hp : e.configMgr.UpdateRule io rule' = (m, none)) :
    e.UpdateRule lib io rule false =
      (Engine.reconcileTask lib e.monitorSvc rule').bind fun svc =>
        .ret ({ configMgr := m, monitorSvc := svc, rules := pre ++ rule' :: post,
                published := e.published ++
                  [{ Kind := EventRuleUpdated, RuleID := rule'.ID, Rule := some rule' }] }, none) := by
  unfold Engine.UpdateRule
  simp only [hv, Bool.false_eq_true, if_false, hrf, Bool.not_true, hp]
  cases Engine.reconcileTask lib e.monitorSvc rule' <;> rfl

/-- What the task reconciliation of `UpdateRule` does for a rule with a positive
interval, when a task running under the rule's ID has its stop channel open. -/
theorem Engine.reconcileTask_spec (lib : Lib) (svc : MonitorService) (rule : MonitorRule)
    (hi : 0 < rule.Interval)
    (hopen : ∀ task, svc.tasks.lookup rule.ID = some task →
      task.running = true → task.stopClosed = false) :
    ∃ svc', Engine.reconcileTask lib svc rule = .ret svc' ∧
      (∀ id, id ≠ rule.ID → svc'.tasks.lookup id = svc.tasks.lookup id) ∧
      (rule.Enabled = true → svc.IsTaskRunning rule.ID = false →
        match Factory.Create lib rule.ExtractorType rule.ExtractorExpr with
        | .ok ext => svc'.tasks.lookup rule.ID = some (Task.started rule ext svc.hasOnRuleUpdate)
        | .error _ => svc'.tasks.lookup rule.ID = none) ∧
      (rule.Enabled = true → ∀ task, svc.tasks.lookup rule.ID = some task →
        task.running = true →
        match task.extractorFor lib rule with
        | .ok ext => svc'.tasks.lookup rule.ID = some (task.restarted ext rule)
        | .error _ => svc'.tasks.lookup rule.ID = some task.stopped) ∧
      (rule.Enabled = false → svc.IsTaskRunning rule.ID = true →
        svc'.tasks.lookup rule.ID = none) ∧
      (rule.Enabled = false → svc.IsTaskRunning rule.ID = false → svc' = svc) := by
  by_cases hE : rule.Enabled = true
  · by_cases hR : svc.IsTaskRunning rule.ID = true
    · obtain ⟨task, hl, hr⟩ := MonitorService.IsTaskRunning_eq_true.mp hR
      have hU := MonitorService.UpdateTask_of_running_open lib svc rule task hl hr
        (hopen task hl hr) hi
      cases hx : task.extractorFor lib rule with
      | error err =>
        have hcall : Engine.reconcileTask lib svc rule =
            .ret { svc with tasks := svc.tasks.replace rule.ID task.stopped } := by
          unfold Engine.reconcileTask
          rw [hx] at hU
          simp only [hE, hR, if_true, hU]
          rfl
        refine ⟨_, hcall, ?_, ?_, ?_, ?_, ?_⟩
        · intro id hne
          exact TaskMap.lookup_replace_ne _ _ _ _ hne
        · intro _ hnr; rw [hR] at hnr; cases hnr
        · intro _ task2 hl2 _
          rw [hl] at hl2
          injection hl2 with hl2
          subst hl2
          rw [hx]
          exact TaskMap.lookup_replace_self _ _ _ (TaskMap.mem_of_lookup hl)
        · intro hd; rw [hE] at hd; cases hd
        · intro hd; rw [hE] at hd; cases hd
      | ok ext =>
        have hcall : Engine.reconcileTask lib svc rule =
            .ret { svc with tasks := svc.tasks.replace rule.ID (task.restarted ext rule) } := by
          unfold Engine.reconcileTask
          rw [hx] at hU
          simp only [hE, hR, if_true, hU]
          rfl
        refine ⟨_, hcall, ?_, ?_, ?_, ?_, ?_⟩
        · intro id hne
          exact TaskMap.lookup_replace_ne _ _ _ _ hne
        · intro _ hnr; rw [hR] at hnr; cases hnr
        · intro _ task2 hl2 _
          rw [hl] at hl2
          injection hl2 with hl2
          subst hl2
          rw [hx]
          exact TaskMap.lookup_replace_self _ _ _ (TaskMap.mem_of_lookup hl)
        · intro hd; rw [hE] at hd; cases hd
        · intro hd; rw [hE] at hd; cases hd
    · have hR' : svc.IsTaskRunning rule.ID = false := by simpa using hR
      have hS := MonitorService.StartTask_of_not_running lib svc rule hR'
      rw [MonitorService.createAndStart_eval lib _ rule hi] at hS
      have hbase : ∀ id, id ≠ rule.ID →
          (match svc.tasks.lookup rule.ID with
            | some _ => ({ svc with tasks := svc.tasks.erase rule.ID } : MonitorService)
            | none => svc).tasks.lookup id = svc.tasks.lookup id := by
        intro id hne
        cases svc.tasks.lookup rule.ID with
        | none => rfl
        | some _ => exact AList.lookup_erase_ne hne
      have hself : (match svc.tasks.lookup rule.ID with
            | some _ => ({ svc with tasks := svc.tasks.erase rule.ID } : MonitorService)
            | none => svc).tasks.lookup rule.ID = none := by
        cases hl : svc.tasks.lookup rule.ID with
        | none => exact hl
        | some _ => exact AList.lookup_erase _ _
      have hcb : (match svc.tasks.lookup rule.ID with
            | some _ => ({ svc with tasks := svc.tasks.erase rule.ID } : MonitorService)
            | none => svc).hasOnRuleUpdate = svc.hasOnRuleUpdate := by
        cases svc.tasks.lookup rule.ID <;> rfl
      generalize (match svc.tasks.lookup rule.ID with
            | some _ => ({ svc with tasks := svc.tasks.erase rule.ID } : MonitorService)
            | none => svc) = s0 at hS hbase hself hcb
      cases hx : Factory.Create lib rule.ExtractorType rule.ExtractorExpr with
      | error err =>
        rw [hx] at hS
        have hcall : Engine.reconcileTask lib svc rule = .ret s0 := by
          unfold Engine.reconcileTask
          simp only [hE, hR', if_true, Bool.false_eq_true, if_false, hS]
          rfl
        refine ⟨_, hcall, hbase, ?_, ?_, ?_, ?_⟩
        · intro _ _; exact hself
        · intro _ task hl hr
          have := MonitorService.IsTaskRunning_eq_true.mpr ⟨task, hl, hr⟩
          rw [hR'] at this; cases this
        · intro hd; rw [hE] at hd; cases hd
        · intro hd; rw [hE] at hd; cases hd
      | ok ext =>
        rw [hx] at hS
        have hcall : Engine.reconcileTask lib svc rule = .ret (MonitorService.mk
            (s0.tasks.insert rule.ID (Task.started rule ext s0.hasOnRuleUpdate))
            s0.hasOnRuleUpdate) := by
          unfold Engine.reconcileTask
          simp only [hE, hR', if_true, Bool.false_eq_true, if_false, hS]
          rfl
        refine ⟨_, hcall, ?_, ?_, ?_, ?_, ?_⟩
        · intro id hne
          show AList.lookup id (AList.insert rule.ID _ _) = _
          rw [AList.lookup_insert_ne hne]
          exact hbase id hne
        · intro _ _
          show AList.lookup rule.ID (AList.insert rule.ID _ _) = _
          rw [AList.lookup_insert, hcb]
        · intro _ task hl hr
          have := MonitorService.IsTaskRunning_eq_true.mpr ⟨task, hl, hr⟩
          rw [hR'] at this; cases this
        · intro hd; rw [hE] at hd; cases hd
        · intro hd; rw [hE] at hd; cases hd
  · have hE' : rule.Enabled = false := by simpa using hE
    by_cases hR : svc.IsTaskRunning rule.ID = true
    · obtain ⟨task, hl, hr⟩ := MonitorService.IsTaskRunning_eq_true.mp hR
      have hcall : Engine.reconcileTask lib svc rule =
          .ret { svc with tasks := svc.tasks.erase rule.ID } := by
        unfold Engine.reconcileTask
        simp only [hE', hR, if_true, Bool.false_eq_true, if_false,
          MonitorService.StopTask_of_open svc rule.ID task hl (hopen task hl)]
        rfl
      refine ⟨_, hcall, ?_, ?_, ?_, ?_, ?_⟩
      · intro id hne; exact AList.lookup_erase_ne hne
      · intro hd; rw [hE'] at hd; cases hd
      · intro hd; rw [hE'] at hd; cases hd
      · intro _ _; exact AList.lookup_erase _ _
      · intro _ hnr; rw [hR] at hnr; cases hnr
    · have hR' : svc.IsTaskRunning rule.ID = false := by simpa using hR
      have hcall : Engine.reconcileTask lib svc rule = .ret svc := by
        unfold Engine.reconcileTask
        simp only [hE', hR', Bool.false_eq_true, if_false]
        rfl
      refine ⟨_, hcall, fun _ _ => rfl, ?_, ?_, ?_, ?_⟩
      · intro hd; rw [hE'] at hd; cases hd
      · intro hd; rw [hE'] at hd; cases hd
      · intro _ hr; rw [hR'] at hr; cases hr
      · intro _ _; rfl

/-- C8 (amended): for every rule that passes validation, whose ID exists in memory and
whose persistence succeeds, and provided a task running under the ID has its stop channel
open, `UpdateRule` returns no error, replaces the first in-memory rule with that ID by the
validated rule (every other rule and the order unchanged), leaves the tasks of all other
IDs alone, and reconciles the task: enabled and no task running, a task for the rule is
registered and running if its extractor can be built and none is registered otherwise;
enabled and a task running, the task holds the new rule and is marked running if the
extractor for the new rule can be built, and is left stopped with its old rule otherwise;
disabled and a task running, no task is registered afterwards; disabled and no task
running, the registry is unchanged. -/
theorem updateRule_reconciles (lib : Lib) (io : Faults) (e : Engine) (rule rule' : MonitorRule)
    (m : YAMLManager)
    (hv : rule.Validate lib = (rule', none))
    (hex : ∃ r ∈ e.rules, r.ID = rule.ID)
    (hp : e.configMgr.UpdateRule io rule' = (m, none))
    (hopen : ∀ task, e.monitorSvc.tasks.lookup rule.ID = some task →
      task.running = true → task.stopClosed = false) :
    ∃ e', e.UpdateRule lib io rule false = .ret (e', none) ∧ e'.configMgr = m ∧
      (∃ pre old post, e.rules = pre ++ old :: post ∧ (∀ r ∈ pre, r.ID ≠ rule.ID) ∧
        old.ID = rule.ID ∧ e'.rules = pre ++ rule' :: post) ∧
      (∀ id, id ≠ rule.ID → e'.monitorSvc.tasks.lookup id = e.monitorSvc.tasks.lookup id) ∧
      (rule.Enabled = true → e.monitorSvc.IsTaskRunning rule.ID = false →
        match Factory.Create lib rule'.ExtractorType rule'.ExtractorExpr with
        | .ok ext => ∃ task, e'.monitorSvc.tasks.lookup rule.ID = some task ∧
            task.running = true ∧ task.rule = rule' ∧ task.extractor = ext
        | .error _ => e'.monitorSvc.tasks.lookup rule.ID = none) ∧
      (rule.Enabled = true → ∀ task, e.monitorSvc.tasks.lookup rule.ID = some task →
        task.running = true →
        match task.extractorFor lib rule' with
        | .ok ext => ∃ task', e'.monitorSvc.tasks.lookup rule.ID = some task' ∧
            task'.running = true ∧ task'.rule = rule' ∧ task'.extractor = ext
        | .error _ => ∃ task', e'.monitorSvc.tasks.lookup rule.ID = some task' ∧
            task'.running = false ∧ task'.rule = task.rule ∧
            task'.extractor = task.extractor) ∧
      (rule.Enabled = false → e.monitorSvc.IsTaskRunning rule.ID = true →
        e'.monitorSvc.tasks.lookup rule.ID = none) ∧
      (rule.Enabled = false → e.monitorSvc.IsTaskRunning rule.ID = false →
        e'.monitorSvc = e.monitorSvc) := by
  obtain ⟨hid, hen⟩ := Validate_ok_fields hv
  have hi : 0 < rule'.Interval :=
    lt_of_lt_of_le (by decide : (0 : Int) < Second) (Validate_ok_interval hv)
  obtain ⟨pre, old, post, hsplit, hpre, hold, hrf⟩ :=
    replaceFirst_of_present e.rules rule' (by rw [hid]; exact hex)
  rw [hid] at hpre hold
  obtain ⟨svc', hcall, hframe, hA, hB, hC, hD⟩ :=
    Engine.reconcileTask_spec lib e.monitorSvc rule' hi (by rw [hid]; exact hopen)
  rw [hid, hen] at hA hB hC hD
  rw [hid] at hframe
  refine ⟨{ configMgr := m, monitorSvc := svc', rules := pre ++ rule' :: post,
            published := e.published ++
              [{ Kind := EventRuleUpdated, RuleID := rule'.ID, Rule := some rule' }] },
    ?_, rfl, ⟨pre, old, post, hsplit, hpre, hold, rfl⟩, hframe, ?_, ?_, hC, hD⟩
  · rw [Engine.UpdateRule_eval lib io e rule rule' m pre post hv hrf hp, hcall]
    rfl
  · intro h1 h2
    have := hA h1 h2
    cases hx : Factory.Create lib rule'.ExtractorType rule'.ExtractorExpr with
    | error err => rw [hx] at this; exact this
    | ok ext => rw [hx] at this; exact ⟨_, this, rfl, rfl, rfl⟩
  · intro h1 task hl hr
    have := hB h1 task hl hr
    cases hx : task.extractorFor lib rule' with
    | error err => rw [hx] at this; exact ⟨_, this, rfl, rfl, rfl⟩
    | ok ext => rw [hx] at this; exact ⟨_, this, rfl, rfl, rfl⟩

/-- C8 (amended) at `demoEngine`: enabling the stored rule starts its task. -/
theorem updateRule_reconciles_witness :
    ∃ e', demoEngine.UpdateRule demoLib Faults.none demoRule false = .ret (e', none) ∧
      e'.configMgr = { file := some [demoRule] } ∧
      ∃ task, e'.monitorSvc.tasks.lookup "a" = some task ∧ task.running = true ∧
        task.rule = demoRule ∧ task.extractor = .css ".content" :=
  let ⟨e', h1, h2, _, _, h5, _⟩ :=
    updateRule_reconciles demoLib Faults.none demoEngine demoRule demoRule
      { file := some [demoRule] } (by decide) ⟨pausedRule, by decide, by decide⟩ (by decide)
      (fun _ h => nomatch h)
  ⟨e', h1, h2, h5 rfl (by decide)⟩

/-- C8 (counterexample): `badRegexRule` is valid and enabled, its ID exists in
`demoEngine`, persistence succeeds and no task is running for it; `UpdateRule` returns no
error, yet no task has been started: none is registered under the ID afterwards. -/
theorem updateRule_enabled_starts_no_task :
    ∃ e',
      (badRegexRule.Validate demoLib).2 = none ∧ badRegexRule.Enabled = true ∧
      (∃ r ∈ demoEngine.rules, r.ID = badRegexRule.ID) ∧
      demoEngine.monitorSvc.IsTaskRunning badRegexRule.ID = false ∧
      demoEngine.UpdateRule demoLib Faults.none badRegexRule false = .ret (e', none) ∧
      e'.configMgr.file = some [badRegexRule] ∧
      e'.rules = [badRegexRule] ∧
      e'.monitorSvc.tasks.lookup badRegexRule.ID = none ∧
      e'.monitorSvc.IsTaskRunning badRegexRule.ID = false := by
  refine ⟨_, ?_, ?_, ?_, ?_, rfl, ?_, ?_, ?_, ?_⟩ <;> decide

/-! ### core/engine.go: disabled rules and running tasks -/

/-- C5 (counterexample): from the empty engine, `AddRule` of the enabled rule `demoRule`
followed by `UpdateRule` with the same rule disabled, during which writing the file fails:
both calls return, the second with an error, and the engine then holds a disabled rule in
memory whose ID has a running task. -/
theorem disabled_rule_with_running_task :
    ∃ e errs,
      Engine.runOps demoLib emptyEngine
        [.AddRule Faults.none "u1" demoRule,
         .UpdateRule { Faults.none with write := some (.new "disk full") } pausedRule] =
        .ret (e, errs) ∧
      (∃ r ∈ e.rules, r.Enabled = false ∧ e.monitorSvc.IsTaskRunning r.ID = true) := by
  refine ⟨_, _, rfl, { pausedRule with Status := "" }, ?_, ?_, ?_⟩ <;> decide

/-! ### Lists of rules: replacing and removing the first rule with an ID -/

theorem replaceFirst_ids (l : List MonitorRule) (rule : MonitorRule) :
    (replaceFirst l rule).1.map (fun r => r.ID) = l.map fun r => r.ID := by
  induction l with
  | nil => rfl
  | cons r rs ih =>
    by_cases h : r.ID = rule.ID
    · simp [replaceFirst, h]
    · simp [replaceFirst, h, ih]

theorem replaceFirst_not_found (l : List MonitorRule) (rule : MonitorRule)
    (h : (replaceFirst l rule).2 = false) : (replaceFirst l rule).1 = l := by
  induction l with
  | nil => rfl
  | cons r rs ih =>
    by_cases hr : r.ID = rule.ID
    · simp [replaceFirst, hr] at h
    · simp only [replaceFirst, hr, if_false] at h ⊢
      rw [ih h]

theorem replaceFirst_found (l : List MonitorRule) (rule : MonitorRule)
    (h : ∃ r ∈ l, r.ID = rule.ID) : (replaceFirst l rule).2 = true := by
  obtain ⟨_, _, _, _, _, _, h4⟩ := replaceFirst_of_present l rule h
  rw [h4]

theorem mem_replaceFirst {l : List MonitorRule} {rule x : MonitorRule}
    (h : x ∈ (replaceFirst l rule).1) : x = rule ∨ x ∈ l := by
  induction l with
  | nil => cases h
  | cons r rs ih =>
    by_cases hr : r.ID = rule.ID
    · simp only [replaceFirst, hr, if_true] at h
      rcases List.mem_cons.mp h with h | h
      · exact Or.inl h
      · exact Or.inr (List.mem_cons_of_mem _ h)
    · simp only [replaceFirst, hr, if_false] at h
      rcases List.mem_cons.mp h with h | h
      · exact Or.inr (h ▸ List.mem_cons_self _ _)
      · rcases ih h with h | h
        · exact Or.inl h
        · exact Or.inr (List.mem_cons_of_mem _ h)

/-- In a list without duplicate IDs, the only rule with the ID of `rule` after
`replaceFirst` is `rule` itself. -/
theorem eq_of_mem_replaceFirst {l : List MonitorRule} {rule x : MonitorRule}
    (hnd : (l.map fun r => r.ID).Nodup) (h : x ∈ (replaceFirst l rule).1)
    (hid : x.ID = rule.ID) : x = rule := by
  induction l with
  | nil => cases h
  | cons r rs ih =>
    have hnd' : (∀ x ∈ rs, ¬x.ID = r.ID) ∧ (rs.map fun r => r.ID).Nodup := by
      simpa using hnd
    by_cases hr : r.ID = rule.ID
    · simp only [replaceFirst, hr, if_true] at h
      rcases List.mem_cons.mp h with h | h
      · exact h
      · exact absurd (hid.trans hr.symm) (hnd'.1 x h)
    · simp only [replaceFirst, hr, if_false] at h
      rcases List.mem_cons.mp h with h | h
      · exact absurd (h ▸ hid) hr
      · exact ih hnd'.2 h

theorem removeFirst_sublist (l : List MonitorRule) (id : String) :
    List.Sublist (removeFirst l id).1 l := by
  induction l with
  | nil => exact List.Sublist.refl _
  | cons r rs ih =>
    by_cases hr : r.ID = id
    · simp only [removeFirst, hr, if_true]
      exact List.sublist_cons_self _ _
    · simp only [removeFirst, hr, if_false]
      exact List.Sublist.cons₂ _ ih

theorem removeFirst_not_found (l : List MonitorRule) (id : String)
    (h : (removeFirst l id).2 = false) : (removeFirst l id).1 = l := by
  induction l with
  | nil => rfl
  | cons r rs ih =>
    by_cases hr : r.ID = id
    · simp [removeFirst, hr] at h
    · simp only [removeFirst, hr, if_false] at h ⊢
      rw [ih h]

/-- In a list without duplicate IDs, no rule with the ID is left after `removeFirst`. -/
theorem ne_of_mem_removeFirst {l : List MonitorRule} {id : String} {x : MonitorRule}
    (hnd : (l.map fun r => r.ID).Nodup) (h : x ∈ (removeFirst l id).1) : x.ID ≠ id := by
  induction l with
  | nil => cases h
  | cons r rs ih =>
    have hnd' : (∀ x ∈ rs, ¬x.ID = r.ID) ∧ (rs.map fun r => r.ID).Nodup := by
      simpa using hnd
    by_cases hr : r.ID = id
    · simp only [removeFirst, hr, if_true] at h
      intro hx
      exact hnd'.1 x h (hx.trans hr.symm)
    · simp only [removeFirst, hr, if_false] at h
      rcases List.mem_cons.mp h with h | h
      · rw [h]; exact hr
      · exact ih hnd'.2 h

theorem Engine.GetRule_ok {e : Engine} {id : String} {rule : MonitorRule}
    (h : e.GetRule id = .ok rule) : rule ∈ e.rules ∧ rule.ID = id := by
  unfold Engine.GetRule at h
  cases hf : e.rules.find? (fun r => decide (r.ID = id)) with
  | none => rw [hf] at h; cases h
  | some r =>
    rw [hf] at h
    injection h with h
    subst h
    exact ⟨List.mem_of_find?_eq_some hf, by simpa using List.find?_some hf⟩

theorem Engine.GetRule_error {e : Engine} {id : String} {err : GoError}
    (h : e.GetRule id = .error err) : ∀ r ∈ e.rules, r.ID ≠ id := by
  unfold Engine.GetRule at h
  cases hf : e.rules.find? (fun r => decide (r.ID = id)) with
  | some r => rw [hf] at h; cases h
  | none =>
    intro r hr
    have := List.find?_eq_none.mp hf r hr
    simpa using this

/-! ### Rules that pass `Validate` -/

theorem Validate_ok_method {lib : Lib} {r r' : MonitorRule}
    (h : r.Validate lib = (r', none)) : r'.Method ∈ validMethods := by
  have hc := Validate_none_imp (show (r.Validate lib).2 = none by rw [h])
  have hfst : (r.Validate lib).1 = r' := by rw [h]
  by_cases hm : r.Method = ""
  · have : (r.Validate lib).1 = { r with Method := DefaultMethod } := by
      unfold MonitorRule.Validate
      simp only [hc.1, hc.2.1, hc.2.2.1, hm, if_true, if_false]
      split_ifs <;> rfl
    rw [← hfst, this]
    exact validMethods_contains_default
  · have : (r.Validate lib).1 = r := by
      rcases Validate_fst lib r with h1 | ⟨h1, -⟩
      · exact h1
      · exact absurd h1 hm
    rw [← hfst, this]
    rcases hc.2.2.2.1 with h1 | h1
    · exact absurd h1 hm
    · exact h1

/-- A rule that agrees with a valid rule on the fields `Validate` reads is valid. -/
theorem Validate_congr {lib : Lib} {r r2 : MonitorRule} (h : r.Validate lib = (r, none))
    (h1 : r2.Name = r.Name) (h2 : r2.URL = r.URL) (h3 : r2.Method = r.Method)
    (h4 : r2.Interval = r.Interval) (h5 : r2.ExtractorExpr = r.ExtractorExpr)
    (h6 : r2.ExtractorType = r.ExtractorType) : r2.Validate lib = (r2, none) := by
  have hc := Validate_none_imp (show (r.Validate lib).2 = none by rw [h])
  have hm := Validate_ok_method h
  apply Validate_of_checks
  · rw [h1]; exact hc.1
  · rw [h2]; exact hc.2.1
  · rw [h2]; exact hc.2.2.1
  · rw [h3]; exact hm
  · rw [h4]; exact hc.2.2.2.2.1
  · rw [h5]; exact hc.2.2.2.2.2.1
  · rw [h6]; exact hc.2.2.2.2.2.2

theorem Validate_idem {lib : Lib} {r r' : MonitorRule} (h : r.Validate lib = (r', none)) :
    r'.Validate lib = (r', none) := by
  have hc := Validate_none_imp (show (r.Validate lib).2 = none by rw [h])
  have hm := Validate_ok_method h
  have hfst : (r.Validate lib).1 = r' := by rw [h]
  have hf : r'.Name = r.Name ∧ r'.URL = r.URL ∧ r'.Interval = r.Interval ∧
      r'.ExtractorExpr = r.ExtractorExpr ∧ r'.ExtractorType = r.ExtractorType := by
    rcases Validate_fst lib r with h1 | ⟨-, h1⟩ <;> rw [← hfst, h1] <;>
      exact ⟨rfl, rfl, rfl, rfl, rfl⟩
  apply Validate_of_checks
  · rw [hf.1]; exact hc.1
  · rw [hf.2.1]; exact hc.2.1
  · rw [hf.2.1]; exact hc.2.2.1
  · exact hm
  · rw [hf.2.2.1]; exact hc.2.2.2.2.1
  · rw [hf.2.2.2.1]; exact hc.2.2.2.2.2.1
  · rw [hf.2.2.2.2]; exact hc.2.2.2.2.2.2

/-! ### monitor/service.go: which tasks are running after a call -/

theorem MonitorService.IsTaskRunning_congr {s s' : MonitorService} {id : String}
    (h : s'.tasks.lookup id = s.tasks.lookup id) : s'.IsTaskRunning id = s.IsTaskRunning id := by
  unfold MonitorService.IsTaskRunning
  rw [h]

theorem MonitorService.IsTaskRunning_of_lookup_none {s : MonitorService} {id : String}
    (h : s.tasks.lookup id = none) : s.IsTaskRunning id = false := by
  unfold MonitorService.IsTaskRunning
  rw [h]

/-- What `StartTask` leaves behind when it returns: other IDs are untouched; after an
error no task runs under the ID that did not run before. -/
theorem MonitorService.StartTask_ret {lib : Lib} {s s' : MonitorService} {rule : MonitorRule}
    {err : Option GoError} (h : s.StartTask lib rule = .ret (s', err)) :
    (∀ id, id ≠ rule.ID → s'.tasks.lookup id = s.tasks.lookup id) ∧
      (err ≠ none → s'.IsTaskRunning rule.ID = true → s.IsTaskRunning rule.ID = true) := by
  unfold MonitorService.StartTask at h
  cases hl : s.tasks.lookup rule.ID with
  | some task =>
    rw [hl] at h
    simp only [] at h
    by_cases hr : task.running = true
    · simp only [Task.IsRunning, hr, if_true] at h
      injection h with h
      injection h with h1 h2
      subst h1
      exact ⟨fun _ _ => rfl, fun _ h => h⟩
    · have hr' : task.running = false := by simpa using hr
      simp only [Task.IsRunning, hr', Bool.false_eq_true, if_false,
        Task.Stop_of_stopped task hr', Run.ret_bind] at h
      rcases MonitorService.createAndStart_ret h with ⟨herr, _, task', _, _, _, hs'⟩ | ⟨hs', _, _, _⟩
      · subst hs'
        refine ⟨?_, fun hne => absurd herr hne⟩
        intro id hne
        show AList.lookup id (AList.insert rule.ID task' (AList.erase rule.ID s.tasks)) = _
        rw [AList.lookup_insert_ne hne, AList.lookup_erase_ne hne]
      · subst hs'
        refine ⟨fun id hne => AList.lookup_erase_ne hne, ?_⟩
        intro _ hrun
        have : MonitorService.IsTaskRunning
            { s with tasks := s.tasks.erase rule.ID } rule.ID = false :=
          MonitorService.IsTaskRunning_of_lookup_none (AList.lookup_erase _ _)
        rw [this] at hrun
        cases hrun
  | none =>
    rw [hl] at h
    simp only [] at h
    rcases MonitorService.createAndStart_ret h with ⟨herr, _, task', _, _, _, hs'⟩ | ⟨hs', _, _, _⟩
    · subst hs'
      refine ⟨?_, fun hne => absurd herr hne⟩
      intro id hne
      show AList.lookup id (AList.insert rule.ID task' s.tasks) = _
      rw [AList.lookup_insert_ne hne]
    · subst hs'
      exact ⟨fun _ _ => rfl, fun _ h => h⟩

theorem MonitorService.StopTask_ret {s s' : MonitorService} {id : String}
    {err : Option GoError} (h : s.StopTask id = .ret (s', err)) :
    (s' = s ∧ s.tasks.lookup id = none ∧ err ≠ none) ∨
      (s' = { s with tasks := s.tasks.erase id } ∧ err = none) := by
  unfold MonitorService.StopTask at h
  cases hl : s.tasks.lookup id with
  | none =>
    rw [hl] at h
    injection h with h
    injection h with h1 h2
    exact Or.inl ⟨h1.symm, rfl, by rw [← h2]; simp⟩
  | some task =>
    rw [hl] at h
    simp only [] at h
    cases hs : task.Stop with
    | panic msg => rw [hs] at h; cases h
    | ret t' =>
      rw [hs] at h
      injection h with h
      injection h with h1 h2
      exact Or.inr ⟨h1.symm, h2.symm⟩

theorem MonitorService.updateAndRestart_ret {lib : Lib} {s s' : MonitorService}
    {rule : MonitorRule} {w : Bool} {task : Task} {err : Option GoError}
    (h : MonitorService.updateAndRestart lib s rule w task = .ret (s', err)) :
    ∀ id, id ≠ rule.ID → s'.tasks.lookup id = s.tasks.lookup id := by
  intro id hne
  unfold MonitorService.updateAndRestart at h
  cases h2 : task.Update lib rule with
  | panic msg => rw [h2] at h; cases h
  | ret r2 =>
    obtain ⟨t2, e2⟩ := r2
    rw [h2] at h
    simp only [Run.ret_bind] at h
    cases e2 with
    | some e =>
      simp only [Run.pure_eq] at h
      injection h with h
      injection h with h3 h4
      rw [← h3]
      exact TaskMap.lookup_replace_ne _ _ _ _ hne
    | none =>
      simp only [] at h
      cases w with
      | true =>
        simp only [if_true] at h
        cases h3 : t2.Start with
        | panic msg => rw [h3] at h; cases h
        | ret r3 =>
          obtain ⟨t3, e3⟩ := r3
          rw [h3] at h
          simp only [Run.ret_bind] at h
          have key : s'.tasks = AList.replace rule.ID t3 (AList.replace rule.ID t2 s.tasks) := by
            cases e3 with
            | some e =>
              simp only [Run.pure_eq] at h
              injection h with h
              injection h with h4 h5
              rw [← h4]
            | none =>
              simp only [Run.pure_eq] at h
              injection h with h
              injection h with h4 h5
              rw [← h4]
          rw [key, TaskMap.lookup_replace_ne _ _ _ _ hne, TaskMap.lookup_replace_ne _ _ _ _ hne]
      | false =>
        simp only [Bool.false_eq_true, if_false, Run.pure_eq] at h
        injection h with h
        injection h with h4 h5
        rw [← h4]
        exact TaskMap.lookup_replace_ne _ _ _ _ hne

theorem MonitorService.UpdateTask_ret {lib : Lib} {s s' : MonitorService} {rule : MonitorRule}
    {err : Option GoError} (h : s.UpdateTask lib rule = .ret (s', err)) :
    ∀ id, id ≠ rule.ID → s'.tasks.lookup id = s.tasks.lookup id := by
  unfold MonitorService.UpdateTask at h
  cases hl : s.tasks.lookup rule.ID with
  | none =>
    rw [hl] at h
    injection h with h
    injection h with h1 h2
    rw [← h1]
    exact fun _ _ => rfl
  | some task =>
    rw [hl] at h
    simp only [] at h
    cases h1 : (if task.IsRunning = true then task.Stop else pure task) with
    | panic msg => rw [h1] at h; cases h
    | ret t1 =>
      rw [h1] at h
      exact MonitorService.updateAndRestart_ret h

theorem MonitorService.stopEach_ret :
    ∀ (l : List (Σ _ : String, Task)) (s s' : MonitorService),
      MonitorService.stopEach l s = .ret s' →
      ∀ id, s'.tasks.lookup id = if id ∈ l.keys then none else s.tasks.lookup id := by
  intro l
  induction l with
  | nil =>
    intro s s' h id
    injection h with h
    simp [h]
  | cons x xs ih =>
    intro s s' h id
    unfold MonitorService.stopEach at h
    cases hs : x.2.Stop with
    | panic msg => rw [hs] at h; cases h
    | ret t' =>
      rw [hs] at h
      simp only [Run.ret_bind] at h
      rw [ih _ _ h id]
      by_cases hx : id = x.1
      · subst hx
        by_cases hm : x.1 ∈ xs.keys
        · have hm2 : x.1 ∈ (x :: xs).keys := by
            simp only [List.keys_cons, List.mem_cons]
            exact Or.inr hm
          simp only [hm, hm2, if_true]
        · simp only [hm, if_false, List.keys_cons, List.mem_cons, true_or, if_true]
          exact AList.lookup_erase _ _
      · by_cases hm : id ∈ xs.keys
        · have hm2 : id ∈ (x :: xs).keys := by
            simp only [List.keys_cons, List.mem_cons]
            exact Or.inr hm
          simp only [hm, hm2, if_true]
        · have hm' : id ∉ (x :: xs).keys := by
            simp only [List.keys_cons, List.mem_cons, not_or]
            exact ⟨hx, hm⟩
          simp only [hm, hm', if_false]
          exact AList.lookup_erase_ne hx

/-- After `StopAll` no task is registered. -/
theorem MonitorService.StopAll_ret {s s' : MonitorService} (h : s.StopAll = .ret s') :
    ∀ id, s'.tasks.lookup id = none := by
  intro id
  rw [MonitorService.stopEach_ret _ _ _ h id]
  split_ifs with hm
  · rfl
  · exact AList.lookup_eq_none.mpr (fun hc => hm (AList.mem_keys.mp hc))

theorem MonitorService.StartTask_running {lib : Lib} {s s' : MonitorService}
    {rule : MonitorRule} {err : Option GoError} (h : s.StartTask lib rule = .ret (s', err))
    {id : String} (hr : s'.IsTaskRunning id = true) :
    id = rule.ID ∨ s.IsTaskRunning id = true := by
  by_cases hid : id = rule.ID
  · exact Or.inl hid
  · right
    rw [← MonitorService.IsTaskRunning_congr ((MonitorService.StartTask_ret h).1 id hid)]
    exact hr

/-- Whatever the task reconciliation of `UpdateRule` returns: other IDs are untouched, and
a task runs under the rule's ID afterwards only if the rule is enabled. -/
theorem Engine.reconcileTask_ret {lib : Lib} {svc svc' : MonitorService} {rule : MonitorRule}
    (h : Engine.reconcileTask lib svc rule = .ret svc') :
    (∀ id, id ≠ rule.ID → svc'.tasks.lookup id = svc.tasks.lookup id) ∧
      (svc'.IsTaskRunning rule.ID = true → rule.Enabled = true) := by
  unfold Engine.reconcileTask at h
  by_cases hE : rule.Enabled = true
  · refine ⟨?_, fun _ => hE⟩
    simp only [hE, if_true] at h
    by_cases hR : svc.IsTaskRunning rule.ID = true
    · simp only [hR, if_true] at h
      cases hu : svc.UpdateTask lib rule with
      | panic msg => rw [hu] at h; cases h
      | ret r =>
        rw [hu] at h
        injection h with h
        subst h
        exact MonitorService.UpdateTask_ret hu
    · simp only [hR, if_false] at h
      cases hu : svc.StartTask lib rule with
      | panic msg => rw [hu] at h; cases h
      | ret r =>
        rw [hu] at h
        injection h with h
        subst h
        exact (MonitorService.StartTask_ret hu).1
  · simp only [hE, if_false] at h
    by_cases hR : svc.IsTaskRunning rule.ID = true
    · simp only [hR, if_true] at h
      cases hu : svc.StopTask rule.ID with
      | panic msg => rw [hu] at h; cases h
      | ret r =>
        rw [hu] at h
        injection h with h
        subst h
        rcases MonitorService.StopTask_ret hu with ⟨-, hnone, -⟩ | ⟨hs, -⟩
        · have := MonitorService.IsTaskRunning_of_lookup_none hnone
          rw [hR] at this
          cases this
        · rw [hs]
          refine ⟨fun id hne => AList.lookup_erase_ne hne, ?_⟩
          intro hrun
          have : MonitorService.IsTaskRunning
              { svc with tasks := svc.tasks.erase rule.ID } rule.ID = false :=
            MonitorService.IsTaskRunning_of_lookup_none (AList.lookup_erase _ _)
          rw [this] at hrun
          cases hrun
    · simp only [hR, if_false, Run.pure_eq] at h
      injection h with h
      subst h
      exact ⟨fun _ _ => rfl, fun hrun => absurd hrun hR⟩

/-- After the start loop of `Initialize`, a running task either ran before or belongs to
an enabled rule of the list. -/
theorem Engine.startEnabled_ret {lib : Lib} :
    ∀ (rules : List MonitorRule) (s s' : MonitorService),
      Engine.startEnabled lib rules s = .ret s' →
      ∀ id, s'.IsTaskRunning id = true →
        s.IsTaskRunning id = true ∨ ∃ r ∈ rules, r.Enabled = true ∧ r.ID = id := by
  intro rules
  induction rules with
  | nil =>
    intro s s' h id hr
    injection h with h
    subst h
    exact Or.inl hr
  | cons r rs ih =>
    intro s s' h id hr
    unfold Engine.startEnabled at h
    by_cases hE : r.Enabled = true
    · simp only [hE, if_true] at h
      cases hu : s.StartTask lib r with
      | panic msg => rw [hu] at h; cases h
      | ret x =>
        obtain ⟨s1, e1⟩ := x
        rw [hu] at h
        simp only [Run.ret_bind] at h
        rcases ih s1 s' h id hr with h1 | ⟨r', hr', hE', hid'⟩
        · rcases MonitorService.StartTask_running hu h1 with h2 | h2
          · exact Or.inr ⟨r, List.mem_cons_self _ _, hE, h2.symm⟩
          · exact Or.inl h2
        · exact Or.inr ⟨r', List.mem_cons_of_mem _ hr', hE', hid'⟩
    · simp only [hE, if_false] at h
      rcases ih s s' h id hr with h1 | ⟨r', hr', hE', hid'⟩
      · exact Or.inl h1
      · exact Or.inr ⟨r', List.mem_cons_of_mem _ hr', hE', hid'⟩

/-! ### config/manager.go: what a successful call writes -/

theorem YAMLManager.Load_ok {io : Faults} {m : YAMLManager} {rules : List MonitorRule}
    (h : m.Load io = .ok rules) : rules = m.file.getD [] := by
  unfold YAMLManager.Load at h
  cases hf : m.file with
  | none => rw [hf] at h; injection h with h; rw [← h]; rfl
  | some l =>
    rw [hf] at h
    simp only [] at h
    cases hr : io.read with
    | some err => rw [hr] at h; cases h
    | none => rw [hr] at h; injection h with h; rw [← h]; rfl

theorem YAMLManager.Save_ret {io : Faults} {m m' : YAMLManager} {rules : List MonitorRule}
    {err : Option GoError} (h : m.Save io rules = (m', err)) :
    (err = none ∧ m'.file = some rules) ∨ (err ≠ none ∧ m' = m) := by
  unfold YAMLManager.Save at h
  cases hw : io.write with
  | some e =>
    rw [hw] at h
    injection h with h1 h2
    exact Or.inr ⟨by rw [← h2]; simp, h1.symm⟩
  | none =>
    rw [hw] at h
    simp only [] at h
    cases hr : io.rename with
    | some e =>
      rw [hr] at h
      injection h with h1 h2
      exact Or.inr ⟨by rw [← h2]; simp, h1.symm⟩
    | none =>
      rw [hr] at h
      injection h with h1 h2
      exact Or.inl ⟨h2.symm, by rw [← h1]⟩

theorem YAMLManager.AddRule_ok {io : Faults} {m m' : YAMLManager} {rule : MonitorRule}
    (h : m.AddRule io rule = (m', none)) :
    m'.file = some (m.file.getD [] ++ [rule]) ∧ ∀ r ∈ m.file.getD [], r.ID ≠ rule.ID := by
  unfold YAMLManager.AddRule at h
  cases hl : m.Load io with
  | error e => rw [hl] at h; injection h with _ h2; cases h2
  | ok rules =>
    rw [hl] at h
    simp only [] at h
    have hrules := YAMLManager.Load_ok hl
    by_cases hany : rules.any (fun r => decide (r.ID = rule.ID)) = true
    · simp only [hany, if_true] at h
      injection h with _ h2
      cases h2
    · simp only [hany, if_false] at h
      rcases YAMLManager.Save_ret h with ⟨-, hf⟩ | ⟨hc, -⟩
      · rw [hf, hrules]
        refine ⟨rfl, ?_⟩
        intro r hr hid
        apply hany
        rw [List.any_eq_true]
        exact ⟨r, hrules ▸ hr, by simpa using hid⟩
      · exact absurd rfl hc

theorem YAMLManager.UpdateRule_ok {io : Faults} {m m' : YAMLManager} {rule : MonitorRule}
    (h : m.UpdateRule io rule = (m', none)) :
    m'.file = some (replaceFirst (m.file.getD []) rule).1 ∧
      (replaceFirst (m.file.getD []) rule).2 = true := by
  unfold YAMLManager.UpdateRule at h
  cases hl : m.Load io with
  | error e => rw [hl] at h; injection h with _ h2; cases h2
  | ok rules =>
    rw [hl] at h
    simp only [] at h
    have hrules := YAMLManager.Load_ok hl
    subst hrules
    by_cases hf : (replaceFirst (m.file.getD []) rule).2 = true
    · simp only [hf, Bool.not_true, Bool.false_eq_true, if_false] at h
      rcases YAMLManager.Save_ret h with ⟨-, hfile⟩ | ⟨hc, -⟩
      · exact ⟨hfile, hf⟩
      · exact absurd rfl hc
    · have hf' : (replaceFirst (m.file.getD []) rule).2 = false := by simpa using hf
      simp only [hf', Bool.not_false, if_true] at h
      injection h with _ h2
      cases h2

theorem YAMLManager.DeleteRule_ret {io : Faults} {m m' : YAMLManager} {id : String}
    {err : Option GoError} (h : m.DeleteRule io id = (m', err)) :
    m' = m ∨ m'.file = some ((m.file.getD []).filter fun r => decide (r.ID ≠ id)) := by
  unfold YAMLManager.DeleteRule at h
  cases hl : m.Load io with
  | error e => rw [hl] at h; injection h with h1 _; exact Or.inl h1.symm
  | ok rules =>
    rw [hl] at h
    simp only [] at h
    have hrules := YAMLManager.Load_ok hl
    subst hrules
    split_ifs at h
    · injection h with h1 _; exact Or.inl h1.symm
    · rcases YAMLManager.Save_ret h with ⟨-, hfile⟩ | ⟨-, hm⟩
      · exact Or.inr hfile
      · exact Or.inl hm

/-! ### core/engine.go: the invariant of a run -/

theorem exists_id_iff_mem_ids (l : List MonitorRule) (id : String) :
    (∃ r ∈ l, r.ID = id) ↔ id ∈ l.map fun r => r.ID := by
  simp [List.mem_map]

theorem exists_id_replaceFirst (l : List MonitorRule) (rule : MonitorRule) (id : String) :
    (∃ r ∈ (replaceFirst l rule).1, r.ID = id) ↔ ∃ r ∈ l, r.ID = id := by
  rw [exists_id_iff_mem_ids, exists_id_iff_mem_ids, replaceFirst_ids]

theorem replaceFirst_found_imp (l : List MonitorRule) (rule : MonitorRule)
    (h : (replaceFirst l rule).2 = true) : ∃ r ∈ l, r.ID = rule.ID := by
  by_contra hc
  have habs : ∀ r ∈ l, r.ID ≠ rule.ID := fun r hr hid => hc ⟨r, hr, hid⟩
  rw [replaceFirst_of_absent l rule habs] at h
  cases h

theorem Engine.Inv.weaken {lib : Lib} {e : Engine} (skip : Option String)
    (h : Engine.Inv lib none e) : Engine.Inv lib skip e :=
  { fileNodup := h.fileNodup, memNodup := h.memNodup, memSub := h.memSub,
    validMem := h.validMem, validFile := h.validFile,
    runMem := fun r hr _ hrun => h.runMem r hr (by simp) hrun,
    runFile := fun r hr _ hrun => h.runFile r hr (by simp) hrun,
    runIn := h.runIn }

/-- The invariant survives a change of the registry that starts no task. -/
theorem Engine.Inv.mono {lib : Lib} {skip : Option String} {e e' : Engine}
    (h : Engine.Inv lib skip e) (hc : e'.configMgr = e.configMgr) (hr : e'.rules = e.rules)
    (hrun : ∀ id, e'.monitorSvc.IsTaskRunning id = true → e.monitorSvc.IsTaskRunning id = true) :
    Engine.Inv lib skip e' := by
  have hf : e'.fileRules = e.fileRules := by unfold Engine.fileRules; rw [hc]
  exact
    { fileNodup := by rw [hf]; exact h.fileNodup
      memNodup := by rw [hr]; exact h.memNodup
      memSub := by rw [hr, hf]; exact h.memSub
      validMem := by rw [hr]; exact h.validMem
      validFile := by rw [hf]; exact h.validFile
      runMem := by rw [hr]; exact fun r hm hs hrn => h.runMem r hm hs (hrun _ hrn)
      runFile := by rw [hf]; exact fun r hm hs hrn => h.runFile r hm hs (hrun _ hrn)
      runIn := by rw [hf]; exact fun id hrn => h.runIn id (hrun _ hrn) }

/-- The invariant holds in an engine with no rules and no tasks whose configuration file
is absent, or holds valid rules with distinct IDs. -/
theorem Engine.Inv.initial (lib : Lib) (cb : Bool) (file : Option (List MonitorRule))
    (hnd : ((file.getD []).map fun r => r.ID).Nodup)
    (hv : ∀ r ∈ file.getD [], r.Validate lib = (r, none)) :
    Engine.Inv lib none (NewEngine { file := file } (NewMonitorService cb)) :=
  { fileNodup := hnd
    memNodup := List.nodup_nil
    memSub := fun _ hr => nomatch hr
    validMem := fun _ hr => nomatch hr
    validFile := hv
    runMem := fun _ hr => nomatch hr
    runFile := fun r _ _ hrun => by
      have : (NewMonitorService cb).IsTaskRunning r.ID = false :=
        MonitorService.IsTaskRunning_of_lookup_none (AList.lookup_empty r.ID)
      have hrun' : (NewMonitorService cb).IsTaskRunning r.ID = true := hrun
      rw [this] at hrun'
      cases hrun'
    runIn := fun id hrun => by
      have : (NewMonitorService cb).IsTaskRunning id = false :=
        MonitorService.IsTaskRunning_of_lookup_none (AList.lookup_empty id)
      have hrun' : (NewMonitorService cb).IsTaskRunning id = true := hrun
      rw [this] at hrun'
      cases hrun' }

/-- Writing a valid rule over the first in-memory rule with its ID keeps the invariant
taken off that ID. -/
theorem Engine.Inv.replaceMem {lib : Lib} {e : Engine} {rule : MonitorRule}
    (h : Engine.Inv lib (some rule.ID) e) (hv : rule.Validate lib = (rule, none)) :
    Engine.Inv lib (some rule.ID) { e with rules := (replaceFirst e.rules rule).1 } :=
  { fileNodup := h.fileNodup
    memNodup := by
      show ((replaceFirst e.rules rule).1.map fun r => r.ID).Nodup
      rw [replaceFirst_ids]; exact h.memNodup
    memSub := by
      intro r hr
      have : ∃ x ∈ (replaceFirst e.rules rule).1, x.ID = r.ID := ⟨r, hr, rfl⟩
      obtain ⟨x, hx, hid⟩ := (exists_id_replaceFirst _ _ _).mp this
      obtain ⟨r', hr', hid'⟩ := h.memSub x hx
      exact ⟨r', hr', hid'.trans hid⟩
    validMem := by
      intro r hr
      rcases mem_replaceFirst hr with h1 | h1
      · rw [h1]; exact hv
      · exact h.validMem r h1
    validFile := h.validFile
    runMem := by
      intro r hr hs hrun
      rcases mem_replaceFirst hr with h1 | h1
      · rw [h1] at hs; exact absurd rfl hs
      · exact h.runMem r h1 hs hrun
    runFile := h.runFile
    runIn := h.runIn }

/-- The success path of `UpdateRule`: from the invariant taken off the rule's ID, the
full invariant after the rule is written to memory and to the file and its task is
reconciled. -/
theorem Engine.Inv.update {lib : Lib} {io : Faults} {e : Engine} {rule : MonitorRule}
    {m : YAMLManager} {svc' : MonitorService} (p : List Event)
    (h : Engine.Inv lib (some rule.ID) e) (hv : rule.Validate lib = (rule, none))
    (hp : e.configMgr.UpdateRule io rule = (m, none))
    (hrec : Engine.reconcileTask lib e.monitorSvc rule = .ret svc') :
    Engine.Inv lib none
      { configMgr := m, monitorSvc := svc', rules := (replaceFirst e.rules rule).1,
        published := p } := by
  obtain ⟨hfile, hff⟩ := YAMLManager.UpdateRule_ok hp
  obtain ⟨hframe, hen⟩ := Engine.reconcileTask_ret hrec
  have hF : (Engine.mk m svc' (replaceFirst e.rules rule).1 p).fileRules =
      (replaceFirst e.fileRules rule).1 := by
    show m.file.getD [] = _
    rw [hfile]; rfl
  have hrunOff : ∀ id, id ≠ rule.ID → svc'.IsTaskRunning id = true →
      e.monitorSvc.IsTaskRunning id = true := by
    intro id hne hrun
    rw [← MonitorService.IsTaskRunning_congr (hframe id hne)]
    exact hrun
  refine
    { fileNodup := ?_, memNodup := ?_, memSub := ?_, validMem := ?_, validFile := ?_,
      runMem := ?_, runFile := ?_, runIn := ?_ }
  · rw [hF, replaceFirst_ids]; exact h.fileNodup
  · show ((replaceFirst e.rules rule).1.map fun r => r.ID).Nodup
    rw [replaceFirst_ids]; exact h.memNodup
  · intro r hr
    rw [hF]
    have : ∃ x ∈ (replaceFirst e.rules rule).1, x.ID = r.ID := ⟨r, hr, rfl⟩
    obtain ⟨x, hx, hid⟩ := (exists_id_replaceFirst _ _ _).mp this
    obtain ⟨r', hr', hid'⟩ := h.memSub x hx
    exact (exists_id_replaceFirst _ _ _).mpr ⟨r', hr', hid'.trans hid⟩
  · intro r hr
    rcases mem_replaceFirst hr with h1 | h1
    · rw [h1]; exact hv
    · exact h.validMem r h1
  · intro r hr
    rw [hF] at hr
    rcases mem_replaceFirst hr with h1 | h1
    · rw [h1]; exact hv
    · exact h.validFile r h1
  · intro r hr _ hrun
    by_cases hid : r.ID = rule.ID
    · have := eq_of_mem_replaceFirst h.memNodup hr hid
      subst this
      exact hen hrun
    · rcases mem_replaceFirst hr with h1 | h1
      · rw [h1] at hid; exact absurd rfl hid
      · exact h.runMem r h1 (by simpa using hid) (hrunOff _ hid hrun)
  · intro r hr _ hrun
    rw [hF] at hr
    by_cases hid : r.ID = rule.ID
    · have := eq_of_mem_replaceFirst h.fileNodup hr hid
      subst this
      exact hen hrun
    · rcases mem_replaceFirst hr with h1 | h1
      · rw [h1] at hid; exact absurd rfl hid
      · exact h.runFile r h1 (by simpa using hid) (hrunOff _ hid hrun)
  · intro id hrun
    rw [hF]
    apply (exists_id_replaceFirst _ _ _).mpr
    by_cases hid : id = rule.ID
    · rw [hid]; exact replaceFirst_found_imp _ _ hff
    · exact h.runIn id (hrunOff _ hid hrun)

theorem saveFailed_wrapf (pre : String) (err : GoError) :
    saveFailed (some (.wrapf pre err)) = decide (pre = "保存规则失败: ") := rfl

/-- The ways `UpdateRule` returns without a "saving failed" error. `e1` is the engine
after validation wrote through an aliased rule. -/
theorem Engine.UpdateRule_ret {lib : Lib} {io : Faults} {e e' : Engine} {rule : MonitorRule}
    {aliased : Bool} {err : Option GoError}
    (h : e.UpdateRule lib io rule aliased = .ret (e', err)) (hs : saveFailed err = false) :
    ∃ e1 : Engine,
      e1 = (if aliased then { e with rules := (replaceFirst e.rules (rule.Validate lib).1).1 }
        else e) ∧
      (((rule.Validate lib).2 ≠ none ∧ e' = e1) ∨
        ((rule.Validate lib).2 = none ∧ (replaceFirst e1.rules (rule.Validate lib).1).2 = false ∧
          e' = e1) ∨
        ((rule.Validate lib).2 = none ∧ ∃ m svc' p,
          e1.configMgr.UpdateRule io (rule.Validate lib).1 = (m, none) ∧
          Engine.reconcileTask lib e1.monitorSvc (rule.Validate lib).1 = .ret svc' ∧
          e' = Engine.mk m svc' (replaceFirst e1.rules (rule.Validate lib).1).1 p)) := by
  refine ⟨_, rfl, ?_⟩
  unfold Engine.UpdateRule at h
  cases hval : rule.Validate lib with
  | mk rule' verr =>
    rw [hval] at h
    simp only [] at h ⊢
    generalize (if aliased = true then
      ({ e with rules := (replaceFirst e.rules rule').1 } : Engine) else e) = e1 at h ⊢
    cases verr with
    | some verr =>
      simp only [] at h
      injection h with h
      injection h with h1 h2
      exact Or.inl ⟨by simp, h1.symm⟩
    | none =>
      simp only [] at h
      right
      by_cases hf : (replaceFirst e1.rules rule').2 = true
      · right
        simp only [hf, Bool.not_true, Bool.false_eq_true, if_false] at h
        cases hp : e1.configMgr.UpdateRule io rule' with
        | mk m perr =>
          rw [hp] at h
          cases perr with
          | some perr =>
            simp only [] at h
            injection h with h
            injection h with h1 h2
            rw [← h2, saveFailed_wrapf] at hs
            simp at hs
          | none =>
            simp only [] at h
            cases hrec : Engine.reconcileTask lib e1.monitorSvc rule' with
            | panic msg => rw [hrec] at h; cases h
            | ret svc' =>
              rw [hrec] at h
              simp only [Run.ret_bind, Run.pure_eq] at h
              injection h with h
              injection h with h1 h2
              exact ⟨rfl, m, svc', _, rfl, rfl, h1.symm⟩
      · left
        have hf' : (replaceFirst e1.rules rule').2 = false := by simpa using hf
        simp only [hf', Bool.not_false, if_true] at h
        injection h with h
        injection h with h1 h2
        refine ⟨rfl, hf', ?_⟩
        rw [← h1, replaceFirst_not_found _ _ hf']

/-- `UpdateRule` with a rule from outside keeps the invariant, unless saving fails. -/
theorem Engine.UpdateRule_inv {lib : Lib} {io : Faults} {e e' : Engine} {rule : MonitorRule}
    {err : Option GoError} (hinv : Engine.Inv lib none e)
    (h : e.UpdateRule lib io rule false = .ret (e', err)) (hs : saveFailed err = false) :
    Engine.Inv lib none e' := by
  obtain ⟨e1, he1, hcases⟩ := Engine.UpdateRule_ret h hs
  simp only [Bool.false_eq_true, if_false] at he1
  subst he1
  rcases hcases with ⟨-, he'⟩ | ⟨-, -, he'⟩ | ⟨hv, m, svc', p, hp, hrec, he'⟩
  · rw [he']; exact hinv
  · rw [he']; exact hinv
  · rw [he']
    have hv' : (rule.Validate lib).1.Validate lib = ((rule.Validate lib).1, none) :=
      Validate_idem (show rule.Validate lib = ((rule.Validate lib).1, none) from
        Prod.ext rfl hv)
    exact Engine.Inv.update p (hinv.weaken _) hv' hp hrec

/-- `UpdateRule` with the pointer of a valid in-memory rule, as `StartMonitoring` and
`StopMonitoring` call it, restores the full invariant, unless saving fails. -/
theorem Engine.UpdateRule_inv_aliased {lib : Lib} {io : Faults} {e e' : Engine}
    {rule : MonitorRule} {err : Option GoError} (hinv : Engine.Inv lib (some rule.ID) e)
    (hv : rule.Validate lib = (rule, none)) (hmem : ∃ r ∈ e.rules, r.ID = rule.ID)
    (h : e.UpdateRule lib io rule true = .ret (e', err)) (hs : saveFailed err = false) :
    Engine.Inv lib none e' := by
  obtain ⟨e1, he1, hcases⟩ := Engine.UpdateRule_ret h hs
  rw [hv] at he1 hcases
  simp only [if_true] at he1 hcases
  have hinv1 : Engine.Inv lib (some rule.ID) e1 := by
    rw [he1]; exact hinv.replaceMem hv
  have hfound : (replaceFirst e1.rules rule).2 = true := by
    apply replaceFirst_found
    rw [he1]
    exact (exists_id_replaceFirst _ _ _).mpr hmem
  rcases hcases with ⟨hne, -⟩ | ⟨-, hnf, -⟩ | ⟨-, m, svc', p, hp, hrec, he'⟩
  · exact absurd rfl hne
  · rw [hfound] at hnf; cases hnf
  · rw [he']
    exact Engine.Inv.update p hinv1 hv hp hrec

theorem eq_of_ids_nodup {l : List MonitorRule} (hnd : (l.map fun r => r.ID).Nodup)
    {a b : MonitorRule} (ha : a ∈ l) (hb : b ∈ l) (h : a.ID = b.ID) : a = b :=
  List.inj_on_of_nodup_map hnd ha hb h

/-- `Initialize` keeps the invariant. -/
theorem Engine.Initialize_inv {lib : Lib} {io : Faults} {e e' : Engine}
    {err : Option GoError} (hinv : Engine.Inv lib none e)
    (h : e.Initialize lib io = .ret (e', err)) : Engine.Inv lib none e' := by
  unfold Engine.Initialize at h
  cases hl : e.configMgr.Load io with
  | error lerr =>
    rw [hl] at h
    injection h with h
    injection h with h1 h2
    rw [← h1]; exact hinv
  | ok rules =>
    rw [hl] at h
    simp only [] at h
    have hrules : rules = e.fileRules := YAMLManager.Load_ok hl
    cases hs : Engine.startEnabled lib rules e.monitorSvc with
    | panic msg => rw [hs] at h; cases h
    | ret svc' =>
      rw [hs] at h
      simp only [Run.ret_bind, Run.pure_eq] at h
      injection h with h
      injection h with h1 h2
      rw [← h1]
      have hrun := Engine.startEnabled_ret rules e.monitorSvc svc' hs
      subst hrules
      have key : ∀ r ∈ e.fileRules, svc'.IsTaskRunning r.ID = true → r.Enabled = true := by
        intro r hr hrn
        rcases hrun r.ID hrn with h3 | ⟨r2, hr2, hE2, hid2⟩
        · exact hinv.runFile r hr (by simp) h3
        · have := eq_of_ids_nodup hinv.fileNodup hr2 hr hid2
          rw [← this]; exact hE2
      exact
        { fileNodup := hinv.fileNodup
          memNodup := hinv.fileNodup
          memSub := fun r hr => ⟨r, hr, rfl⟩
          validMem := hinv.validFile
          validFile := hinv.validFile
          runMem := fun r hr _ hrn => key r hr hrn
          runFile := fun r hr _ hrn => key r hr hrn
          runIn := by
            intro id hrn
            rcases hrun id hrn with h3 | ⟨r2, hr2, -, hid2⟩
            · exact hinv.runIn id h3
            · exact ⟨r2, hr2, hid2⟩ }

/-- Appending a valid rule with a new ID to memory and to the file, and starting no task
but possibly that of the rule when it is enabled, keeps the invariant. -/
theorem Engine.Inv.add {lib : Lib} {e : Engine} {rule : MonitorRule} {m : YAMLManager}
    {svc' : MonitorService} (p : List Event) (hinv : Engine.Inv lib none e)
    (hv : rule.Validate lib = (rule, none))
    (hfile : m.file = some (e.fileRules ++ [rule]))
    (hnew : ∀ r ∈ e.fileRules, r.ID ≠ rule.ID)
    (hrun : ∀ id, svc'.IsTaskRunning id = true →
      (id = rule.ID ∧ rule.Enabled = true) ∨ e.monitorSvc.IsTaskRunning id = true) :
    Engine.Inv lib none (Engine.mk m svc' (e.rules ++ [rule]) p) := by
  have hF : (Engine.mk m svc' (e.rules ++ [rule]) p).fileRules = e.fileRules ++ [rule] := by
    show m.file.getD [] = _
    rw [hfile]; rfl
  have hnewMem : ∀ r ∈ e.rules, r.ID ≠ rule.ID := by
    intro r hr hid
    obtain ⟨r', hr', hid'⟩ := hinv.memSub r hr
    exact hnew r' hr' (hid'.trans hid)
  have hnotrun : e.monitorSvc.IsTaskRunning rule.ID = true → False := by
    intro hrn
    obtain ⟨r, hr, hid⟩ := hinv.runIn _ hrn
    exact hnew r hr hid
  refine
    { fileNodup := ?_, memNodup := ?_, memSub := ?_, validMem := ?_, validFile := ?_,
      runMem := ?_, runFile := ?_, runIn := ?_ }
  · rw [hF, List.map_append, List.nodup_append]
    refine ⟨hinv.fileNodup, List.nodup_singleton _, ?_⟩
    intro a ha hb
    simp only [List.map_cons, List.map_nil, List.mem_singleton] at hb
    obtain ⟨r, hr, hid⟩ := List.mem_map.mp ha
    exact hnew r hr (hid.trans hb)
  · show ((e.rules ++ [rule]).map fun r => r.ID).Nodup
    rw [List.map_append, List.nodup_append]
    refine ⟨hinv.memNodup, List.nodup_singleton _, ?_⟩
    intro a ha hb
    simp only [List.map_cons, List.map_nil, List.mem_singleton] at hb
    obtain ⟨r, hr, hid⟩ := List.mem_map.mp ha
    exact hnewMem r hr (hid.trans hb)
  · intro r hr
    rw [hF]
    rcases List.mem_append.mp hr with h1 | h1
    · obtain ⟨r', hr', hid'⟩ := hinv.memSub r h1
      exact ⟨r', List.mem_append_left _ hr', hid'⟩
    · exact ⟨r, List.mem_append_right _ h1, rfl⟩
  · intro r hr
    rcases List.mem_append.mp hr with h1 | h1
    · exact hinv.validMem r h1
    · rw [List.mem_singleton.mp h1]; exact hv
  · intro r hr
    rw [hF] at hr
    rcases List.mem_append.mp hr with h1 | h1
    · exact hinv.validFile r h1
    · rw [List.mem_singleton.mp h1]; exact hv
  · intro r hr _ hrn
    rcases List.mem_append.mp hr with h1 | h1
    · rcases hrun _ hrn with ⟨hid, -⟩ | h2
      · exact absurd hid (hnewMem r h1)
      · exact hinv.runMem r h1 (by simp) h2
    · have := List.mem_singleton.mp h1
      subst this
      rcases hrun _ hrn with ⟨-, hE⟩ | h2
      · exact hE
      · exact absurd h2 (fun h => hnotrun h)
  · intro r hr _ hrn
    rw [hF] at hr
    rcases List.mem_append.mp hr with h1 | h1
    · rcases hrun _ hrn with ⟨hid, -⟩ | h2
      · exact absurd hid (hnew r h1)
      · exact hinv.runFile r h1 (by simp) h2
    · have := List.mem_singleton.mp h1
      subst this
      rcases hrun _ hrn with ⟨-, hE⟩ | h2
      · exact hE
      · exact absurd h2 (fun h => hnotrun h)
  · intro id hrn
    rw [hF]
    rcases hrun _ hrn with ⟨hid, -⟩ | h2
    · exact ⟨rule, List.mem_append_right _ (List.mem_singleton.mpr rfl), hid.symm⟩
    · obtain ⟨r, hr, hid⟩ := hinv.runIn id h2
      exact ⟨r, List.mem_append_left _ hr, hid⟩

/-- `AddRule` keeps the invariant, unless saving fails. -/
theorem Engine.AddRule_inv {lib : Lib} {io : Faults} {newID : String} {e e' : Engine}
    {rule : MonitorRule} {err : Option GoError} (hinv : Engine.Inv lib none e)
    (h : e.AddRule lib io newID rule = .ret (e', err)) (hs : saveFailed err = false) :
    Engine.Inv lib none e' := by
  unfold Engine.AddRule at h
  cases hval : rule.Validate lib with
  | mk rule' verr =>
    rw [hval] at h
    cases verr with
    | some verr =>
      simp only [] at h
      injection h with h
      injection h with h1 h2
      rw [← h1]; exact hinv
    | none =>
      simp only [] at h
      have hv' := Validate_idem hval
      generalize hr2 : (if (if rule'.ID = "" then { rule' with ID := newID } else rule').Status = ""
        then { (if rule'.ID = "" then { rule' with ID := newID } else rule') with
          Status := StatusIdle }
        else (if rule'.ID = "" then { rule' with ID := newID } else rule')) = rule2 at h
      have hv2 : rule2.Validate lib = (rule2, none) := by
        apply Validate_congr hv' <;> rw [← hr2] <;> split_ifs <;> rfl
      cases hp : e.configMgr.AddRule io rule2 with
      | mk m perr =>
        have hp' : YAMLManager.AddRule io
            ({ e with rules := e.rules ++ [rule2] } : Engine).configMgr rule2 = (m, perr) := hp
        rw [hp'] at h
        cases perr with
        | some perr =>
          simp only [] at h
          injection h with h
          injection h with h1 h2
          rw [← h2, saveFailed_wrapf] at hs
          simp at hs
        | none =>
          simp only [] at h
          obtain ⟨hfile, hnew⟩ := YAMLManager.AddRule_ok hp
          by_cases hE : rule2.Enabled = true
          · simp only [hE, if_true] at h
            cases hst : e.monitorSvc.StartTask lib rule2 with
            | panic msg =>
              have hst' : MonitorService.StartTask lib
                  ({ e with rules := e.rules ++ [rule2], configMgr := m } : Engine).monitorSvc
                  rule2 = .panic msg := hst
              rw [hst'] at h
              cases h
            | ret x =>
              obtain ⟨svc', serr⟩ := x
              have hst' : MonitorService.StartTask lib
                  ({ e with rules := e.rules ++ [rule2], configMgr := m } : Engine).monitorSvc
                  rule2 = .ret (svc', serr) := hst
              rw [hst'] at h
              simp only [Run.bind_ret, Run.ret_bind, Run.pure_eq, Engine.publish] at h
              injection h with h
              injection h with h1 h2
              rw [← h1]
              refine Engine.Inv.add _ hinv hv2 hfile hnew ?_
              intro id hrn
              rcases MonitorService.StartTask_running hst hrn with h3 | h3
              · exact Or.inl ⟨h3, hE⟩
              · exact Or.inr h3
          · simp only [hE, if_false, Run.ret_bind, Run.pure_eq, Engine.publish] at h
            injection h with h
            injection h with h1 h2
            rw [← h1]
            exact Engine.Inv.add _ hinv hv2 hfile hnew (fun id hrn => Or.inr hrn)

theorem MonitorService.IsTaskRunning_erase {s : MonitorService} {id id' : String}
    (h : MonitorService.IsTaskRunning { s with tasks := s.tasks.erase id } id' = true) :
    id' ≠ id ∧ s.IsTaskRunning id' = true := by
  by_cases hid : id' = id
  · subst hid
    have : MonitorService.IsTaskRunning { s with tasks := s.tasks.erase id' } id' = false :=
      MonitorService.IsTaskRunning_of_lookup_none (AList.lookup_erase _ _)
    rw [this] at h
    cases h
  · refine ⟨hid, ?_⟩
    rw [← h]
    exact (MonitorService.IsTaskRunning_congr (AList.lookup_erase_ne hid)).symm

theorem Engine.stopIfRunning_ret {svc svc' : MonitorService} {id : String}
    (h : Engine.stopIfRunning svc id = .ret svc') :
    ∀ id', svc'.IsTaskRunning id' = true → id' ≠ id ∧ svc.IsTaskRunning id' = true := by
  unfold Engine.stopIfRunning at h
  by_cases hR : svc.IsTaskRunning id = true
  · simp only [hR, if_true] at h
    cases hst : svc.StopTask id with
    | panic msg => rw [hst] at h; cases h
    | ret x =>
      rw [hst] at h
      injection h with h
      intro id' hrn
      rcases MonitorService.StopTask_ret (show svc.StopTask id = .ret (x.1, x.2) from hst)
        with ⟨-, hnone, -⟩ | ⟨hs', -⟩
      · have := MonitorService.IsTaskRunning_of_lookup_none hnone
        rw [hR] at this
        cases this
      · rw [← h, hs'] at hrn
        exact MonitorService.IsTaskRunning_erase hrn
  · simp only [hR, if_false] at h
    injection h with h
    subst h
    intro id' hrn
    refine ⟨?_, hrn⟩
    intro hid
    rw [hid] at hrn
    exact hR hrn

/-- `DeleteRule` keeps the invariant. -/
theorem Engine.DeleteRule_inv {lib : Lib} {io : Faults} {e e' : Engine} {id : String}
    {err : Option GoError} (hinv : Engine.Inv lib none e)
    (h : e.DeleteRule io id = .ret (e', err)) : Engine.Inv lib none e' := by
  unfold Engine.DeleteRule at h
  simp only [] at h
  by_cases hf : (removeFirst e.rules id).2 = true
  · simp only [hf, Bool.not_true, Bool.false_eq_true, if_false] at h
    cases hcall : Engine.stopIfRunning e.monitorSvc id with
    | panic msg => rw [hcall] at h; cases h
    | ret svc' =>
    rw [hcall] at h
    have hrun := Engine.stopIfRunning_ret hcall
    simp only [Run.bind_ret] at h
    cases hp : e.configMgr.DeleteRule io id with
    | mk m perr =>
      rw [hp] at h
      have hmemsub : ∀ r ∈ (removeFirst e.rules id).1, r ∈ e.rules :=
        fun r hr => (removeFirst_sublist e.rules id).subset hr
      have key : ∀ p, Engine.Inv lib none (Engine.mk m svc' (removeFirst e.rules id).1 p) := by
        intro p
        have hF : (Engine.mk m svc' (removeFirst e.rules id).1 p).fileRules = e.fileRules ∨
            (Engine.mk m svc' (removeFirst e.rules id).1 p).fileRules =
              e.fileRules.filter fun r => decide (r.ID ≠ id) := by
          rcases YAMLManager.DeleteRule_ret hp with h1 | h1
          · left; show m.file.getD [] = _; rw [h1]; rfl
          · right; show m.file.getD [] = _; rw [h1]; rfl
        have hsub : ∀ r ∈ (Engine.mk m svc' (removeFirst e.rules id).1 p).fileRules,
            r ∈ e.fileRules := by
          intro r hr
          rcases hF with h1 | h1
          · rw [h1] at hr; exact hr
          · rw [h1] at hr; exact (List.mem_filter.mp hr).1
        have hkeep : ∀ r ∈ e.fileRules, r.ID ≠ id →
            r ∈ (Engine.mk m svc' (removeFirst e.rules id).1 p).fileRules := by
          intro r hr hne
          rcases hF with h1 | h1
          · rw [h1]; exact hr
          · rw [h1]; exact List.mem_filter.mpr ⟨hr, by simpa using hne⟩
        refine
          { fileNodup := ?_, memNodup := ?_, memSub := ?_, validMem := ?_, validFile := ?_,
            runMem := ?_, runFile := ?_, runIn := ?_ }
        · rcases hF with h1 | h1
          · rw [h1]; exact hinv.fileNodup
          · rw [h1]
            exact List.Nodup.sublist (List.Sublist.map _ (List.filter_sublist _)) hinv.fileNodup
        · exact List.Nodup.sublist (List.Sublist.map _ (removeFirst_sublist _ _)) hinv.memNodup
        · intro r hr
          obtain ⟨r', hr', hid'⟩ := hinv.memSub r (hmemsub r hr)
          have hne : r.ID ≠ id := ne_of_mem_removeFirst hinv.memNodup hr
          exact ⟨r', hkeep r' hr' (by rw [hid']; exact hne), hid'⟩
        · exact fun r hr => hinv.validMem r (hmemsub r hr)
        · exact fun r hr => hinv.validFile r (hsub r hr)
        · exact fun r hr _ hrn => hinv.runMem r (hmemsub r hr) (by simp) (hrun _ hrn).2
        · exact fun r hr _ hrn => hinv.runFile r (hsub r hr) (by simp) (hrun _ hrn).2
        · intro id' hrn
          obtain ⟨hne, hrn'⟩ := hrun _ hrn
          obtain ⟨r, hr, hid⟩ := hinv.runIn id' hrn'
          exact ⟨r, hkeep r hr (by rw [hid]; exact hne), hid⟩
      cases perr with
      | some perr =>
        simp only [Run.pure_eq] at h
        injection h with h
        injection h with h1 h2
        rw [← h1]
        exact key _
      | none =>
        simp only [Run.pure_eq, Engine.publish] at h
        injection h with h
        injection h with h1 h2
        rw [← h1]
        exact key _
  · have hf' : (removeFirst e.rules id).2 = false := by simpa using hf
    simp only [hf', Bool.not_false, if_true] at h
    injection h with h
    injection h with h1 h2
    rw [← h1, removeFirst_not_found _ _ hf']
    exact hinv

/-- `StartMonitoring` keeps the invariant, unless saving fails. -/
theorem Engine.StartMonitoring_inv {lib : Lib} {io : Faults} {e e' : Engine} {id : String}
    {err : Option GoError} (hinv : Engine.Inv lib none e)
    (h : e.StartMonitoring lib io id = .ret (e', err)) (hs : saveFailed err = false) :
    Engine.Inv lib none e' := by
  unfold Engine.StartMonitoring at h
  cases hg : e.GetRule id with
  | error gerr =>
    rw [hg] at h
    injection h with h
    injection h with h1 h2
    rw [← h1]; exact hinv
  | ok rule =>
    rw [hg] at h
    simp only [] at h
    obtain ⟨hmem, hid⟩ := Engine.GetRule_ok hg
    cases hst : e.monitorSvc.StartTask lib rule with
    | panic msg => rw [hst] at h; cases h
    | ret x =>
      obtain ⟨svc1, serr⟩ := x
      rw [hst] at h
      simp only [Run.ret_bind] at h
      obtain ⟨hframe, hfail⟩ := MonitorService.StartTask_ret hst
      cases serr with
      | some serr =>
        simp only [Run.pure_eq] at h
        injection h with h
        injection h with h1 h2
        rw [← h1]
        refine hinv.mono rfl rfl ?_
        intro id' hrn
        by_cases hne : id' = rule.ID
        · rw [hne] at hrn ⊢
          exact hfail (by simp) hrn
        · rw [← MonitorService.IsTaskRunning_congr (hframe id' hne)]
          exact hrn
      | none =>
        simp only [] at h
        have hv : ({ rule with Enabled := true } : MonitorRule).Validate lib =
            ({ rule with Enabled := true }, none) :=
          Validate_congr (hinv.validMem rule hmem) rfl rfl rfl rfl rfl rfl
        have hinv1 : Engine.Inv lib (some rule.ID) { e with monitorSvc := svc1 } :=
          { fileNodup := hinv.fileNodup
            memNodup := hinv.memNodup
            memSub := hinv.memSub
            validMem := hinv.validMem
            validFile := hinv.validFile
            runMem := by
              intro r hr hsk hrn
              have hne : r.ID ≠ rule.ID := by simpa using hsk
              exact hinv.runMem r hr (by simp)
                (by rw [← MonitorService.IsTaskRunning_congr (hframe _ hne)]; exact hrn)
            runFile := by
              intro r hr hsk hrn
              have hne : r.ID ≠ rule.ID := by simpa using hsk
              exact hinv.runFile r hr (by simp)
                (by rw [← MonitorService.IsTaskRunning_congr (hframe _ hne)]; exact hrn)
            runIn := by
              intro id' hrn
              by_cases hne : id' = rule.ID
              · obtain ⟨r', hr', hid'⟩ := hinv.memSub rule hmem
                exact ⟨r', hr', hid'.trans hne.symm⟩
              · exact hinv.runIn id'
                  (by rw [← MonitorService.IsTaskRunning_congr (hframe _ hne)]; exact hrn) }
        have hinv2 := Engine.Inv.replaceMem
          (show Engine.Inv lib (some ({ rule with Enabled := true } : MonitorRule).ID)
            { e with monitorSvc := svc1 } from hinv1) hv
        refine Engine.UpdateRule_inv_aliased hinv2 hv ?_ h hs
        exact (exists_id_replaceFirst _ _ _).mpr ⟨rule, hmem, rfl⟩

/-- `StopMonitoring` keeps the invariant, unless saving fails. -/
theorem Engine.StopMonitoring_inv {lib : Lib} {io : Faults} {e e' : Engine} {id : String}
    {err : Option GoError} (hinv : Engine.Inv lib none e)
    (h : e.StopMonitoring lib io id = .ret (e', err)) (hs : saveFailed err = false) :
    Engine.Inv lib none e' := by
  unfold Engine.StopMonitoring at h
  cases hst : e.monitorSvc.StopTask id with
  | panic msg => rw [hst] at h; cases h
  | ret x =>
    obtain ⟨svc1, serr⟩ := x
    rw [hst] at h
    simp only [Run.ret_bind] at h
    have hrun : ∀ id', svc1.IsTaskRunning id' = true → e.monitorSvc.IsTaskRunning id' = true := by
      intro id' hrn
      rcases MonitorService.StopTask_ret hst with ⟨hs', -, -⟩ | ⟨hs', -⟩
      · rw [hs'] at hrn; exact hrn
      · rw [hs'] at hrn; exact (MonitorService.IsTaskRunning_erase hrn).2
    have hinv1 : Engine.Inv lib none { e with monitorSvc := svc1 } := hinv.mono rfl rfl hrun
    cases serr with
    | some serr =>
      simp only [Run.pure_eq] at h
      injection h with h
      injection h with h1 h2
      rw [← h1]; exact hinv1
    | none =>
      simp only [] at h
      cases hg : e.GetRule id with
      | error gerr =>
        have hg' : Engine.GetRule { e with monitorSvc := svc1 } id = .error gerr := hg
        rw [hg'] at h
        simp only [Run.pure_eq] at h
        injection h with h
        injection h with h1 h2
        rw [← h1]; exact hinv1
      | ok rule =>
        have hg' : Engine.GetRule { e with monitorSvc := svc1 } id = .ok rule := hg
        rw [hg'] at h
        simp only [] at h
        obtain ⟨hmem, hid⟩ := Engine.GetRule_ok hg
        have hv : ({ rule with Enabled := false, Status := StatusPaused } : MonitorRule).Validate
            lib = ({ rule with Enabled := false, Status := StatusPaused }, none) :=
          Validate_congr (hinv.validMem rule hmem) rfl rfl rfl rfl rfl rfl
        have hinv2 := Engine.Inv.replaceMem
          (show Engine.Inv lib
            (some ({ rule with Enabled := false, Status := StatusPaused } : MonitorRule).ID)
            { e with monitorSvc := svc1 } from hinv1.weaken _) hv
        refine Engine.UpdateRule_inv_aliased hinv2 hv ?_ h hs
        exact (exists_id_replaceFirst _ _ _).mpr ⟨rule, hmem, rfl⟩

/-- `StopAllMonitoring` keeps the invariant. -/
theorem Engine.StopAllMonitoring_inv {lib : Lib} {e e' : Engine} {err : Option GoError}
    (hinv : Engine.Inv lib none e) (h : e.StopAllMonitoring = .ret (e', err)) :
    Engine.Inv lib none e' := by
  unfold Engine.StopAllMonitoring at h
  cases hst : e.monitorSvc.StopAll with
  | panic msg => rw [hst] at h; cases h
  | ret svc' =>
    rw [hst] at h
    simp only [Run.ret_bind, Run.pure_eq] at h
    injection h with h
    injection h with h1 h2
    rw [← h1]
    have hnone : ∀ id, svc'.IsTaskRunning id = true → False := by
      intro id hrn
      have := MonitorService.IsTaskRunning_of_lookup_none (MonitorService.StopAll_ret hst id)
      rw [this] at hrn
      cases hrn
    exact
      { fileNodup := hinv.fileNodup
        memNodup := by
          show ((e.rules.map fun rule =>
            ({ rule with Enabled := false, Status := StatusPaused } : MonitorRule)).map
              fun r => r.ID).Nodup
          rw [List.map_map]
          exact hinv.memNodup
        memSub := by
          intro r hr
          obtain ⟨r0, hr0, hf⟩ := List.mem_map.mp hr
          obtain ⟨r', hr', hid'⟩ := hinv.memSub r0 hr0
          exact ⟨r', hr', by rw [hid', ← hf]⟩
        validMem := by
          intro r hr
          obtain ⟨r0, hr0, hf⟩ := List.mem_map.mp hr
          rw [← hf]
          exact Validate_congr (hinv.validMem r0 hr0) rfl rfl rfl rfl rfl rfl
        validFile := hinv.validFile
        runMem := fun r _ _ hrn => (hnone _ hrn).elim
        runFile := fun r _ _ hrn => (hnone _ hrn).elim
        runIn := fun id hrn => (hnone _ hrn).elim }

/-- One engine call keeps the invariant, unless it fails to save the rule. -/
theorem Engine.step_inv {lib : Lib} {e e' : Engine} {op : EngineOp} {err : Option GoError}
    (hinv : Engine.Inv lib none e) (h : e.step lib op = .ret (e', err))
    (hs : saveFailed err = false) : Engine.Inv lib none e' := by
  cases op with
  | Initialize io => exact Engine.Initialize_inv hinv h
  | AddRule io newID rule => exact Engine.AddRule_inv hinv h hs
  | UpdateRule io rule => exact Engine.UpdateRule_inv hinv h hs
  | DeleteRule io id => exact Engine.DeleteRule_inv hinv h
  | StartMonitoring io id => exact Engine.StartMonitoring_inv hinv h hs
  | StopMonitoring io id => exact Engine.StopMonitoring_inv hinv h hs
  | StopAllMonitoring => exact Engine.StopAllMonitoring_inv hinv h

/-- A run of engine calls keeps the invariant, as long as no call fails to save the rule. -/
theorem Engine.runOps_inv {lib : Lib} :
    ∀ (ops : List EngineOp) (e e' : Engine) (errs : List (Option GoError)),
      Engine.Inv lib none e → Engine.runOps lib e ops = .ret (e', errs) →
      (∀ err ∈ errs, saveFailed err = false) → Engine.Inv lib none e' := by
  intro ops
  induction ops with
  | nil =>
    intro e e' errs hinv h _
    injection h with h
    injection h with h1 h2
    rw [← h1]; exact hinv
  | cons op ops ih =>
    intro e e' errs hinv h hs
    unfold Engine.runOps at h
    cases hstep : e.step lib op with
    | panic msg => rw [hstep] at h; cases h
    | ret x =>
      obtain ⟨e1, err1⟩ := x
      rw [hstep] at h
      simp only [Run.bind_ret] at h
      cases hrest : Engine.runOps lib e1 ops with
      | panic msg => rw [hrest] at h; cases h
      | ret y =>
        obtain ⟨e2, errs2⟩ := y
        rw [hrest] at h
        simp only [Run.bind_ret] at h
        injection h with h
        injection h with h1 h2
        subst h1
        subst h2
        have hinv1 := Engine.step_inv hinv hstep (hs err1 (List.mem_cons_self _ _))
        exact ih e1 e2 errs2 hinv1 hrest (fun err herr => hs err (List.mem_cons_of_mem _ herr))

/-- C5 (amended): take an engine with no rules and no tasks whose configuration file is
absent or holds valid rules with distinct IDs. In every state reached from it by a
sequence of calls of `Initialize`, `AddRule`, `UpdateRule`, `DeleteRule`,
`StartMonitoring`, `StopMonitoring` and `StopAllMonitoring` that return, whatever errors
they return, every rule ID has at most one registered task; and if none of the calls
returned the error "saving the rule failed", every in-memory rule with `enabled = false`
has no running task registered under its ID. -/
theorem disabled_rules_have_no_running_task (lib : Lib) (cb : Bool)
    (file : Option (List MonitorRule)) (ops : List EngineOp)
    (e : Engine) (errs : List (Option GoError))
    (hnd : ((file.getD []).map fun r => r.ID).Nodup)
    (hv : ∀ r ∈ file.getD [], r.Validate lib = (r, none))
    (hrun : Engine.runOps lib (NewEngine { file := file } (NewMonitorService cb)) ops =
      .ret (e, errs)) :
    ((∀ err ∈ errs, saveFailed err = false) →
        ∀ r ∈ e.rules, r.Enabled = false → e.monitorSvc.IsTaskRunning r.ID = false) ∧
      ∀ id, e.monitorSvc.tasks.keys.count id ≤ 1 := by
  refine ⟨?_, ?_⟩
  · intro hs r hr hdis
    have hinv := Engine.runOps_inv ops _ e errs (Engine.Inv.initial lib cb file hnd hv) hrun hs
    by_contra hrn
    have hrn' : e.monitorSvc.IsTaskRunning r.ID = true := by simpa using hrn
    have := hinv.runMem r hr (by simp) hrn'
    rw [hdis] at this
    cases this
  · intro id
    exact List.nodup_iff_count_le_one.mp (AList.keys_nodup _) id

/-- C5 (amended) at the run `demoOps` from the empty engine. -/
theorem disabled_rules_have_no_running_task_witness :
    Engine.runOps demoLib emptyEngine demoOps = .ret demoOutcome ∧
      demoOutcome.2.map saveFailed = [false, false, false] ∧
      demoOutcome.1.rules.map (fun r => r.Enabled) = [false] ∧
      ∀ r ∈ demoOutcome.1.rules, r.Enabled = false →
        demoOutcome.1.monitorSvc.IsTaskRunning r.ID = false :=
  ⟨rfl, by decide, by decide,
    (disabled_rules_have_no_running_task demoLib true none demoOps demoOutcome.1 demoOutcome.2
      List.nodup_nil (fun _ hr => nomatch hr) rfl).1 (by decide)⟩

/-! ### Evaluations at concrete inputs -/

/-- C7 at the empty registry and `demoRule`: the call returns. -/
theorem startTask_spec_witness :
    ((NewMonitorService true).StartTask demoLib demoRule).returned = true :=
  (startTask_spec demoLib (NewMonitorService true) demoRule).2.2 (by decide)

/-- Why the configuration file of the initial engine must hold valid rules: with a file
holding a disabled rule with an empty name, `Initialize`, `StartMonitoring` (which starts
the task, enables the rule in memory and then fails at validation, before saving) and
`Initialize` again yield a disabled in-memory rule whose task is running, although no call
failed to save. -/
theorem invalid_file_rule_keeps_task_running :
    ∃ e errs,
      Engine.runOps demoLib
        (NewEngine { file := some [{ pausedRule with Name := "" }] } (NewMonitorService true))
        [.Initialize Faults.none, .StartMonitoring Faults.none "a", .Initialize Faults.none] =
        .ret (e, errs) ∧
      errs.map saveFailed = [false, false, false] ∧
      (∃ r ∈ e.rules, r.Enabled = false ∧ e.monitorSvc.IsTaskRunning r.ID = true) := by
  refine ⟨_, _, rfl, by decide, { pausedRule with Name := "" }, ?_, ?_, ?_⟩ <;> decide

/-- The restart defect seen from the engine: after `AddRule` of the enabled `demoRule`,
a first `UpdateRule` of that rule returns (the running task is stopped, updated and
started again on its closed stop channel), and a second `UpdateRule` panics when it stops
the task once more. -/
theorem updateRule_twice_panics :
    Engine.runOps demoLib emptyEngine
        [.AddRule Faults.none "u1" demoRule, .UpdateRule Faults.none demoRule] =
        .ret ((Engine.runOps demoLib emptyEngine
          [.AddRule Faults.none "u1" demoRule, .UpdateRule Faults.none demoRule]).getD
            (emptyEngine, [])) ∧
      Engine.runOps demoLib emptyEngine
        [.AddRule Faults.none "u1" demoRule, .UpdateRule Faults.none demoRule,
         .UpdateRule Faults.none demoRule] = .panic "close of closed channel" :=
  ⟨rfl, rfl⟩

/-! ### models/rule.go: what `Validate` changes -/

theorem Validate_of_nonempty_method (lib : Lib) (r : MonitorRule) (h : r.Method ≠ "") :
    (r.Validate lib).1 = r := by
  rcases Validate_fst lib r with h1 | ⟨h1, _⟩
  · exact h1
  · exact absurd h1 h

theorem Validate_short_interval (lib : Lib) (r : MonitorRule) (h1 : r.Name ≠ "")
    (h2 : r.URL ≠ "") (h3 : lib.urlParse r.URL = none) (h4 : r.Method = "")
    (h5 : r.Interval < Second) :
    r.Validate lib = ({ r with Method := DefaultMethod }, some (.new "检查间隔不能小于1秒")) := by
  unfold MonitorRule.Validate
  simp [h1, h2, h3, h4, validMethods_contains_default, h5]

/-- C11: `Validate` changes no field other than the method, and the method only when it is
empty, to `GET`. The defaulting has happened also when the rule is then rejected for a later
reason, such as an interval below one second. When `Validate` succeeds, the method
afterwards is one of the seven supported methods, it is the input method when that was
non-empty, and it is `GET` when that was empty. -/
theorem validate_changes_only_empty_method (lib : Lib) (r : MonitorRule) :
    ((r.Validate lib).1 = r ∨
        (r.Method = "" ∧ (r.Validate lib).1 = { r with Method := "GET" })) ∧
      (r.Method ≠ "" → (r.Validate lib).1 = r) ∧
      (r.Name ≠ "" → r.URL ≠ "" → lib.urlParse r.URL = none → r.Method = "" →
        r.Interval < 1000000000 →
        (r.Validate lib).2 = some (.new "检查间隔不能小于1秒") ∧
          (r.Validate lib).1 = { r with Method := "GET" }) ∧
      ((r.Validate lib).2 = none →
        (r.Validate lib).1.Method ∈ ["GET", "POST", "PUT", "DELETE", "PATCH", "HEAD", "OPTIONS"] ∧
          (r.Method ≠ "" → (r.Validate lib).1.Method = r.Method) ∧
          (r.Method = "" → (r.Validate lib).1.Method = "GET")) := by
  refine ⟨Validate_fst lib r, Validate_of_nonempty_method lib r, ?_, ?_⟩
  · intro h1 h2 h3 h4 h5
    rw [Validate_short_interval lib r h1 h2 h3 h4 h5]
    exact ⟨rfl, rfl⟩
  · intro h
    have hm : (r.Validate lib).1.Method ∈ validMethods :=
      Validate_ok_method (Prod.ext rfl h : r.Validate lib = ((r.Validate lib).1, none))
    refine ⟨hm, ?_, ?_⟩
    · intro hne
      rw [Validate_of_nonempty_method lib r hne]
    · intro he
      rcases Validate_fst lib r with h1 | ⟨_, h1⟩
      · rw [h1, he] at hm
        exact absurd hm (by decide)
      · rw [h1]
        rfl

/-- C11 at a rule with an empty method and an interval of half a second: it is rejected for
its interval, and its method has been set to `GET`. -/
theorem validate_changes_only_empty_method_witness :
    (({ demoRule with Method := "", Interval := 500000000 } : MonitorRule).Validate demoLib).2 =
        some (.new "检查间隔不能小于1秒") ∧
      (({ demoRule with Method := "", Interval := 500000000 } : MonitorRule).Validate demoLib).1 =
        { demoRule with Method := "GET", Interval := 500000000 } :=
  (validate_changes_only_empty_method demoLib
    { demoRule with Method := "", Interval := 500000000 }).2.2.1
    (by decide) (by decide) rfl rfl (by decide)

/-! ### monitor/task.go: the notification of a change -/

theorem goBytes_length (s : String) : (goBytes s).length = goLen s := by
  simp only [goBytes, goLen, Array.length_toList]
  exact String.size_toUTF8 s

theorem goLen_dots : goLen "..." = 3 := by decide

theorem goLen_cjkContent : goLen cjkContent = 201 := by decide

/-- The notification of a cycle that notifies is the one `sendNotification` builds from the
rule's name and description and the new content. -/
theorem runOnce_notification_eq (env : CheckEnv) (t : Task) (resp : Response) (c : String)
    (hf : env.fetch t.request = .ok resp)
    (hx : env.extract t.extractor resp.Body resp.ContentType = .ok c)
    (h1 : t.rule.LastContent ≠ "") (h2 : t.rule.LastContent ≠ c)
    (h3 : t.rule.NotifyEnabled = true) :
    notificationsOf (t.RunOnce env).2.1 =
      [("内容变化: " ++ t.rule.Name,
        (if t.rule.Description = "" then [] else goBytes t.rule.Description ++ goBytes "\n\n") ++
          (if goLen c ≤ 200 then goBytes c else (goBytes c).take 200 ++ goBytes "..."))] := by
  rw [runOnce_ok_eq env t resp c hf hx]
  simp only [notificationsOf_append, notificationsOf_notifyUpdate, notificationsOf]
  by_cases hd : t.rule.Description = ""
  · by_cases hl : goLen c ≤ 200
    · have hl' : ¬ goLen c > 200 := by omega
      simp [h1, h2, h3, hd, hl, hl', Task.sendNotification, notificationsOf]
    · have hl' : goLen c > 200 := by omega
      simp [h1, h2, h3, hd, hl, hl', Task.sendNotification, notificationsOf]
  · by_cases hl : goLen c ≤ 200
    · have hl' : ¬ goLen c > 200 := by omega
      simp [h1, h2, h3, hd, hl, hl', Task.sendNotification, notificationsOf]
    · have hl' : goLen c > 200 := by omega
      simp [h1, h2, h3, hd, hl, hl', Task.sendNotification, notificationsOf]

/-- C12 (as the code has it): the notification of a check cycle that notifies has the title
"内容变化: " followed by the rule's name; its message is the rule's description followed by
an empty line when the description is non-empty, followed by a body; the body is the new
content unmodified when that is at most 200 bytes long, and otherwise the first 200 bytes
of the new content followed by "...", 203 bytes in all. -/
theorem runOnce_notification_contents (env : CheckEnv) (t : Task) (resp : Response)
    (c : String) (hf : env.fetch t.request = .ok resp)
    (hx : env.extract t.extractor resp.Body resp.ContentType = .ok c)
    (h1 : t.rule.LastContent ≠ "") (h2 : t.rule.LastContent ≠ c)
    (h3 : t.rule.NotifyEnabled = true) :
    ∃ body : List UInt8,
      notificationsOf (t.RunOnce env).2.1 =
        [("内容变化: " ++ t.rule.Name,
          (if t.rule.Description = "" then []
            else goBytes t.rule.Description ++ goBytes "\n\n") ++ body)] ∧
      (goLen c ≤ 200 → body = goBytes c) ∧
      (200 < goLen c → body = (goBytes c).take 200 ++ goBytes "..." ∧ body.length = 203) ∧
      body.length ≤ 203 := by
  refine ⟨if goLen c ≤ 200 then goBytes c else (goBytes c).take 200 ++ goBytes "...",
    runOnce_notification_eq env t resp c hf hx h1 h2 h3, ?_, ?_, ?_⟩
  · intro hl
    rw [if_pos hl]
  · intro hl
    have hl' : ¬ goLen c ≤ 200 := by omega
    rw [if_neg hl']
    refine ⟨rfl, ?_⟩
    rw [List.length_append, List.length_take, goBytes_length, goBytes_length, goLen_dots]
    omega
  · by_cases hl : goLen c ≤ 200
    · rw [if_pos hl, goBytes_length]
      omega
    · rw [if_neg hl, List.length_append, List.length_take, goBytes_length, goBytes_length,
        goLen_dots]
      omega

/-- C12 (as the code has it) at a concrete task: previous content "v1", new content "v2",
no description: the message is "v2". -/
theorem runOnce_notification_contents_witness :
    ∃ body : List UInt8,
      notificationsOf (({ demoTask with rule := { demoRule with LastContent := "v1" } } :
          Task).RunOnce demoEnv).2.1 = [("内容变化: " ++ "demo", [] ++ body)] ∧
      (goLen "v2" ≤ 200 → body = goBytes "v2") ∧
      (200 < goLen "v2" → body = (goBytes "v2").take 200 ++ goBytes "..." ∧ body.length = 203) ∧
      body.length ≤ 203 :=
  runOnce_notification_contents demoEnv
    { demoTask with rule := { demoRule with LastContent := "v1" } }
    { Body := [], ContentType := "text/html", StatusCode := 200 } "v2" rfl rfl
    (by decide) (by decide) rfl

/-- C12 fails as stated: new content of 67 Chinese characters (at most 200 characters, but
201 bytes) does not appear unmodified. The message is its first 200 bytes, which end
inside the 67th character, followed by "...": 203 bytes, not a truncation of the content. -/
theorem notification_cuts_content_of_67_characters :
    cjkContent.length = 67 ∧ goLen cjkContent = 201 ∧
      ∃ message : List UInt8,
        notificationsOf (({ demoTask with rule := { demoRule with LastContent := "v1" } } :
            Task).RunOnce cjkEnv).2.1 = [("内容变化: demo", message)] ∧
        message = (goBytes cjkContent).take 200 ++ goBytes "..." ∧
        message ≠ goBytes cjkContent ∧ message.length = 203 ∧
        (message.take 200).drop 198 = [0xE5, 0x86] ∧
        (goBytes cjkContent).drop 198 = [0xE5, 0x86, 0x85] := by
  refine ⟨by decide, goLen_cjkContent, (goBytes cjkContent).take 200 ++ goBytes "...", ?_, rfl,
    ?_, ?_, by decide, by decide⟩
  · rw [runOnce_notification_eq cjkEnv _
      { Body := [], ContentType := "text/html", StatusCode := 200 } cjkContent rfl rfl
      (by decide) (by decide) rfl]
    have hl : ¬ goLen cjkContent ≤ 200 := by rw [goLen_cjkContent]; omega
    rw [if_neg hl]
    rfl
  · intro h
    have := congrArg List.length h
    rw [List.length_append, List.length_take, goBytes_length, goBytes_length,
      goLen_dots, goLen_cjkContent] at this
    omega
  · rw [List.length_append, List.length_take, goBytes_length, goBytes_length,
      goLen_dots, goLen_cjkContent]
    rfl

/-! ### monitor/task.go: `Start` and `Stop` -/

theorem Task.Start_rule {t t' : Task} {err : Option GoError}
    (h : t.Start = .ret (t', err)) : t'.rule = t.rule := by
  cases hr : t.running with
  | true =>
    rw [Task.Start_of_running t hr] at h
    injection h with h
    rw [← (Prod.mk.inj h).1]
  | false =>
    by_cases hi : 0 < t.rule.Interval
    · rw [Task.Start_of_stopped t hr hi] at h
      injection h with h
      rw [← (Prod.mk.inj h).1]
    · rw [Task.Start_panics t hr (not_lt.mp hi)] at h
      cases h

theorem Task.Stop_ret {t t' : Task} (h : t.Stop = .ret t') :
    t'.rule = t.rule ∧ t'.running = false := by
  cases hr : t.running with
  | false =>
    rw [Task.Stop_of_stopped t hr] at h
    injection h with h
    subst h
    exact ⟨rfl, hr⟩
  | true =>
    cases hc : t.stopClosed with
    | true =>
      rw [Task.Stop_of_running_closed t hr hc] at h
      cases h
    | false =>
      rw [Task.Stop_of_running_open t hr hc] at h
      injection h with h
      subst h
      exact ⟨rfl, rfl⟩

theorem Task.Stop_Stop (t : Task) : t.Stop.bind Task.Stop = t.Stop := by
  cases hr : t.running with
  | false =>
    rw [Task.Stop_of_stopped t hr]
    exact Task.Stop_of_stopped t hr
  | true =>
    cases hc : t.stopClosed with
    | true =>
      rw [Task.Stop_of_running_closed t hr hc]
      rfl
    | false =>
      rw [Task.Stop_of_running_open t hr hc]
      exact Task.Stop_of_stopped t.stopped rfl

/-- C13 (as the code has it): `Start` on a running task returns an error and the task as
it was; on a task that is not running and whose rule has a positive interval it returns no
error and marks the task running. `Stop` on a task that is not running returns the task as
it was; `Stop` followed by `Stop` is the same as a single `Stop`. Neither call changes the
task's rule, and a task on which `Stop` returned is not running. -/
theorem task_start_stop (t : Task) :
    (t.running = true → t.Start = .ret (t, some (.new "任务已在运行中"))) ∧
      (t.running = false → 0 < t.rule.Interval →
        ∃ t', t.Start = .ret (t', none) ∧ t'.running = true ∧ t'.rule = t.rule) ∧
      (t.running = false → t.Stop = .ret t) ∧
      t.Stop.bind Task.Stop = t.Stop ∧
      (∀ t' err, t.Start = .ret (t', err) → t'.rule = t.rule) ∧
      (∀ t', t.Stop = .ret t' → t'.rule = t.rule ∧ t'.running = false) := by
  refine ⟨Task.Start_of_running t, ?_, Task.Stop_of_stopped t, Task.Stop_Stop t,
    fun _ _ h => Task.Start_rule h, fun _ h => Task.Stop_ret h⟩
  intro hr hi
  exact ⟨_, Task.Start_of_stopped t hr hi, rfl, rfl⟩

/-- C13 (as the code has it) at the task of `demoRule`, which is not running and checks
every second: `Start` succeeds and marks it running. -/
theorem task_start_stop_witness :
    ∃ t', demoTask.Start = .ret (t', none) ∧ t'.running = true ∧ t'.rule = demoTask.rule :=
  (task_start_stop demoTask).2.1 rfl (by decide)

/-- C13 fails as stated: a task that is not running and whose rule has interval 0 is not
started; `Start` panics in `time.NewTicker` and returns nothing. -/
theorem start_panics_on_zero_interval :
    ({ demoTask with rule := { demoRule with Interval := 0 } } : Task).running = false ∧
      ({ demoTask with rule := { demoRule with Interval := 0 } } : Task).Start =
        .panic "non-positive interval for NewTicker" ∧
      (({ demoTask with rule := { demoRule with Interval := 0 } } : Task).Start).returned =
        false := by
  refine ⟨rfl, ?_, ?_⟩
  · exact Task.Start_panics _ rfl (by decide)
  · rw [Task.Start_panics _ rfl (by decide)]
    rfl

/-! ### monitor/service.go: `StopTask` and `StopAll` -/

theorem MonitorService.stopEach_returns :
    ∀ (l : List (Σ _ : String, Task)) (s : MonitorService),
      (∀ e ∈ l, e.2.running = true → e.2.stopClosed = false) →
      ∃ s', MonitorService.stopEach l s = .ret s'
  | [], s, _ => ⟨s, rfl⟩
  | e :: es, s, h => by
    have he : ∃ t', e.2.Stop = .ret t' := by
      cases hr : e.2.running with
      | false => exact ⟨_, Task.Stop_of_stopped e.2 hr⟩
      | true => exact ⟨_, Task.Stop_of_running_open e.2 hr (h e (List.mem_cons_self _ _) hr)⟩
    obtain ⟨t', ht'⟩ := he
    obtain ⟨s', hs'⟩ := MonitorService.stopEach_returns es
      { s with tasks := s.tasks.erase e.1 } (fun x hx => h x (List.mem_cons_of_mem _ hx))
    refine ⟨s', ?_⟩
    simp only [MonitorService.stopEach, bind, ht', Run.bind]
    exact hs'

/-- What C14 says holds in every registry in which no running task has a closed stop
channel: `StopTask` returns, with an error exactly when no task is registered under the ID
and then with the registry unchanged; on success the entry of the ID is removed and the
entries of other IDs are unchanged; `StopAll` returns and leaves no registered task. -/
theorem stopTask_stopAll_of_open (s : MonitorService)
    (h : ∀ id task, s.tasks.lookup id = some task → task.running = true →
      task.stopClosed = false) (id : String) :
    (∃ s' err, s.StopTask id = .ret (s', err) ∧
        (err ≠ none ↔ s.tasks.lookup id = none) ∧
        (err ≠ none → s' = s) ∧
        (err = none → s'.tasks.lookup id = none ∧
          ∀ id', id' ≠ id → s'.tasks.lookup id' = s.tasks.lookup id')) ∧
      ∃ s', s.StopAll = .ret s' ∧ ∀ id', s'.tasks.lookup id' = none := by
  constructor
  · cases hl : s.tasks.lookup id with
    | none =>
      refine ⟨s, _, MonitorService.StopTask_of_absent s id hl, ?_, fun _ => rfl, ?_⟩
      · simp
      · intro he
        cases he
    | some task =>
      refine ⟨_, none, MonitorService.StopTask_of_open s id task hl (h id task hl), ?_, ?_, ?_⟩
      · simp
      · intro he
        exact absurd rfl he
      · intro _
        exact ⟨AList.lookup_erase id s.tasks, fun id' hne => AList.lookup_erase_ne hne⟩
  · have hall : ∀ e ∈ s.tasks.entries, e.2.running = true → e.2.stopClosed = false := by
      intro e he hr
      have hm : e.2 ∈ s.tasks.lookup e.1 := by
        rw [AList.mem_lookup_iff]
        exact he
      exact h e.1 e.2 hm hr
    obtain ⟨s', hs'⟩ := MonitorService.stopEach_returns s.tasks.entries s hall
    exact ⟨s', hs', MonitorService.StopAll_ret hs'⟩

/-- C14 fails after a restart: start the task of `demoRule` on an empty registry and update
it with the same rule. Both calls succeed and the task is registered and marked running, on
its closed stop channel. `StopTask` on its ID then panics instead of stopping and removing
the task, and so does `StopAll`: neither returns, and the task stays registered. -/
theorem stopTask_panics_after_update :
    ((NewMonitorService true).StartTask demoLib demoRule).bind
        (fun r => r.1.UpdateTask demoLib demoRule) = .ret (restartedService, none) ∧
      restartedService.tasks.lookup "a" =
        some { rule := demoRule, extractor := .css ".content",
               ticker := some ⟨Second, false⟩, stopClosed := true, running := true,
               hasOnUpdate := true } ∧
      restartedService.StopTask "a" = .panic "close of closed channel" ∧
      restartedService.StopAll = .panic "close of closed channel" := by
  refine ⟨rfl, rfl, rfl, rfl⟩

/-! ### monitor/service.go: `UpdateTask` -/

theorem MonitorService.UpdateTask_of_absent (lib : Lib) (s : MonitorService)
    (rule : MonitorRule) (hl : s.tasks.lookup rule.ID = none) :
    s.UpdateTask lib rule = .ret (s, some (.new ("任务不存在: " ++ rule.ID))) := by
  unfold MonitorService.UpdateTask
  rw [hl]

theorem MonitorService.UpdateTask_of_running_closed (lib : Lib) (s : MonitorService)
    (rule : MonitorRule) (task : Task) (hl : s.tasks.lookup rule.ID = some task)
    (hr : task.running = true) (hc : task.stopClosed = true) :
    s.UpdateTask lib rule = .panic "close of closed channel" := by
  unfold MonitorService.UpdateTask
  rw [hl]
  simp only [Task.IsRunning, hr, if_true, Task.Stop_of_running_closed task hr hc]
  rfl

theorem MonitorService.UpdateTask_of_stopped (lib : Lib) (s : MonitorService)
    (rule : MonitorRule) (task : Task) (hl : s.tasks.lookup rule.ID = some task)
    (hr : task.running = false) :
    s.UpdateTask lib rule =
      match task.extractorFor lib rule with
      | .error err =>
        .ret ({ s with tasks := s.tasks.replace rule.ID task },
          some (.wrapf "更新任务失败: " (.wrapf "创建提取器失败: " err)))
      | .ok ext =>
        .ret ({ s with tasks := s.tasks.replace rule.ID { task with extractor := ext, rule := rule } },
          none) := by
  unfold MonitorService.UpdateTask
  rw [hl]
  have hw : task.IsRunning = false := hr
  simp only [hw, Bool.false_eq_true, if_false, Run.pure_eq, Run.bind_ret]
  unfold MonitorService.updateAndRestart
  rw [Task.Update_of_stopped lib task rule hr]
  cases hx : task.extractorFor lib rule with
  | error err => simp
  | ok ext => simp

theorem MonitorService.UpdateTask_of_running_bad_interval (lib : Lib) (s : MonitorService)
    (rule : MonitorRule) (task : Task) (hl : s.tasks.lookup rule.ID = some task)
    (hr : task.running = true) (hc : task.stopClosed = false) (hi : rule.Interval ≤ 0)
    {s' : MonitorService} : s.UpdateTask lib rule ≠ .ret (s', none) := by
  unfold MonitorService.UpdateTask
  rw [hl]
  simp only [Task.IsRunning, hr, if_true, Task.Stop_of_running_open task hr hc, Run.bind_ret]
  unfold MonitorService.updateAndRestart
  have hs : Task.extractorFor lib task.stopped rule = Task.extractorFor lib task rule := rfl
  rw [Task.Update_of_stopped lib task.stopped rule rfl, hs]
  cases hx : task.extractorFor lib rule with
  | error err => simp
  | ok ext =>
    simp only [Run.ret_bind]
    rw [Task.Start_panics _ rfl hi]
    simp

/-- What `UpdateTask` keeps of its contract, at the level of the `running` flag: it returns
an error and the registry as it was when no task is registered under the rule's ID. When
it returns no error, a task was registered under the ID and one is registered afterwards;
its `running` flag is afterwards what it was before the call, it holds the new rule, and
the entries of all other IDs are unchanged. The call does return no error when the
extractor for the new rule can be built and the task either is not running, or is running
on an open stop channel and the new interval is positive. -/
theorem updateTask_spec (lib : Lib) (s : MonitorService) (rule : MonitorRule) :
    (s.tasks.lookup rule.ID = none →
        ∃ err, s.UpdateTask lib rule = .ret (s, some err)) ∧
      (∀ s', s.UpdateTask lib rule = .ret (s', none) →
        ∃ task task', s.tasks.lookup rule.ID = some task ∧
          s'.tasks.lookup rule.ID = some task' ∧
          (task'.running = true ↔ task.running = true) ∧
          s'.IsTaskRunning rule.ID = s.IsTaskRunning rule.ID ∧
          task'.rule = rule ∧
          (∀ id, id ≠ rule.ID → s'.tasks.lookup id = s.tasks.lookup id) ∧
          s'.hasOnRuleUpdate = s.hasOnRuleUpdate) ∧
      (∀ task ext, s.tasks.lookup rule.ID = some task →
        task.extractorFor lib rule = .ok ext →
        (task.running = true → task.stopClosed = false ∧ 0 < rule.Interval) →
        ∃ s', s.UpdateTask lib rule = .ret (s', none)) := by
  refine ⟨fun hl => ⟨_, MonitorService.UpdateTask_of_absent lib s rule hl⟩, ?_, ?_⟩
  · intro s' h
    have hframe := MonitorService.UpdateTask_ret h
    cases hl : s.tasks.lookup rule.ID with
    | none =>
      rw [MonitorService.UpdateTask_of_absent lib s rule hl] at h
      injection h with h
      cases (Prod.mk.inj h).2
    | some task =>
      have hmem : rule.ID ∈ s.tasks := TaskMap.mem_of_lookup hl
      have hrun : s.IsTaskRunning rule.ID = task.running := by
        simp only [MonitorService.IsTaskRunning, hl, Task.IsRunning]
      cases hr : task.running with
      | false =>
        rw [MonitorService.UpdateTask_of_stopped lib s rule task hl hr] at h
        cases hx : task.extractorFor lib rule with
        | error err =>
          rw [hx] at h
          injection h with h
          cases (Prod.mk.inj h).2
        | ok ext =>
          rw [hx] at h
          injection h with h
          have hs' := (Prod.mk.inj h).1
          subst hs'
          have hl' := TaskMap.lookup_replace_self s.tasks rule.ID
            { task with extractor := ext, rule := rule } hmem
          refine ⟨task, _, rfl, hl', ?_, ?_, rfl, hframe, rfl⟩
          · simp [hr]
          · rw [hrun]
            simp only [MonitorService.IsTaskRunning, hl', Task.IsRunning]
      | true =>
        cases hc : task.stopClosed with
        | true =>
          rw [MonitorService.UpdateTask_of_running_closed lib s rule task hl hr hc] at h
          cases h
        | false =>
          by_cases hi : 0 < rule.Interval
          · rw [MonitorService.UpdateTask_of_running_open lib s rule task hl hr hc hi] at h
            cases hx : task.extractorFor lib rule with
            | error err =>
              rw [hx] at h
              injection h with h
              cases (Prod.mk.inj h).2
            | ok ext =>
              rw [hx] at h
              injection h with h
              have hs' := (Prod.mk.inj h).1
              subst hs'
              have hl' := TaskMap.lookup_replace_self s.tasks rule.ID
                (task.restarted ext rule) hmem
              refine ⟨task, _, rfl, hl', ?_, ?_, rfl, hframe, rfl⟩
              · simp [hr, Task.restarted]
              · rw [hrun, hr]
                simp only [MonitorService.IsTaskRunning, hl', Task.IsRunning]
                rfl
          · exact absurd h
              (MonitorService.UpdateTask_of_running_bad_interval lib s rule task hl hr hc
                (not_lt.mp hi))
  · intro task ext hl hx hopen
    cases hr : task.running with
    | false =>
      rw [MonitorService.UpdateTask_of_stopped lib s rule task hl hr, hx]
      exact ⟨_, rfl⟩
    | true =>
      rw [MonitorService.UpdateTask_of_running_open lib s rule task hl hr (hopen hr).1
        (hopen hr).2, hx]
      exact ⟨_, rfl⟩

/-- The `running` flag at a running task: the task of `demoRule`, started on an empty
registry, is updated with `demoRule`; the call succeeds and the flag is set afterwards. -/
theorem updateTask_spec_witness :
    ∃ task task', startedService.tasks.lookup demoRule.ID = some task ∧
      restartedService.tasks.lookup demoRule.ID = some task' ∧
      (task'.running = true ↔ task.running = true) ∧
      restartedService.IsTaskRunning demoRule.ID = startedService.IsTaskRunning demoRule.ID ∧
      task'.rule = demoRule ∧
      (∀ id, id ≠ demoRule.ID →
        restartedService.tasks.lookup id = startedService.tasks.lookup id) ∧
      restartedService.hasOnRuleUpdate = startedService.hasOnRuleUpdate :=
  (updateTask_spec demoLib startedService demoRule).2.1 restartedService rfl

/-! ### monitor/service.go: `RunTaskOnce`, `IsTaskRunning`, `GetTaskStatus` -/

/-- C16: for an ID with no registered task `RunTaskOnce` returns an error, performs no
fetch (it has no effect on the collaborators at all) and leaves the service as it was,
`IsTaskRunning` is false and `GetTaskStatus` is idle. The two queries only read: their
answer is a function of the registry entry, the running flag and the status of the rule of
the task registered under the ID. -/
theorem unregistered_id_queries (env : CheckEnv) (s : MonitorService) (id : String) :
    (s.tasks.lookup id = none →
        (∃ err, s.RunTaskOnce env id = (s, [], some err)) ∧
        fetchesOf (s.RunTaskOnce env id).2.1 = [] ∧
        s.IsTaskRunning id = false ∧ s.GetTaskStatus id = "idle") ∧
      (∀ task, s.tasks.lookup id = some task →
        s.IsTaskRunning id = task.running ∧ s.GetTaskStatus id = task.rule.Status) := by
  constructor
  · intro h
    have hrun : s.RunTaskOnce env id =
        (s, [], some (.new ("任务不存在或未启动: " ++ id ++ "，请先启动监控"))) := by
      simp only [MonitorService.RunTaskOnce, h]
    refine ⟨⟨_, hrun⟩, ?_, ?_, ?_⟩
    · rw [hrun]
      rfl
    · simp only [MonitorService.IsTaskRunning, h]
    · simp only [MonitorService.GetTaskStatus, h]
      rfl
  · intro task h
    constructor
    · simp only [MonitorService.IsTaskRunning, h, Task.IsRunning]
    · simp only [MonitorService.GetTaskStatus, h, Task.GetRule]

/-- C16 on the empty registry and the ID "a". -/
theorem unregistered_id_queries_witness :
    (∃ err, (NewMonitorService true).RunTaskOnce demoEnv "a" =
        (NewMonitorService true, [], some err)) ∧
      fetchesOf ((NewMonitorService true).RunTaskOnce demoEnv "a").2.1 = [] ∧
      (NewMonitorService true).IsTaskRunning "a" = false ∧
      (NewMonitorService true).GetTaskStatus "a" = "idle" :=
  (unregistered_id_queries demoEnv (NewMonitorService true) "a").1 rfl

/-! ### core/engine.go: a successful `AddRule` -/

theorem MonitorService.StartTask_returns (lib : Lib) (s : MonitorService) (rule : MonitorRule)
    (hi : 0 < rule.Interval) : ∃ s' err, s.StartTask lib rule = .ret (s', err) := by
  have hcs : ∀ s0 : MonitorService,
      ∃ s' err, MonitorService.createAndStart lib s0 rule = .ret (s', err) := by
    intro s0
    rw [MonitorService.createAndStart_eval lib s0 rule hi]
    cases Factory.Create lib rule.ExtractorType rule.ExtractorExpr with
    | error err => exact ⟨_, _, rfl⟩
    | ok ext => exact ⟨_, _, rfl⟩
  unfold MonitorService.StartTask
  cases hl : s.tasks.lookup rule.ID with
  | none => exact hcs s
  | some task =>
    cases hr : task.running with
    | true =>
      simp only [Task.IsRunning, hr, if_true]
      exact ⟨_, _, rfl⟩
    | false =>
      simp only [Task.IsRunning, hr, Bool.false_eq_true, if_false, bind,
        Task.Stop_of_stopped task hr, Run.bind]
      exact hcs _

theorem Engine.addedRule_fields (lib : Lib) (newID : String) (rule : MonitorRule) :
    (Engine.addedRule lib newID rule).ID = (if rule.ID = "" then newID else rule.ID) ∧
      (Engine.addedRule lib newID rule).Status =
        (if rule.Status = "" then StatusIdle else rule.Status) ∧
      Engine.addedRule lib newID rule =
        { (rule.Validate lib).1 with
            ID := (Engine.addedRule lib newID rule).ID,
            Status := (Engine.addedRule lib newID rule).Status } := by
  have hid : (rule.Validate lib).1.ID = rule.ID := by
    rcases Validate_fst lib rule with h | ⟨_, h⟩ <;> rw [h]
  have hst : (rule.Validate lib).1.Status = rule.Status := by
    rcases Validate_fst lib rule with h | ⟨_, h⟩ <;> rw [h]
  unfold Engine.addedRule
  generalize (rule.Validate lib).1 = v at hid hst
  cases v
  simp only at hid hst
  subst hid hst
  by_cases h1 : rule.ID = ""
  · by_cases h2 : rule.Status = ""
    · simp [h1, h2]
    · simp [h1, h2]
  · by_cases h2 : rule.Status = ""
    · simp [h1, h2]
    · simp [h1, h2]

/-- The outcomes of `AddRule`: a validation error, a persistence error, or success with the
rule appended, whatever `StartTask` answered. -/
theorem Engine.AddRule_cases (lib : Lib) (io : Faults) (newID : String) (e : Engine)
    (rule : MonitorRule) :
    ((rule.Validate lib).2 ≠ none ∧
        ∃ err, e.AddRule lib io newID rule = .ret (e, some err)) ∨
      ((rule.Validate lib).2 = none ∧
        (e.configMgr.AddRule io (Engine.addedRule lib newID rule)).2 ≠ none ∧
        ∃ e' err, e.AddRule lib io newID rule = .ret (e', some err)) ∨
      ((rule.Validate lib).2 = none ∧
        (e.configMgr.AddRule io (Engine.addedRule lib newID rule)).2 = none ∧
        ∃ svc, e.AddRule lib io newID rule =
          .ret (Engine.mk (e.configMgr.AddRule io (Engine.addedRule lib newID rule)).1 svc
            (e.rules ++ [Engine.addedRule lib newID rule])
            (e.published ++ [{ Kind := EventRuleAdded,
                               RuleID := (Engine.addedRule lib newID rule).ID,
                               Rule := some (Engine.addedRule lib newID rule) }]), none) ∧
          (svc = e.monitorSvc ∨
            ∃ err, e.monitorSvc.StartTask lib (Engine.addedRule lib newID rule) =
              .ret (svc, err))) := by
  have hadd : Engine.addedRule lib newID rule =
      (if (if (rule.Validate lib).1.ID = "" then { (rule.Validate lib).1 with ID := newID }
            else (rule.Validate lib).1).Status = ""
        then { (if (rule.Validate lib).1.ID = "" then { (rule.Validate lib).1 with ID := newID }
            else (rule.Validate lib).1) with Status := StatusIdle }
        else (if (rule.Validate lib).1.ID = "" then { (rule.Validate lib).1 with ID := newID }
            else (rule.Validate lib).1)) := rfl
  unfold Engine.AddRule
  cases hval : rule.Validate lib with
  | mk rule' verr =>
    rw [hval] at hadd
    cases verr with
    | some verr => exact Or.inl ⟨by simp, _, rfl⟩
    | none =>
      right
      simp only [] at hadd ⊢
      rw [← hadd]
      clear hadd
      have hint : 0 < (Engine.addedRule lib newID rule).Interval := by
        have h1 := (Engine.addedRule_fields lib newID rule).2.2
        have h2 : (Engine.addedRule lib newID rule).Interval = rule'.Interval := by
          rw [h1, hval]
        have h3 : Second ≤ rule'.Interval := Validate_ok_interval hval
        rw [h2]
        exact lt_of_lt_of_le (by decide) h3
      generalize Engine.addedRule lib newID rule = rule2 at hint
      cases hp : e.configMgr.AddRule io rule2 with
      | mk m perr =>
        cases perr with
        | some perr => exact Or.inl ⟨trivial, by simp, _, _, rfl⟩
        | none =>
          right
          refine ⟨trivial, rfl, ?_⟩
          simp only []
          by_cases hE : rule2.Enabled = true
          · obtain ⟨svc, serr, hst⟩ := MonitorService.StartTask_returns lib e.monitorSvc rule2 hint
            refine ⟨svc, ?_, Or.inr ⟨serr, hst⟩⟩
            simp only [hE, if_true, hst, Run.bind_ret, Run.ret_bind, Run.pure_eq, Engine.publish]
          · refine ⟨e.monitorSvc, ?_, Or.inl rfl⟩
            simp only [hE, Bool.false_eq_true, if_false, Run.ret_bind, Run.pure_eq,
              Engine.publish]

/-- C17: `AddRule` returns no error exactly when validation and persistence succeed,
whatever `StartTask` answers. Then the in-memory list is the previous list followed by the
stored rule; the stored rule is the caller's rule as `Validate` left it except for ID and
status; its ID is the caller's when that was non-empty and the generated ID (non-empty, as
a UUID is) otherwise; its status is the caller's when that was non-empty and idle
otherwise; the stored rule is what was persisted, and one rule-added event was published. -/
theorem addRule_success (lib : Lib) (io : Faults) (newID : String) (e : Engine)
    (rule : MonitorRule) (hnew : newID ≠ "") :
    ((∃ e', e.AddRule lib io newID rule = .ret (e', none)) ↔
        ((rule.Validate lib).2 = none ∧
          (e.configMgr.AddRule io (Engine.addedRule lib newID rule)).2 = none)) ∧
      (∀ e', e.AddRule lib io newID rule = .ret (e', none) →
        ∃ stored, e'.rules = e.rules ++ [stored] ∧
          stored = { (rule.Validate lib).1 with ID := stored.ID, Status := stored.Status } ∧
          stored.ID ≠ "" ∧
          (rule.ID ≠ "" → stored.ID = rule.ID) ∧ (rule.ID = "" → stored.ID = newID) ∧
          (rule.Status = "" → stored.Status = "idle") ∧
          (rule.Status ≠ "" → stored.Status = rule.Status) ∧
          e'.configMgr.file = some (e.configMgr.file.getD [] ++ [stored]) ∧
          e'.published = e.published ++
            [{ Kind := EventRuleAdded, RuleID := stored.ID, Rule := some stored }]) := by
  obtain ⟨hid, hst, hrest⟩ := Engine.addedRule_fields lib newID rule
  constructor
  · constructor
    · rintro ⟨e', h⟩
      rcases Engine.AddRule_cases lib io newID e rule with
        ⟨_, err, h1⟩ | ⟨_, _, e1, err, h1⟩ | ⟨hv, hp, _⟩
      · rw [h1] at h
        injection h with h
        cases (Prod.mk.inj h).2
      · rw [h1] at h
        injection h with h
        cases (Prod.mk.inj h).2
      · exact ⟨hv, hp⟩
    · rintro ⟨hv, hp⟩
      rcases Engine.AddRule_cases lib io newID e rule with
        ⟨hv', _⟩ | ⟨_, hp', _⟩ | ⟨_, _, svc, h1, _⟩
      · exact absurd hv hv'
      · exact absurd hp hp'
      · exact ⟨_, h1⟩
  · intro e' h
    rcases Engine.AddRule_cases lib io newID e rule with
      ⟨_, err, h1⟩ | ⟨_, _, e1, err, h1⟩ | ⟨hv, hp, svc, h1, _⟩
    · rw [h1] at h
      injection h with h
      cases (Prod.mk.inj h).2
    · rw [h1] at h
      injection h with h
      cases (Prod.mk.inj h).2
    · rw [h1] at h
      injection h with h
      have he := (Prod.mk.inj h).1
      subst he
      have hfile := (YAMLManager.AddRule_ok
        (Prod.ext rfl hp : e.configMgr.AddRule io (Engine.addedRule lib newID rule) =
          ((e.configMgr.AddRule io (Engine.addedRule lib newID rule)).1, none))).1
      refine ⟨Engine.addedRule lib newID rule, rfl, hrest, ?_, ?_, ?_, ?_, ?_, hfile, rfl⟩
      · rw [hid]
        by_cases h0 : rule.ID = ""
        · rw [if_pos h0]
          exact hnew
        · rw [if_neg h0]
          exact h0
      · intro h0
        rw [hid, if_neg h0]
      · intro h0
        rw [hid, if_pos h0]
      · intro h0
        rw [hst, if_pos h0]
        rfl
      · intro h0
        rw [hst, if_neg h0]

/-- C17 at `demoRule` on the empty engine: the call succeeds and the list is `[demoRule]`
with status idle. -/
theorem addRule_success_witness :
    ∃ e', emptyEngine.AddRule demoLib Faults.none "u1" demoRule = .ret (e', none) :=
  (addRule_success demoLib Faults.none "u1" emptyEngine demoRule (by decide)).1.2
    ⟨by decide, by decide⟩

/-- A valid, enabled rule whose regular expression does not compile is added: `StartTask`
fails, `AddRule` returns no error, the rule is stored and no task is registered. -/
theorem addRule_keeps_rule_when_start_fails :
    ∃ e', emptyEngine.AddRule demoLib Faults.none "u1" badRegexRule = .ret (e', none) ∧
      e'.rules = [{ badRegexRule with Status := "idle" }] ∧
      e'.configMgr.file = some [{ badRegexRule with Status := "idle" }] ∧
      e'.monitorSvc.tasks.lookup "a" = none ∧
      ∃ err, emptyEngine.monitorSvc.StartTask demoLib { badRegexRule with Status := "idle" } =
        .ret (emptyEngine.monitorSvc, some err) :=
  ⟨_, rfl, rfl, rfl, rfl, _, rfl⟩

/-! ### fetcher/fetcher.go: the retry loop of `Fetch` -/

theorem attemptsOf_append (l l' : List FetchEvent) :
    attemptsOf (l ++ l') = attemptsOf l + attemptsOf l' := by
  induction l with
  | nil => simp [attemptsOf]
  | cons e l ih =>
    cases e with
    | sleep d => simp [attemptsOf, ih]
    | request k => simp [attemptsOf, ih]; omega

/-- C18: `Fetch` makes its attempts in order, stops at the first that succeeds and returns
that attempt's response; it never makes more than three attempts; it returns an error
exactly when the first three attempts all fail, and the error then wraps the error of the
third attempt. Outcomes failure, failure, success give success after exactly three
attempts, and three failures give an error after exactly three attempts. The log also
shows the sleeps: none before the first attempt, one second before the second, two seconds
before the third. -/
theorem fetch_retries (w : Nat → HTTPWorld) (req : Request) :
    (∀ resp, HTTPFetcher.doRequest (w 0) req = .ok resp →
        HTTPFetcher.Fetch w req = (.ok resp, [.request 0])) ∧
      (∀ e0 resp, HTTPFetcher.doRequest (w 0) req = .error e0 →
        HTTPFetcher.doRequest (w 1) req = .ok resp →
        HTTPFetcher.Fetch w req = (.ok resp, [.request 0, .sleep Second, .request 1])) ∧
      (∀ e0 e1 resp, HTTPFetcher.doRequest (w 0) req = .error e0 →
        HTTPFetcher.doRequest (w 1) req = .error e1 →
        HTTPFetcher.doRequest (w 2) req = .ok resp →
        HTTPFetcher.Fetch w req =
            (.ok resp, [.request 0, .sleep Second, .request 1, .sleep (2 * Second),
                        .request 2]) ∧
          attemptsOf (HTTPFetcher.Fetch w req).2 = 3) ∧
      (∀ e0 e1 e2, HTTPFetcher.doRequest (w 0) req = .error e0 →
        HTTPFetcher.doRequest (w 1) req = .error e1 →
        HTTPFetcher.doRequest (w 2) req = .error e2 →
        HTTPFetcher.Fetch w req =
            (.error (.wrapf "请求失败（已重试3次）: " e2),
              [.request 0, .sleep Second, .request 1, .sleep (2 * Second), .request 2]) ∧
          attemptsOf (HTTPFetcher.Fetch w req).2 = 3) ∧
      attemptsOf (HTTPFetcher.Fetch w req).2 ≤ 3 ∧
      ((∃ err, (HTTPFetcher.Fetch w req).1 = .error err) ↔
        ∀ k, k < 3 → ∃ err, HTTPFetcher.doRequest (w k) req = .error err) := by
  cases h0 : HTTPFetcher.doRequest (w 0) req with
  | ok r0 =>
    have hF : HTTPFetcher.Fetch w req = (.ok r0, [.request 0]) := by
      simp [HTTPFetcher.Fetch, HTTPFetcher.fetchLoop, h0]
    refine ⟨?_, ?_, ?_, ?_, ?_, ?_⟩
    · intro resp h; cases h; exact hF
    · intro e0 resp h; cases h
    · intro e0 e1 resp h; cases h
    · intro e0 e1 e2 h; cases h
    · rw [hF]; simp [attemptsOf]
    · rw [hF]
      constructor
      · rintro ⟨err, h⟩; cases h
      · intro h
        obtain ⟨err, h⟩ := h 0 (by omega)
        rw [h0] at h; cases h
  | error e0 =>
    cases h1 : HTTPFetcher.doRequest (w 1) req with
    | ok r1 =>
      have hF : HTTPFetcher.Fetch w req =
          (.ok r1, [.request 0, .sleep Second, .request 1]) := by
        simp [HTTPFetcher.Fetch, HTTPFetcher.fetchLoop, h0, h1]
      refine ⟨?_, ?_, ?_, ?_, ?_, ?_⟩
      · intro resp h; cases h
      · intro e0 resp _ h; cases h; exact hF
      · intro e0 e1 resp _ h; cases h
      · intro e0 e1 e2 _ h; cases h
      · rw [hF]; simp [attemptsOf]
      · rw [hF]
        constructor
        · rintro ⟨err, h⟩; cases h
        · intro h
          obtain ⟨err, h⟩ := h 1 (by omega)
          rw [h1] at h; cases h
    | error e1 =>
      cases h2 : HTTPFetcher.doRequest (w 2) req with
      | ok r2 =>
        have hF : HTTPFetcher.Fetch w req =
            (.ok r2, [.request 0, .sleep Second, .request 1, .sleep (2 * Second),
                      .request 2]) := by
          simp [HTTPFetcher.Fetch, HTTPFetcher.fetchLoop, h0, h1, h2]
        refine ⟨?_, ?_, ?_, ?_, ?_, ?_⟩
        · intro resp h; cases h
        · intro e0 resp _ h; cases h
        · intro e0 e1 resp _ _ h; cases h; exact ⟨hF, by rw [hF]; rfl⟩
        · intro e0 e1 e2 _ _ h; cases h
        · rw [hF]; simp [attemptsOf]
        · rw [hF]
          constructor
          · rintro ⟨err, h⟩; cases h
          · intro h
            obtain ⟨err, h⟩ := h 2 (by omega)
            rw [h2] at h; cases h
      | error e2 =>
        have hF : HTTPFetcher.Fetch w req =
            (.error (.wrapf "请求失败（已重试3次）: " e2),
              [.request 0, .sleep Second, .request 1, .sleep (2 * Second), .request 2]) := by
          simp [HTTPFetcher.Fetch, HTTPFetcher.fetchLoop, h0, h1, h2]
        refine ⟨?_, ?_, ?_, ?_, ?_, ?_⟩
        · intro resp h; cases h
        · intro e0 resp _ h; cases h
        · intro e0 e1 resp _ _ h; cases h
        · intro e0 e1 e2 _ _ h; cases h; exact ⟨hF, by rw [hF]; rfl⟩
        · rw [hF]; simp [attemptsOf]
        · rw [hF]
          constructor
          · intro _ k hk
            have hk' : k = 0 ∨ k = 1 ∨ k = 2 := by omega
            rcases hk' with rfl | rfl | rfl
            · exact ⟨_, h0⟩
            · exact ⟨_, h1⟩
            · exact ⟨_, h2⟩
          · intro _
            exact ⟨_, rfl⟩

/-- C18 on the server of `TestHTTPFetcher_Fetch_Retry` (500, 500, 200): success after
exactly three attempts. -/
theorem fetch_retries_witness :
    HTTPFetcher.Fetch retryWorld demoRequest =
        (.ok { Body := [111, 107], ContentType := "text/plain", StatusCode := 200 },
          [.request 0, .sleep Second, .request 1, .sleep (2 * Second), .request 2]) ∧
      attemptsOf (HTTPFetcher.Fetch retryWorld demoRequest).2 = 3 :=
  (fetch_retries retryWorld demoRequest).2.2.1 (.new "HTTP错误: 500 ") (.new "HTTP错误: 500 ")
    { Body := [111, 107], ContentType := "text/plain", StatusCode := 200 }
    rfl rfl rfl

/-! ### fetcher/fetcher.go: one request attempt -/

/-- The attempt once the request is built and the client has returned `httpResp`. -/
theorem doRequest_of_response (w : HTTPWorld) (req : Request) (httpResp : HTTPResponse)
    (hn : w.newRequest req.Method req.URL = none)
    (hd : ∀ r, w.clientDo r = .ok httpResp) :
    HTTPFetcher.doRequest w req =
      if httpResp.StatusCode < 200 ∨ httpResp.StatusCode ≥ 300 then
        .error (.new ("HTTP错误: " ++ toString httpResp.StatusCode ++ " " ++ httpResp.Status))
      else
        match readAllLimited httpResp maxBodySize with
        | .error err => .error (.wrapf "读取响应失败: " err)
        | .ok body =>
          if body.length = maxBodySize ∧ readOneMore httpResp maxBodySize > 0 then
            .error (.new "响应体过大（超过10MB）")
          else
            .ok { Body := body, ContentType := httpResp.ContentType,
                  StatusCode := httpResp.StatusCode } := by
  simp only [HTTPFetcher.doRequest, hn, hd]

theorem readOneMore_pos (resp : HTTPResponse) (n : Nat) :
    readOneMore resp n > 0 ↔ n < resp.Body.length := by
  unfold readOneMore
  cases h : resp.Body.drop n with
  | nil =>
    have := List.drop_eq_nil_iff.mp h
    simp
    omega
  | cons a l =>
    have h1 : ¬ resp.Body.length ≤ n := by
      intro h2
      rw [List.drop_eq_nil_iff.mpr h2] at h
      cases h
    simp
    omega

/-- C20: for a response with a 2xx status, a request attempt fails with the size-limit error
exactly when the body is longer than 10 MiB (10485760 bytes); a body of at most 10 MiB that
is delivered in full (the stream ends without a read error), and any body of exactly
10 MiB, is returned complete and unmodified together with the status code and the content
type. A response with a status code below 200 or of at least 300 makes the attempt fail. -/
theorem doRequest_size_limit (w : HTTPWorld) (req : Request) (httpResp : HTTPResponse)
    (hn : w.newRequest req.Method req.URL = none)
    (hd : ∀ r, w.clientDo r = .ok httpResp) :
    (200 ≤ httpResp.StatusCode → httpResp.StatusCode < 300 →
        (HTTPFetcher.doRequest w req = .error (.new "响应体过大（超过10MB）") ↔
          10 * 1024 * 1024 < httpResp.Body.length) ∧
        (httpResp.Body.length ≤ 10 * 1024 * 1024 →
          httpResp.BodyErr = none ∨ httpResp.Body.length = 10 * 1024 * 1024 →
          HTTPFetcher.doRequest w req =
            .ok { Body := httpResp.Body, ContentType := httpResp.ContentType,
                  StatusCode := httpResp.StatusCode })) ∧
      (httpResp.StatusCode < 200 ∨ httpResp.StatusCode ≥ 300 →
        ∃ err, HTTPFetcher.doRequest w req = .error err) := by
  have hmax : maxBodySize = 10 * 1024 * 1024 := rfl
  rw [doRequest_of_response w req httpResp hn hd]
  constructor
  · intro h1 h2
    have hs : ¬ (httpResp.StatusCode < 200 ∨ httpResp.StatusCode ≥ 300) := by omega
    rw [if_neg hs, ← hmax]
    by_cases hlen : maxBodySize ≤ httpResp.Body.length
    · have hread : readAllLimited httpResp maxBodySize = .ok (httpResp.Body.take maxBodySize) := by
        simp only [readAllLimited, hlen, if_true]
      have htl : (httpResp.Body.take maxBodySize).length = maxBodySize := by
        rw [List.length_take]
        omega
      rw [hread]
      simp only [htl, true_and, readOneMore_pos]
      by_cases hgt : maxBodySize < httpResp.Body.length
      · simp [hgt]
      · have heq : httpResp.Body.length = maxBodySize := by omega
        simp only [hgt, if_false, iff_false]
        refine ⟨by simp, ?_⟩
        intro _ _
        rw [List.take_of_length_le (by omega)]
    · have hlt : httpResp.Body.length < maxBodySize := by omega
      have hngt : ¬ maxBodySize < httpResp.Body.length := by omega
      cases he : httpResp.BodyErr with
      | some err =>
        have hread : readAllLimited httpResp maxBodySize = .error err := by
          simp only [readAllLimited, hlen, if_false, he]
        rw [hread]
        refine ⟨by simp [hngt], ?_⟩
        intro _ h
        rcases h with h | h
        · cases h
        · omega
      | none =>
        have hread : readAllLimited httpResp maxBodySize = .ok httpResp.Body := by
          simp only [readAllLimited, hlen, if_false, he]
        rw [hread]
        have hne : ¬ (httpResp.Body.length = maxBodySize ∧
            readOneMore httpResp maxBodySize > 0) := by
          intro h
          omega
        simp only [hne, if_false]
        refine ⟨by simp [hngt], ?_⟩
        intro _ _
        first | rfl | trivial
  · intro h
    rw [if_pos h]
    exact ⟨_, rfl⟩

/-- C20 on a response with status 200 and the two-byte body "ok": the body is returned with
status code and content type. -/
theorem doRequest_size_limit_witness :
    HTTPFetcher.doRequest (statusWorld 200) demoRequest =
      .ok { Body := [111, 107], ContentType := "text/plain", StatusCode := 200 } :=
  ((doRequest_size_limit (statusWorld 200) demoRequest
      { StatusCode := 200, Status := "", ContentType := "text/plain", Body := [111, 107],
        BodyErr := none } rfl (fun _ => rfl)).1 (by decide) (by decide)).2
    (by decide) (Or.inl rfl)

/-! ### fetcher/fetcher.go: the redirect policy -/

/-- With the fetcher's redirect policy the client's call ends within ten requests. -/
theorem client_do_returns (server : Nat → HTTPRequest → ServerAnswer) :
    ∀ (fuel : Nat) (req : HTTPRequest) (reqs : List HTTPRequest),
      10 ≤ reqs.length + fuel → 0 < fuel →
      ∃ r, Client.do HTTPFetcher.CheckRedirect server fuel req reqs = some r
  | 0, _, _, _, h => absurd h (by omega)
  | fuel + 1, req, reqs, h, _ => by
    unfold Client.do
    cases server reqs.length req with
    | failure err => exact ⟨_, rfl⟩
    | response resp => exact ⟨_, rfl⟩
    | redirect location =>
      simp only [HTTPFetcher.CheckRedirect, List.length_append, List.length_singleton]
      by_cases hc : reqs.length + 1 ≥ 10
      · simp only [hc, if_true]
        exact ⟨_, rfl⟩
      · simp only [hc, if_false]
        have hl : (reqs ++ [req]).length = reqs.length + 1 := by simp
        exact client_do_returns server fuel _ (reqs ++ [req]) (by rw [hl]; omega) (by omega)

theorem client_do_total (server : Nat → HTTPRequest → ServerAnswer) (req : HTTPRequest) :
    ∃ r, Client.do HTTPFetcher.CheckRedirect server 11 req [] = some r :=
  client_do_returns server 11 req [] (by simp) (by omega)

/-- A chain of fewer than ten redirects is followed to its final response. -/
theorem client_do_chain_short (n : Nat) (final : HTTPResponse) (hn : n < 10) :
    ∀ (fuel : Nat) (req : HTTPRequest) (reqs : List HTTPRequest),
      reqs.length ≤ n → n - reqs.length < fuel →
      Client.do HTTPFetcher.CheckRedirect (redirectChain n final) fuel req reqs =
        some (.ok final)
  | 0, _, _, _, h => absurd h (by omega)
  | fuel + 1, req, reqs, hl, hf => by
    unfold Client.do
    by_cases hk : reqs.length < n
    · have hc : ¬ reqs.length + 1 ≥ 10 := by omega
      have hl' : (reqs ++ [req]).length = reqs.length + 1 := by simp
      simp only [redirectChain, hk, if_true, HTTPFetcher.CheckRedirect, List.length_append,
        List.length_singleton, hc, if_false]
      exact client_do_chain_short n final hn fuel _ (reqs ++ [req]) (by rw [hl']; omega)
        (by rw [hl']; omega)
    · simp only [redirectChain, hk, if_false]

/-- On a chain of ten or more redirects the tenth redirect is refused. -/
theorem client_do_chain_long (n : Nat) (final : HTTPResponse) (hn : 10 ≤ n) :
    ∀ (fuel : Nat) (req : HTTPRequest) (reqs : List HTTPRequest),
      reqs.length < 10 → 10 - reqs.length ≤ fuel →
      Client.do HTTPFetcher.CheckRedirect (redirectChain n final) fuel req reqs =
        some (.error (.wrapf (urlErrorOp req.Method ++ " \"" ++ "/next" ++ "\": ")
          (.new "重定向次数过多")))
  | 0, _, _, hl, h => absurd h (by omega)
  | fuel + 1, req, reqs, hl, hf => by
    unfold Client.do
    have hk : reqs.length < n := by omega
    have hl' : (reqs ++ [req]).length = reqs.length + 1 := by simp
    by_cases hc : reqs.length + 1 ≥ 10
    · simp only [redirectChain, hk, if_true, HTTPFetcher.CheckRedirect, List.length_append,
        List.length_singleton, hc]
    · simp only [redirectChain, hk, if_true, HTTPFetcher.CheckRedirect, List.length_append,
        List.length_singleton, hc, if_false]
      exact client_do_chain_long n final hn fuel { req with URL := "/next" } (reqs ++ [req])
        (by rw [hl']; omega) (by rw [hl']; omega)

/-- C19 against the code: a request that is redirected `n` times before its final response
is followed to that response exactly when `n ≤ 9`. With ten redirects (and with more) the
client's call ends with the error of `CheckRedirect`, "重定向次数过多", at the tenth
redirect: the policy `len(via) >= 10` refuses the redirect that would be the tenth, so the
cap is nine redirect hops (ten requests), not the ten hops of the comment
"最多允许10次重定向". -/
theorem redirect_cap_is_nine_hops (n : Nat) (final : HTTPResponse) (req : HTTPRequest) :
    (n ≤ 9 → HTTPFetcher.clientDo (redirectChain n final) req = .ok final) ∧
      (10 ≤ n → HTTPFetcher.clientDo (redirectChain n final) req =
        .error (.wrapf (urlErrorOp req.Method ++ " \"" ++ "/next" ++ "\": ")
          (.new "重定向次数过多"))) ∧
      (HTTPFetcher.clientDo (redirectChain n final) req = .ok final ↔ n ≤ 9) := by
  have h1 : n ≤ 9 → HTTPFetcher.clientDo (redirectChain n final) req = .ok final := by
    intro hn
    unfold HTTPFetcher.clientDo
    rw [client_do_chain_short n final (by omega) 11 req [] (by simp) (by simp; omega)]
  have h2 : 10 ≤ n → HTTPFetcher.clientDo (redirectChain n final) req =
      .error (.wrapf (urlErrorOp req.Method ++ " \"" ++ "/next" ++ "\": ")
        (.new "重定向次数过多")) := by
    intro hn
    unfold HTTPFetcher.clientDo
    rw [client_do_chain_long n final hn 11 req [] (by simp) (by simp)]
  refine ⟨h1, h2, ?_, h1⟩
  intro h
  by_contra hn
  rw [h2 (by omega)] at h
  cases h

/-- C19 against the code, at ten redirects before the final response `okResponse`: the
client's call fails with the too-many-redirects error. -/
theorem redirect_cap_is_nine_hops_witness :
    HTTPFetcher.clientDo (redirectChain 10 okResponse) demoHTTPRequest =
      .error (.wrapf (urlErrorOp "GET" ++ " \"" ++ "/next" ++ "\": ") (.new "重定向次数过多")) :=
  (redirect_cap_is_nine_hops 10 okResponse demoHTTPRequest).2.1 (by decide)

/-- The whole fetcher on chains of nine and of ten redirects to a final 200 response: with
nine the attempt returns the response; with ten every attempt fails with the
too-many-redirects error, and `Fetch` fails after three attempts. -/
theorem ten_redirects_fail :
    HTTPFetcher.doRequest (redirectWorld 9) demoRequest =
        .ok { Body := [111, 107], ContentType := "text/plain", StatusCode := 200 } ∧
      HTTPFetcher.doRequest (redirectWorld 10) demoRequest =
        .error (.wrapf "发送请求失败: "
          (.wrapf "Get \"/next\": " (.new "重定向次数过多"))) ∧
      HTTPFetcher.Fetch (fun _ => redirectWorld 10) demoRequest =
        (.error (.wrapf "请求失败（已重试3次）: " (.wrapf "发送请求失败: "
            (.wrapf "Get \"/next\": " (.new "重定向次数过多")))),
          [.request 0, .sleep Second, .request 1, .sleep (2 * Second), .request 2]) := by
  refine ⟨rfl, rfl, rfl⟩

/-! ### extractor/extractor.go: `Factory.Create` -/

/-- C25: `Create` returns a CSS extractor for kind css, a JSON extractor for kind json and a
regex extractor for kind regex when the expression compiles; it returns an error (and no
extractor) when the kind is regex and the expression does not compile, and when the kind is
none of css, regex, json. For a rule that `Validate` accepts, `Create` on the rule's kind and
expression fails only for kind regex with an expression that does not compile. -/
theorem factory_create_spec (lib : Lib) (kind : ExtractorType) (expr : String) :
    (kind = "css" → Factory.Create lib kind expr = .ok (.css expr)) ∧
      (kind = "json" → Factory.Create lib kind expr = .ok (.json expr)) ∧
      (kind = "regex" → lib.regexCompile expr = none →
        Factory.Create lib kind expr = .ok (.regex expr)) ∧
      (kind = "regex" → ∀ err, lib.regexCompile expr = some err →
        Factory.Create lib kind expr = .error (.wrapf "无效的正则表达式: " err)) ∧
      (kind ≠ "css" → kind ≠ "regex" → kind ≠ "json" →
        Factory.Create lib kind expr = .error (.new ("不支持的提取器类型: " ++ kind))) ∧
      (∀ r : MonitorRule, (r.Validate lib).2 = none →
        ∀ err, Factory.Create lib r.ExtractorType r.ExtractorExpr = .error err →
          r.ExtractorType = "regex" ∧ ∃ e, lib.regexCompile r.ExtractorExpr = some e) := by
  have hcss : ∀ e : String, Factory.Create lib "css" e = .ok (.css e) := fun e => by
    simp [Factory.Create, ExtractorCSS]
  have hjson : ∀ e : String, Factory.Create lib "json" e = .ok (.json e) := fun e => by
    simp [Factory.Create, ExtractorCSS, ExtractorRegex, ExtractorJSON]
  have hregex : ∀ e : String, Factory.Create lib "regex" e = NewRegexExtractor lib e :=
    fun e => by simp [Factory.Create, ExtractorCSS, ExtractorRegex]
  refine ⟨?_, ?_, ?_, ?_, ?_, ?_⟩
  · rintro rfl
    exact hcss expr
  · rintro rfl
    exact hjson expr
  · rintro rfl hc
    rw [hregex, NewRegexExtractor, hc]
  · rintro rfl err hc
    rw [hregex, NewRegexExtractor, hc]
  · intro h1 h2 h3
    simp [Factory.Create, ExtractorCSS, ExtractorRegex, ExtractorJSON, h1, h2, h3]
  · intro r hv err hc
    have hk := (Validate_none_imp hv).2.2.2.2.2.2
    have hk' : r.ExtractorType = "css" ∨ r.ExtractorType = "regex" ∨
        r.ExtractorType = "json" := by
      simpa [validExtractors, ExtractorCSS, ExtractorRegex, ExtractorJSON] using hk
    rcases hk' with h | h | h
    · rw [h, hcss] at hc
      cases hc
    · refine ⟨h, ?_⟩
      rw [h, hregex, NewRegexExtractor] at hc
      cases hre : lib.regexCompile r.ExtractorExpr with
      | none =>
        rw [hre] at hc
        cases hc
      | some e => exact ⟨e, rfl⟩
    · rw [h, hjson] at hc
      cases hc

/-- C25 at the valid rule `badRegexRule`, whose pattern "(" does not compile: `Create` fails,
and the kind is regex. -/
theorem factory_create_spec_witness :
    badRegexRule.ExtractorType = "regex" ∧
      ∃ e, demoLib.regexCompile badRegexRule.ExtractorExpr = some e :=
  (factory_create_spec demoLib "regex" "(").2.2.2.2.2 badRegexRule (by decide)
    (.wrapf "无效的正则表达式: " (.new "missing closing )")) rfl

/-! ### monitor/task.go: `Update` -/

/-- The three outcomes of `Update`: the extractor cannot be built; the ticker is replaced
(which panics on a non-positive interval); the ticker is kept. -/
theorem Task.Update_eval (lib : Lib) (t : Task) (rule : MonitorRule) :
    t.Update lib rule =
      match t.extractorFor lib rule with
      | .error err => .ret (t, some (.wrapf "创建提取器失败: " err))
      | .ok ext =>
        if rule.Interval ≠ t.rule.Interval ∧ t.running = true then
          if rule.Interval ≤ 0 then .panic "non-positive interval for NewTicker"
          else .ret ({ t with extractor := ext, ticker := some ⟨rule.Interval, false⟩,
                              rule := rule }, none)
        else .ret ({ t with extractor := ext, rule := rule }, none) := by
  unfold Task.Update
  cases hx : t.extractorFor lib rule with
  | error err => rfl
  | ok ext =>
    simp only []
    by_cases hc : rule.Interval ≠ t.rule.Interval ∧ t.running = true
    · by_cases hi : rule.Interval ≤ 0
      · simp [hc, hi, NewTicker, Run.bind, bind]
      · simp [hc, hi, NewTicker, Run.bind, bind, pure]
    · simp [hc, Run.bind, bind, pure]

theorem Task.extractorFor_same (lib : Lib) (t : Task) (rule : MonitorRule)
    (h1 : rule.ExtractorType = t.rule.ExtractorType)
    (h2 : rule.ExtractorExpr = t.rule.ExtractorExpr) :
    t.extractorFor lib rule = .ok t.extractor := by
  simp [Task.extractorFor, h1, h2]

theorem Task.extractorFor_changed (lib : Lib) (t : Task) (rule : MonitorRule)
    (h : rule.ExtractorType ≠ t.rule.ExtractorType ∨
      rule.ExtractorExpr ≠ t.rule.ExtractorExpr) :
    t.extractorFor lib rule = Factory.Create lib rule.ExtractorType rule.ExtractorExpr := by
  simp only [Task.extractorFor, h, if_true]

/-- C28: whenever `Update` returns, the task is running exactly if it was before; the
extractor is the task's own when the new rule has the same extractor kind and expression,
and otherwise, on success, the one `Factory.Create` builds for the new rule; the ticker is
the task's own when the interval is the same or the task is not running, and otherwise, on
success, a new ticker with the new interval; on success the task's rule is the new rule;
when the new extractor cannot be built `Update` returns an error and the task as it was
(rule, extractor and ticker unchanged). `Update` returns unless it has to replace the ticker
of a running task by one with a non-positive interval. -/
theorem task_update_frame (lib : Lib) (t : Task) (rule : MonitorRule) :
    (∀ t' err, t.Update lib rule = .ret (t', err) →
        t'.running = t.running ∧
        (rule.ExtractorType = t.rule.ExtractorType →
          rule.ExtractorExpr = t.rule.ExtractorExpr → t'.extractor = t.extractor) ∧
        (rule.Interval = t.rule.Interval ∨ t.running = false → t'.ticker = t.ticker)) ∧
      (∀ t', t.Update lib rule = .ret (t', none) →
        t'.rule = rule ∧
        (rule.ExtractorType ≠ t.rule.ExtractorType ∨
            rule.ExtractorExpr ≠ t.rule.ExtractorExpr →
          Factory.Create lib rule.ExtractorType rule.ExtractorExpr = .ok t'.extractor) ∧
        (rule.Interval ≠ t.rule.Interval → t.running = true →
          t'.ticker = some ⟨rule.Interval, false⟩)) ∧
      (∀ e, t.extractorFor lib rule = .error e →
        t.Update lib rule = .ret (t, some (.wrapf "创建提取器失败: " e))) ∧
      (∀ t' err, t.Update lib rule = .ret (t', some err) →
        t' = t ∧ ∃ e, err = .wrapf "创建提取器失败: " e ∧
          Factory.Create lib rule.ExtractorType rule.ExtractorExpr = .error e ∧
          (rule.ExtractorType ≠ t.rule.ExtractorType ∨
            rule.ExtractorExpr ≠ t.rule.ExtractorExpr)) ∧
      ((rule.Interval ≠ t.rule.Interval → t.running = true → 0 < rule.Interval) →
        ∃ t' err, t.Update lib rule = .ret (t', err)) := by
  have heval := Task.Update_eval lib t rule
  cases hx : t.extractorFor lib rule with
  | error e =>
    rw [hx] at heval
    simp only [] at heval
    have hchanged : rule.ExtractorType ≠ t.rule.ExtractorType ∨
        rule.ExtractorExpr ≠ t.rule.ExtractorExpr := by
      by_contra hn
      have hn' := not_or.mp hn
      rw [Task.extractorFor_same lib t rule (not_not.mp hn'.1) (not_not.mp hn'.2)] at hx
      cases hx
    refine ⟨?_, ?_, ?_, ?_, ?_⟩
    · intro t' err h
      rw [heval] at h
      injection h with h
      have ht := (Prod.mk.inj h).1
      subst ht
      exact ⟨rfl, fun _ _ => rfl, fun _ => rfl⟩
    · intro t' h
      rw [heval] at h
      injection h with h
      cases (Prod.mk.inj h).2
    · intro e' he
      cases he
      exact heval
    · intro t' err h
      rw [heval] at h
      injection h with h
      obtain ⟨h1, h2⟩ := Prod.mk.inj h
      refine ⟨h1.symm, e, (Option.some.inj h2).symm, ?_, hchanged⟩
      rw [← Task.extractorFor_changed lib t rule hchanged]
      exact hx
    · intro _
      exact ⟨_, _, heval⟩
  | ok ext =>
    rw [hx] at heval
    simp only [] at heval
    have hext : rule.ExtractorType = t.rule.ExtractorType →
        rule.ExtractorExpr = t.rule.ExtractorExpr → ext = t.extractor := by
      intro h1 h2
      rw [Task.extractorFor_same lib t rule h1 h2] at hx
      exact (Except.ok.inj hx).symm
    have hcreate : rule.ExtractorType ≠ t.rule.ExtractorType ∨
        rule.ExtractorExpr ≠ t.rule.ExtractorExpr →
        Factory.Create lib rule.ExtractorType rule.ExtractorExpr = .ok ext := by
      intro h
      rw [← Task.extractorFor_changed lib t rule h]
      exact hx
    by_cases hc : rule.Interval ≠ t.rule.Interval ∧ t.running = true
    · rw [if_pos hc] at heval
      by_cases hi : rule.Interval ≤ 0
      · rw [if_pos hi] at heval
        refine ⟨?_, ?_, ?_, ?_, ?_⟩
        · intro t' err h
          rw [heval] at h
          cases h
        · intro t' h
          rw [heval] at h
          cases h
        · intro e he
          cases he
        · intro t' err h
          rw [heval] at h
          cases h
        · intro h
          exact absurd (h hc.1 hc.2) (not_lt.mpr hi)
      · rw [if_neg hi] at heval
        refine ⟨?_, ?_, ?_, ?_, ?_⟩
        · intro t' err h
          rw [heval] at h
          injection h with h
          have ht := (Prod.mk.inj h).1
          subst ht
          refine ⟨rfl, hext, ?_⟩
          rintro (h1 | h1)
          · exact absurd h1 hc.1
          · rw [hc.2] at h1
            cases h1
        · intro t' h
          rw [heval] at h
          injection h with h
          have ht := (Prod.mk.inj h).1
          subst ht
          exact ⟨rfl, hcreate, fun _ _ => rfl⟩
        · intro e he
          cases he
        · intro t' err h
          rw [heval] at h
          injection h with h
          cases (Prod.mk.inj h).2
        · intro _
          exact ⟨_, _, heval⟩
    · rw [if_neg hc] at heval
      refine ⟨?_, ?_, ?_, ?_, ?_⟩
      · intro t' err h
        rw [heval] at h
        injection h with h
        have ht := (Prod.mk.inj h).1
        subst ht
        exact ⟨rfl, hext, fun _ => rfl⟩
      · intro t' h
        rw [heval] at h
        injection h with h
        have ht := (Prod.mk.inj h).1
        subst ht
        refine ⟨rfl, hcreate, ?_⟩
        intro h1 h2
        exact absurd ⟨h1, h2⟩ hc
      · intro e he
        cases he
      · intro t' err h
        rw [heval] at h
        injection h with h
        cases (Prod.mk.inj h).2
      · intro _
        exact ⟨_, _, heval⟩

/-- C28 at a running task for `demoRule`, updated to a rule with another expression and an
interval of two seconds: the extractor and the ticker are replaced, the task stays running. -/
theorem task_update_frame_witness :
    ({ demoTask.restarted (.css ".content") demoRule with stopClosed := false } : Task).Update
        demoLib { demoRule with ExtractorExpr := "h1", Interval := 2 * Second } =
      .ret ({ rule := { demoRule with ExtractorExpr := "h1", Interval := 2 * Second },
              extractor := .css "h1", ticker := some ⟨2 * Second, false⟩,
              stopClosed := false, running := true, hasOnUpdate := true }, none) ∧
      ∃ t' err,
        ({ demoTask.restarted (.css ".content") demoRule with stopClosed := false } : Task).Update
          demoLib { demoRule with ExtractorExpr := "h1", Interval := 2 * Second } =
        .ret (t', err) :=
  ⟨rfl, (task_update_frame demoLib
    { demoTask.restarted (.css ".content") demoRule with stopClosed := false }
    { demoRule with ExtractorExpr := "h1", Interval := 2 * Second }).2.2.2.2
    (fun _ _ => by decide)⟩

/-! ### monitor/service.go: a failed `UpdateTask` -/

theorem MonitorService.UpdateTask_of_running_open_error (lib : Lib) (s : MonitorService)
    (rule : MonitorRule) (task : Task) (e : GoError)
    (hl : s.tasks.lookup rule.ID = some task) (hr : task.running = true)
    (hc : task.stopClosed = false) (hx : task.extractorFor lib rule = .error e) :
    s.UpdateTask lib rule =
      .ret ({ s with tasks := s.tasks.replace rule.ID task.stopped },
        some (.wrapf "更新任务失败: " (.wrapf "创建提取器失败: " e))) := by
  unfold MonitorService.UpdateTask
  rw [hl]
  simp only [Task.IsRunning, hr, if_true, Task.Stop_of_running_open task hr hc, Run.bind_ret]
  unfold MonitorService.updateAndRestart
  have hs : Task.extractorFor lib task.stopped rule = Task.extractorFor lib task rule := rfl
  rw [Task.Update_of_stopped lib task.stopped rule rfl, hs, hx]
  simp

/-- C30: a running task is registered under the rule's ID and the extractor for the new rule
cannot be built. Whenever `UpdateTask` then returns an error, the task is still registered
under the ID, with its old rule and its old extractor, and is not running; the entries of
other IDs are unchanged. The call does return that error, wrapping the extractor's error,
when the task's stop channel is open. -/
theorem failed_update_stops_task (lib : Lib) (s : MonitorService) (rule : MonitorRule)
    (task : Task) (e : GoError) (hl : s.tasks.lookup rule.ID = some task)
    (hr : task.running = true) (hx : task.extractorFor lib rule = .error e) :
    (∀ s' err, s.UpdateTask lib rule = .ret (s', some err) →
        ∃ task', s'.tasks.lookup rule.ID = some task' ∧ task'.rule = task.rule ∧
          task'.extractor = task.extractor ∧ task'.running = false ∧
          s'.IsTaskRunning rule.ID = false ∧
          ∀ id, id ≠ rule.ID → s'.tasks.lookup id = s.tasks.lookup id) ∧
      (task.stopClosed = false →
        s.UpdateTask lib rule =
          .ret ({ s with tasks := s.tasks.replace rule.ID task.stopped },
            some (.wrapf "更新任务失败: " (.wrapf "创建提取器失败: " e)))) := by
  constructor
  · intro s' err h
    have hframe := MonitorService.UpdateTask_ret h
    cases hc : task.stopClosed with
    | true =>
      rw [MonitorService.UpdateTask_of_running_closed lib s rule task hl hr hc] at h
      cases h
    | false =>
      rw [MonitorService.UpdateTask_of_running_open_error lib s rule task e hl hr hc hx] at h
      injection h with h
      have hs' := (Prod.mk.inj h).1
      subst hs'
      have hl' := TaskMap.lookup_replace_self s.tasks rule.ID task.stopped
        (TaskMap.mem_of_lookup hl)
      refine ⟨task.stopped, hl', rfl, rfl, rfl, ?_, hframe⟩
      simp only [MonitorService.IsTaskRunning, hl', Task.IsRunning]
      rfl
  · intro hc
    exact MonitorService.UpdateTask_of_running_open_error lib s rule task e hl hr hc hx

/-- C30 at the running task of `demoRule`, updated with `badRegexRule`, whose regular
expression does not compile: the call fails, and the task stays registered, with
`demoRule` and its CSS extractor, stopped. -/
theorem failed_update_stops_task_witness :
    startedService.UpdateTask demoLib badRegexRule =
      .ret ({ startedService with
                tasks := startedService.tasks.replace badRegexRule.ID
                  (Task.started demoRule (.css ".content") true).stopped },
        some (.wrapf "更新任务失败: " (.wrapf "创建提取器失败: "
          (.wrapf "无效的正则表达式: " (.new "missing closing )"))))) :=
  (failed_update_stops_task demoLib startedService badRegexRule
    (Task.started demoRule (.css ".content") true)
    (.wrapf "无效的正则表达式: " (.new "missing closing )")) rfl rfl rfl).2 rfl

/-! ### fetcher/fetcher.go: the backoff of `Fetch` -/

/-- C29 (as the code has it): when every attempt of a `Fetch` call fails, exactly two delays
are slept between the three attempts, one second before the second attempt and two seconds
before the third; nothing is slept before the first attempt or after the third, so a
delay of four seconds does not occur. -/
theorem fetch_sleeps_one_and_two_seconds (w : Nat → HTTPWorld) (req : Request)
    (h : ∀ k, k < 3 → ∃ err, HTTPFetcher.doRequest (w k) req = .error err) :
    (HTTPFetcher.Fetch w req).2 =
        [.request 0, .sleep 1000000000, .request 1, .sleep 2000000000, .request 2] ∧
      sleepsOf (HTTPFetcher.Fetch w req).2 = [1000000000, 2000000000] ∧
      (4000000000 : Duration) ∉ sleepsOf (HTTPFetcher.Fetch w req).2 ∧
      attemptsOf (HTTPFetcher.Fetch w req).2 = 3 := by
  obtain ⟨e0, h0⟩ := h 0 (by omega)
  obtain ⟨e1, h1⟩ := h 1 (by omega)
  obtain ⟨e2, h2⟩ := h 2 (by omega)
  have hF : (HTTPFetcher.Fetch w req).2 =
      [.request 0, .sleep 1000000000, .request 1, .sleep 2000000000, .request 2] := by
    simp [HTTPFetcher.Fetch, HTTPFetcher.fetchLoop, h0, h1, h2, Second]
  rw [hF]
  refine ⟨rfl, rfl, ?_, rfl⟩
  simp [sleepsOf]

/-- C29 (as the code has it) on the server of `TestHTTPFetcher_Fetch_RetryExhausted` (status
500 in every attempt): the delays slept are one second and two seconds. -/
theorem fetch_sleeps_one_and_two_seconds_witness :
    sleepsOf (HTTPFetcher.Fetch (fun _ => statusWorld 500) demoRequest).2 =
      [1000000000, 2000000000] :=
  (fetch_sleeps_one_and_two_seconds (fun _ => statusWorld 500) demoRequest
    (fun _ _ => ⟨_, rfl⟩)).2.1

/-! ### extractor/regex.go: `Extract` -/

theorem goJoin_cons_ne_empty (a : String) (l : List String) (sep : String) (h : a ≠ "") :
    goJoin (a :: l) sep ≠ "" := by
  have hlen : 0 < a.length := by
    rcases a with ⟨data⟩
    cases data with
    | nil => exact absurd rfl h
    | cons c cs => simp [String.length]
  cases l with
  | nil => exact h
  | cons b rest =>
    intro hj
    have := congrArg String.length hj
    simp only [goJoin, String.length_append] at this
    have h0 : ("" : String).length = 0 := rfl
    omega

theorem RegexExtractor.collect_eq_map (n : Nat) :
    ∀ (ms : List (List String)) (results : List String),
      (∀ m ∈ ms, m.length = n + 1) →
      RegexExtractor.collect ms results =
        results ++ ms.map (fun m => if 0 < n then m.getD 1 "" else m.getD 0 "")
  | [], results, _ => by simp [RegexExtractor.collect]
  | m :: rest, results, h => by
    have hm : m.length = n + 1 := h m (List.mem_cons_self _ _)
    have hrest : ∀ x ∈ rest, x.length = n + 1 := fun x hx => h x (List.mem_cons_of_mem _ hx)
    unfold RegexExtractor.collect
    by_cases hn : 0 < n
    · have h1 : m.length > 1 := by omega
      simp only [h1, if_true, hn]
      rw [RegexExtractor.collect_eq_map n rest _ hrest]
      simp [hn]
    · have h1 : ¬ m.length > 1 := by omega
      have h0 : m.length > 0 := by omega
      simp only [h1, if_false, h0, if_true]
      rw [RegexExtractor.collect_eq_map n rest _ hrest]
      simp [hn]

/-- C21: matching does not time out, and every match reported by the regexp package has one
entry for the whole match and one per capture group of the pattern. Then `Extract` returns
an error exactly when there are no matches; otherwise it returns, joined by single
newlines, one string per match in order of occurrence: capture group 1 of the match when the
pattern has a capture group, and the whole match otherwise. -/
theorem regex_extract_spec (lib : RegexLib) (pattern : String) (body : List UInt8)
    (hlen : ∀ m ∈ lib.findAllStringSubmatch pattern body,
      m.length = lib.numSubexp pattern + 1) :
    ((∃ err, RegexExtractor.Extract lib pattern false body = .error err) ↔
        lib.findAllStringSubmatch pattern body = []) ∧
      (lib.findAllStringSubmatch pattern body = [] →
        RegexExtractor.Extract lib pattern false body =
          .error (.new ("正则表达式未匹配到任何内容: " ++ pattern))) ∧
      (lib.findAllStringSubmatch pattern body ≠ [] →
        RegexExtractor.Extract lib pattern false body =
          .ok (goJoin ((lib.findAllStringSubmatch pattern body).map fun m =>
            if 0 < lib.numSubexp pattern then m.getD 1 "" else m.getD 0 "") "\n")) ∧
      (RegexExtractor.collect (lib.findAllStringSubmatch pattern body) []).length =
        (lib.findAllStringSubmatch pattern body).length := by
  have hcol := RegexExtractor.collect_eq_map (lib.numSubexp pattern)
    (lib.findAllStringSubmatch pattern body) [] hlen
  rw [List.nil_append] at hcol
  have hempty : lib.findAllStringSubmatch pattern body = [] →
      RegexExtractor.Extract lib pattern false body =
        .error (.new ("正则表达式未匹配到任何内容: " ++ pattern)) := by
    intro h
    simp [RegexExtractor.Extract, h]
  have hsome : lib.findAllStringSubmatch pattern body ≠ [] →
      RegexExtractor.Extract lib pattern false body =
        .ok (goJoin ((lib.findAllStringSubmatch pattern body).map fun m =>
          if 0 < lib.numSubexp pattern then m.getD 1 "" else m.getD 0 "") "\n") := by
    intro h
    have hl : ¬ (lib.findAllStringSubmatch pattern body).length = 0 := by
      intro h0
      exact h (List.length_eq_zero.mp h0)
    simp only [RegexExtractor.Extract, Bool.false_eq_true, if_false, hl, hcol]
  refine ⟨⟨?_, fun h => ⟨_, hempty h⟩⟩, hempty, hsome, ?_⟩
  · rintro ⟨err, h⟩
    by_contra hne
    rw [hsome hne] at h
    cases h
  · rw [hcol, List.length_map]

/-- C21 on the case "使用捕获组" of `TestRegexExtractor_Extract`: capture group 1 of the two
matches, joined by a newline. -/
theorem regex_extract_spec_witness :
    RegexExtractor.Extract demoRegexLib "name:\\s*(\\w+)" false
        (goBytes "name: John, age: 30, name: Jane") = .ok "John\nJane" :=
  (regex_extract_spec demoRegexLib "name:\\s*(\\w+)"
    (goBytes "name: John, age: 30, name: Jane") (by decide)).2.2.1 (by decide)

/-! ### extractor/css.go: `Extract` -/

theorem CSSExtractor.collect_eq_filter :
    ∀ (texts results : List String),
      CSSExtractor.collect texts results =
        results ++ (texts.map goTrimSpace).filter (fun s => s ≠ "")
  | [], results => by simp [CSSExtractor.collect]
  | s :: rest, results => by
    unfold CSSExtractor.collect
    by_cases h : goTrimSpace s = ""
    · simp [h, CSSExtractor.collect_eq_filter rest]
    · simp [h, CSSExtractor.collect_eq_filter rest]

/-- C22: the document parses. With `texts` the texts of the elements the selector matches,
in document order, `Extract` returns an error when there is no such element and when every
trimmed text is empty; otherwise it returns the trimmed texts that are not empty, in
document order, joined by single newlines, and this result is not empty. -/
theorem css_extract_spec (lib : HTMLLib) (selector : String) (body : List UInt8)
    (hp : lib.parse body = none) :
    (lib.findTexts body selector = [] →
        CSSExtractor.Extract lib selector body =
          .error (.new ("CSS选择器未匹配到任何元素: " ++ selector))) ∧
      (lib.findTexts body selector ≠ [] →
        (∀ s ∈ lib.findTexts body selector, goTrimSpace s = "") →
        CSSExtractor.Extract lib selector body = .error (.new "匹配的元素没有文本内容")) ∧
      ((∃ s ∈ lib.findTexts body selector, goTrimSpace s ≠ "") →
        CSSExtractor.Extract lib selector body =
            .ok (goJoin (((lib.findTexts body selector).map goTrimSpace).filter
              fun s => s ≠ "") "\n") ∧
          goJoin (((lib.findTexts body selector).map goTrimSpace).filter
            fun s => s ≠ "") "\n" ≠ "") ∧
      ((∃ err, CSSExtractor.Extract lib selector body = .error err) ↔
        ∀ s ∈ lib.findTexts body selector, goTrimSpace s = "") := by
  have hcol := CSSExtractor.collect_eq_filter (lib.findTexts body selector) []
  rw [List.nil_append] at hcol
  have h1 : lib.findTexts body selector = [] →
      CSSExtractor.Extract lib selector body =
        .error (.new ("CSS选择器未匹配到任何元素: " ++ selector)) := by
    intro h
    simp [CSSExtractor.Extract, hp, h]
  have h2 : lib.findTexts body selector ≠ [] →
      (∀ s ∈ lib.findTexts body selector, goTrimSpace s = "") →
      CSSExtractor.Extract lib selector body = .error (.new "匹配的元素没有文本内容") := by
    intro hne hall
    have hl : ¬ (lib.findTexts body selector).length = 0 := fun h0 =>
      hne (List.length_eq_zero.mp h0)
    have hf : ((lib.findTexts body selector).map goTrimSpace).filter (fun s => s ≠ "") = [] := by
      rw [List.filter_eq_nil_iff]
      intro s hs
      obtain ⟨x, hx, rfl⟩ := List.mem_map.mp hs
      simp [hall x hx]
    simp only [CSSExtractor.Extract, hp, hl, if_false, hcol, hf]
    rfl
  have h3 : (∃ s ∈ lib.findTexts body selector, goTrimSpace s ≠ "") →
      CSSExtractor.Extract lib selector body =
          .ok (goJoin (((lib.findTexts body selector).map goTrimSpace).filter
            fun s => s ≠ "") "\n") ∧
        goJoin (((lib.findTexts body selector).map goTrimSpace).filter
          fun s => s ≠ "") "\n" ≠ "" := by
    rintro ⟨x, hx, hxne⟩
    have hl : ¬ (lib.findTexts body selector).length = 0 := by
      intro h0
      rw [List.length_eq_zero.mp h0] at hx
      cases hx
    have hmem : goTrimSpace x ∈
        ((lib.findTexts body selector).map goTrimSpace).filter (fun s => s ≠ "") := by
      rw [List.mem_filter]
      exact ⟨List.mem_map.mpr ⟨x, hx, rfl⟩, by simp [hxne]⟩
    cases hf : ((lib.findTexts body selector).map goTrimSpace).filter (fun s => s ≠ "") with
    | nil =>
      rw [hf] at hmem
      cases hmem
    | cons a l =>
      have ha : a ≠ "" := by
        have : a ∈ ((lib.findTexts body selector).map goTrimSpace).filter
            (fun s => s ≠ "") := by
          rw [hf]
          exact List.mem_cons_self _ _
        simpa using (List.mem_filter.mp this).2
      refine ⟨?_, goJoin_cons_ne_empty a l "\n" ha⟩
      simp only [CSSExtractor.Extract, hp, hl, if_false, hcol, hf]
      rfl
  refine ⟨h1, h2, h3, ?_⟩
  constructor
  · rintro ⟨err, herr⟩
    by_contra hn
    push_neg at hn
    rw [(h3 hn).1] at herr
    cases herr
  · intro hall
    by_cases hne : lib.findTexts body selector = []
    · exact ⟨_, h1 hne⟩
    · exact ⟨_, h2 hne hall⟩

/-- C22 on a selection of three elements with texts "Item 1", " \n " and "Item 3\n": the
element whose trimmed text is empty is skipped. -/
theorem css_extract_spec_witness :
    CSSExtractor.Extract demoHTMLLib ".item" [] = .ok "Item 1\nItem 3" :=
  ((css_extract_spec demoHTMLLib ".item" [] rfl).2.2.1 ⟨"Item 1", by decide, by decide⟩).1

/-! ### extractor/json.go: `Extract` -/

theorem notFound_ne_invalid (path : String) :
    GoError.new ("JSON路径未找到: " ++ path) ≠ GoError.new "无效的JSON格式" := by
  intro h
  injection h with h
  have := congrArg String.data h
  simp at this

theorem goLen_eq_zero (s : String) (h : goLen s = 0) : s.data = [] := by
  rcases s with ⟨data⟩
  cases data with
  | nil => rfl
  | cons c cs =>
    simp only [goLen, String.utf8ByteSize, String.utf8ByteSize.go] at h
    have := Char.utf8Size_pos c
    omega

/-- C23: `Extract` returns the invalid-JSON error whenever gjson does not accept the input,
whatever the path; on an accepted input it returns the path-not-found error, a different
error, when gjson resolves the path to nothing (the result does not exist, as for a
missing field or an index out of range); otherwise it succeeds with the result's string:
the empty string for an existing null, the decoded text for a string, "true" or "false" for
a boolean, and for a number its text as written when that is an integer literal and gjson's
decimal rendering of the number otherwise. -/
theorem json_extract_spec (lib : GjsonLib) (path : String) (body : List UInt8) :
    (lib.ValidBytes body = false →
        JSONExtractor.Extract lib path body = .error (.new "无效的JSON格式")) ∧
      (lib.ValidBytes body = true → (lib.GetBytes body path).Exists = false →
        JSONExtractor.Extract lib path body = .error (.new ("JSON路径未找到: " ++ path)) ∧
          GoError.new ("JSON路径未找到: " ++ path) ≠ GoError.new "无效的JSON格式") ∧
      (lib.ValidBytes body = true → lib.GetBytes body path = GjsonResult.missing →
        JSONExtractor.Extract lib path body = .error (.new ("JSON路径未找到: " ++ path))) ∧
      (lib.ValidBytes body = true → (lib.GetBytes body path).Exists = true →
        JSONExtractor.Extract lib path body = .ok (lib.GetBytes body path).String ∧
          ((lib.GetBytes body path).Kind = .Null → (lib.GetBytes body path).String = "") ∧
          ((lib.GetBytes body path).Kind = .String →
            (lib.GetBytes body path).String = (lib.GetBytes body path).Str) ∧
          ((lib.GetBytes body path).Kind = .True → (lib.GetBytes body path).String = "true") ∧
          ((lib.GetBytes body path).Kind = .False →
            (lib.GetBytes body path).String = "false") ∧
          ((lib.GetBytes body path).Kind = .Number →
            GjsonResult.plainInteger (lib.GetBytes body path).Raw = true →
            (lib.GetBytes body path).String = (lib.GetBytes body path).Raw) ∧
          ((lib.GetBytes body path).Kind = .Number →
            GjsonResult.plainInteger (lib.GetBytes body path).Raw = false →
            (lib.GetBytes body path).String = (lib.GetBytes body path).NumText)) := by
  have hnf : lib.ValidBytes body = true → (lib.GetBytes body path).Exists = false →
      JSONExtractor.Extract lib path body = .error (.new ("JSON路径未找到: " ++ path)) := by
    intro hv he
    simp [JSONExtractor.Extract, hv, he]
  refine ⟨?_, fun hv he => ⟨hnf hv he, notFound_ne_invalid path⟩, ?_, ?_⟩
  · intro hv
    simp [JSONExtractor.Extract, hv]
  · intro hv hm
    apply hnf hv
    rw [hm]
    rfl
  · intro hv he
    refine ⟨by simp [JSONExtractor.Extract, hv, he], ?_, ?_, ?_, ?_, ?_, ?_⟩
    · intro hk
      simp [GjsonResult.String, hk]
    · intro hk
      simp [GjsonResult.String, hk]
    · intro hk
      simp [GjsonResult.String, hk]
    · intro hk
      simp [GjsonResult.String, hk]
    · intro hk hp
      have hne : ¬ goLen (lib.GetBytes body path).Raw = 0 := by
        intro h0
        have hraw := goLen_eq_zero _ h0
        simp [GjsonResult.plainInteger, hraw] at hp
      simp [GjsonResult.String, hk, hne, hp]
    · intro hk hp
      simp [GjsonResult.String, hk, hp]

/-- C23 on the cases "提取null值" and "路径不存在" of `TestJSONExtractor_Extract`: an existing
null gives the empty string. -/
theorem json_extract_spec_witness :
    JSONExtractor.Extract demoGjson "value" (goBytes "\x7b\"value\": null\x7d") = .ok "" :=
  ((json_extract_spec demoGjson "value" (goBytes "\x7b\"value\": null\x7d")).2.2.2
    (by decide) (by decide)).1

/-- On an accepted input, a result of kind JSON is returned as its raw text. -/
theorem json_extract_composite_aux (lib : GjsonLib) (path : String) (body : List UInt8)
    (hv : lib.ValidBytes body = true) (hk : (lib.GetBytes body path).Kind = .JSON) :
    JSONExtractor.Extract lib path body = .ok (lib.GetBytes body path).Raw := by
  have he : (lib.GetBytes body path).Exists = true := by
    simp [GjsonResult.Exists, hk]
  simp [JSONExtractor.Extract, hv, he, GjsonResult.String, hk]

/-- C24 (as the code has it): on an input gjson accepts, when the path resolves to an array
or an object, `Extract` returns the text gjson reports for that value (`Raw`) unchanged.
For a value of the input that is its text as it is written in the input, white space
included; for a wildcard path it is the array text gjson assembles from the per-element
results. -/
theorem json_extract_composite (lib : GjsonLib) (path : String) (body : List UInt8)
    (hv : lib.ValidBytes body = true) (hk : (lib.GetBytes body path).Kind = .JSON) :
    JSONExtractor.Extract lib path body = .ok (lib.GetBytes body path).Raw ∧
      (lib.GetBytes body path).Exists = true := by
  have he : (lib.GetBytes body path).Exists = true := by
    simp [GjsonResult.Exists, hk]
  exact ⟨json_extract_composite_aux lib path body hv hk, he⟩

/-- C24 (as the code has it) on the case "使用通配符" of `TestJSONExtractor_Extract`: the
wildcard path gives the array of the names, in array order. -/
theorem json_extract_composite_witness :
    JSONExtractor.Extract demoGjson "users.#.name"
        (goBytes "\x7b\"users\": [\x7b\"name\": \"John\"\x7d, \x7b\"name\": \"Jane\"\x7d]\x7d") =
      .ok "[\"John\",\"Jane\"]" :=
  (json_extract_composite demoGjson "users.#.name"
    (goBytes "\x7b\"users\": [\x7b\"name\": \"John\"\x7d, \x7b\"name\": \"Jane\"\x7d]\x7d")
    (by decide) (by decide)).1

/-- C24 fails as stated, on the case "提取整个数组" of `TestJSONExtractor_Extract`: for the
input `{"tags": ["go", "json", "api"]}` and the path `tags`, which resolves to an array,
`Extract` returns `["go", "json", "api"]`, the array as the input writes it, with a space
after each comma: not the compact `["go","json","api"]`. -/
theorem composite_result_keeps_input_whitespace :
    demoGjson.ValidBytes (goBytes "\x7b\"tags\": [\"go\", \"json\", \"api\"]\x7d") = true ∧
      (demoGjson.GetBytes (goBytes "\x7b\"tags\": [\"go\", \"json\", \"api\"]\x7d") "tags").Kind =
        .JSON ∧
      JSONExtractor.Extract demoGjson "tags"
          (goBytes "\x7b\"tags\": [\"go\", \"json\", \"api\"]\x7d") =
        .ok "[\"go\", \"json\", \"api\"]" ∧
      "[\"go\", \"json\", \"api\"]" ≠ "[\"go\",\"json\",\"api\"]" ∧
      ' ' ∈ "[\"go\", \"json\", \"api\"]".data := by
  refine ⟨by decide, by decide, ?_, by decide, by decide⟩
  exact (json_extract_composite_aux demoGjson "tags"
    (goBytes "\x7b\"tags\": [\"go\", \"json\", \"api\"]\x7d") (by decide) (by decide))

/-! ### core/event.go: `Publish` -/

theorem count_map_filter {α : Type} (f : α → Delivery) (g : α → String) (n : String)
    (hfg : ∀ a, (f a).listener = g a) :
    ∀ l : List α, ((l.map f).filter fun d => d.listener = n).length =
      (l.filter fun a => g a = n).length
  | [] => rfl
  | a :: l => by
    have ih := count_map_filter f g n hfg l
    by_cases h : g a = n
    · simp [List.filter_cons, hfg, h, ih]
    · simp [List.filter_cons, hfg, h, ih]

theorem filter_name_length_one :
    ∀ ls : List EventListener, (ls.map fun l => l.name).Nodup → ∀ l ∈ ls,
      (ls.filter fun x => x.name = l.name).length = 1
  | [], _, _, hl => by cases hl
  | a :: ls, hnd, l, hl => by
    rw [List.map_cons, List.nodup_cons] at hnd
    obtain ⟨ha, hnd'⟩ := hnd
    rcases List.mem_cons.mp hl with rfl | hl'
    · have hnone : (ls.filter fun x => x.name = l.name) = [] := by
        rw [List.filter_eq_nil_iff]
        intro x hx hxn
        exact ha (List.mem_map.mpr ⟨x, hx, by simpa using hxn⟩)
      simp [List.filter_cons, hnone]
    · have hne : ¬ a.name = l.name := by
        intro h
        exact ha (List.mem_map.mpr ⟨l, hl', h.symm⟩)
      simp only [List.filter_cons, hne, decide_False, Bool.false_eq_true, if_false]
      exact filter_name_length_one ls hnd' l hl'

/-- C26: `Publish` launches one delivery for each entry of the listener list as it is at the
call, in list order, each handing over the published event; every one of these goroutines
returns, also the one of a listener that panics in `OnEvent`, so no panic reaches the
publisher or the other deliveries. A listener therefore receives the event as often as it
is subscribed, exactly once when its name occurs once in the list. `Publish` leaves the
listener list unchanged. -/
theorem publish_delivers (b : DefaultEventBus) (event : Event) :
    (b.Publish event).1 = b ∧
      (b.Publish event).2.map (fun d => d.listener) = b.listeners.map (fun l => l.name) ∧
      (b.Publish event).2.length = b.listeners.length ∧
      (∀ d ∈ (b.Publish event).2, d.event = event ∧ d.outcome = .ret ()) ∧
      (∀ n, ((b.Publish event).2.filter fun d => d.listener = n).length =
        (b.listeners.filter fun l => l.name = n).length) ∧
      ((b.listeners.map fun l => l.name).Nodup → ∀ l ∈ b.listeners,
        ((b.Publish event).2.filter fun d => d.listener = l.name).length = 1) := by
  have hcount : ∀ n, ((b.Publish event).2.filter fun d => d.listener = n).length =
      (b.listeners.filter fun l => l.name = n).length := fun n =>
    count_map_filter
      (fun l : EventListener =>
        ({ listener := l.name, event := event,
           outcome := DefaultEventBus.dispatch l event } : Delivery))
      (fun l : EventListener => l.name) n (fun _ => rfl) b.listeners
  refine ⟨rfl, ?_, ?_, ?_, hcount, ?_⟩
  · simp [DefaultEventBus.Publish, List.map_map, Function.comp]
  · simp [DefaultEventBus.Publish]
  · intro d hd
    simp only [DefaultEventBus.Publish, List.mem_map] at hd
    obtain ⟨l, _, rfl⟩ := hd
    refine ⟨rfl, ?_⟩
    simp only [DefaultEventBus.dispatch]
    cases l.OnEvent event <;> rfl
  · intro hnd l hl
    rw [hcount]
    exact filter_name_length_one b.listeners hnd l hl

/-- C26 on a bus with three listeners of which the second panics: all three are handed the
event, each once, and every goroutine returns. -/
theorem publish_delivers_witness :
    (demoBus.Publish demoEvent).2 =
        [{ listener := "ui", event := demoEvent, outcome := .ret () },
         { listener := "broken", event := demoEvent, outcome := .ret () },
         { listener := "log", event := demoEvent, outcome := .ret () }] ∧
      ∀ l ∈ demoBus.listeners,
        ((demoBus.Publish demoEvent).2.filter fun d => d.listener = l.name).length = 1 :=
  ⟨rfl, (publish_delivers demoBus demoEvent).2.2.2.2.2 (by decide)⟩

/-! ### config/manager.go: `Save` followed by `Load` -/

theorem MonitorRule.ofYAML_toYAML (lib : TimeLib) (r : MonitorRule)
    (h : lib.parseDuration (lib.durationString r.Interval) = .ok r.Interval) :
    MonitorRule.ofYAML lib (MonitorRule.toYAML lib r) = .ok r := by
  have hh : (if r.Headers.length = 0 then none else some r.Headers).getD [] = r.Headers := by
    by_cases h0 : r.Headers.length = 0
    · rw [if_pos h0]
      exact (List.length_eq_zero.mp h0).symm
    · rw [if_neg h0]
      rfl
  have hb : (if r.Body = "" then none else some r.Body).getD "" = r.Body := by
    by_cases h0 : r.Body = ""
    · rw [if_pos h0]
      exact h0.symm
    · rw [if_neg h0]
      rfl
  have he : (if r.ErrorMessage = "" then none else some r.ErrorMessage).getD "" =
      r.ErrorMessage := by
    by_cases h0 : r.ErrorMessage = ""
    · rw [if_pos h0]
      exact h0.symm
    · rw [if_neg h0]
      rfl
  simp only [MonitorRule.ofYAML, MonitorRule.toYAML, Duration.UnmarshalYAML,
    Duration.MarshalYAML, h, hh, hb, he]

theorem rulesOfYAML_map_toYAML (lib : TimeLib) :
    ∀ rules : List MonitorRule,
      (∀ r ∈ rules, lib.parseDuration (lib.durationString r.Interval) = .ok r.Interval) →
      rulesOfYAML lib (rules.map (MonitorRule.toYAML lib)) = .ok rules
  | [], _ => rfl
  | r :: rs, h => by
    have h1 := MonitorRule.ofYAML_toYAML lib r (h r (List.mem_cons_self _ _))
    have h2 := rulesOfYAML_map_toYAML lib rs (fun x hx => h x (List.mem_cons_of_mem _ hx))
    simp only [List.map_cons, rulesOfYAML, h1, h2]

/-- C27: the file system does not fail, and `time.ParseDuration` reads back what
`Duration.String` writes for the intervals of the rules (as Go's time package does for
every duration). Then `Save(rules)` succeeds, and `Load()` afterwards succeeds and returns
the list saved: the same rules in the same order, every field equal, the headers, the body
and the interval included. The same holds for the manager as the engine sees it. -/
theorem save_load_roundtrip (lib : TimeLib) (f : ConfigFile) (m : YAMLManager)
    (rules : List MonitorRule)
    (hrt : ∀ r ∈ rules, lib.parseDuration (lib.durationString r.Interval) = .ok r.Interval) :
    (ConfigFile.Save lib Faults.none f rules).2 = none ∧
      ConfigFile.Load lib Faults.none (ConfigFile.Save lib Faults.none f rules).1 =
        .ok rules ∧
      (m.Save Faults.none rules).2 = none ∧
      (m.Save Faults.none rules).1.Load Faults.none = .ok rules := by
  refine ⟨rfl, ?_, rfl, rfl⟩
  simp only [ConfigFile.Save, ConfigFile.Load, Faults.none,
    rulesOfYAML_map_toYAML lib rules hrt]

/-- C27 on two rules like those of the test "保存和加载规则": one without headers and body,
one with a header, a body and an interval of 1.5 seconds. -/
theorem save_load_roundtrip_witness :
    ConfigFile.Load demoTimeLib Faults.none
        (ConfigFile.Save demoTimeLib Faults.none { content := none } [demoRule, postRule]).1 =
      .ok [demoRule, postRule] :=
  (save_load_roundtrip demoTimeLib { content := none } { file := none } [demoRule, postRule]
    (by
      intro r hr
      simp only [List.mem_cons, List.mem_singleton, List.not_mem_nil, or_false] at hr
      rcases hr with rfl | rfl <;> rfl)).2.1

/-- A document whose interval text does not parse is rejected by `Load`: the codec is not
the identity on documents. -/
theorem load_rejects_bad_interval :
    ConfigFile.Load demoTimeLib Faults.none badIntervalFile =
      .error (.wrapf "解析配置文件失败: " (.new "time: invalid duration soon")) := by
  rfl

/-- C29 fails as stated, on the server of `TestHTTPFetcher_Fetch_RetryExhausted` (status 500
in every attempt): every attempt fails, three attempts are made, and the delays slept are
one second and two seconds, not one, two and four seconds; no third delay is slept. -/
theorem fetch_sleeps_no_four_seconds :
    (∀ k, k < 3 → ∃ err,
        HTTPFetcher.doRequest ((fun _ => statusWorld 500) k) demoRequest = .error err) ∧
      attemptsOf (HTTPFetcher.Fetch (fun _ => statusWorld 500) demoRequest).2 = 3 ∧
      sleepsOf (HTTPFetcher.Fetch (fun _ => statusWorld 500) demoRequest).2 ≠
        [1000000000, 2000000000, 4000000000] ∧
      (sleepsOf (HTTPFetcher.Fetch (fun _ => statusWorld 500) demoRequest).2).length = 2 ∧
      (4000000000 : Duration) ∉
        sleepsOf (HTTPFetcher.Fetch (fun _ => statusWorld 500) demoRequest).2 := by
  have hs : sleepsOf (HTTPFetcher.Fetch (fun _ => statusWorld 500) demoRequest).2 =
      [1000000000, 2000000000] := rfl
  refine ⟨fun _ _ => ⟨_, rfl⟩, rfl, ?_, ?_, ?_⟩
  · rw [hs]
    decide
  · rw [hs]
    rfl
  · rw [hs]
    decide

/-! ### monitor/service.go: the task `UpdateTask` restarts -/

theorem MonitorService.StopTask_of_closed (s : MonitorService) (id : String) (task : Task)
    (h : s.tasks.lookup id = some task) (hr : task.running = true)
    (hc : task.stopClosed = true) :
    s.StopTask id = .panic "close of closed channel" := by
  unfold MonitorService.StopTask
  rw [h]
  simp only [bind, Task.Stop_of_running_closed task hr hc, Run.bind]

/-- C15 against the code: whenever `UpdateTask` returns no error on a registry in which a
running task is registered under the rule's ID, the task registered afterwards holds the
new rule and is marked running, but it is not a restarted task: its stop channel is closed,
so the `select` of its check loop has the stop case ready with no tick pending and the loop
returns after its first check, and `StopTask` on its ID panics, as does a second
`UpdateTask`. -/
theorem updateTask_restart_has_closed_stop_channel (lib : Lib) (s s' : MonitorService)
    (rule : MonitorRule) (task : Task) (hl : s.tasks.lookup rule.ID = some task)
    (hr : task.running = true) (h : s.UpdateTask lib rule = .ret (s', none)) :
    ∃ task', s'.tasks.lookup rule.ID = some task' ∧ task'.rule = rule ∧
      task'.running = true ∧ s'.IsTaskRunning rule.ID = true ∧
      task'.stopClosed = true ∧
      task'.selectReady false = [SelectCase.stop] ∧
      task'.Stop = .panic "close of closed channel" ∧
      s'.StopTask rule.ID = .panic "close of closed channel" ∧
      s'.UpdateTask lib rule = .panic "close of closed channel" := by
  have hmem : rule.ID ∈ s.tasks := TaskMap.mem_of_lookup hl
  cases hc : task.stopClosed with
  | true =>
    rw [MonitorService.UpdateTask_of_running_closed lib s rule task hl hr hc] at h
    cases h
  | false =>
    by_cases hi : 0 < rule.Interval
    · rw [MonitorService.UpdateTask_of_running_open lib s rule task hl hr hc hi] at h
      cases hx : task.extractorFor lib rule with
      | error err =>
        rw [hx] at h
        injection h with h
        cases (Prod.mk.inj h).2
      | ok ext =>
        rw [hx] at h
        injection h with h
        have hs' := (Prod.mk.inj h).1
        subst hs'
        have hl' := TaskMap.lookup_replace_self s.tasks rule.ID
          (task.restarted ext rule) hmem
        have hl'' : (MonitorService.mk (s.tasks.replace rule.ID (task.restarted ext rule))
            s.hasOnRuleUpdate).tasks.lookup rule.ID = some (task.restarted ext rule) := hl'
        refine ⟨task.restarted ext rule, hl', rfl, rfl, ?_, rfl, rfl,
          Task.Stop_of_running_closed _ rfl rfl,
          MonitorService.StopTask_of_closed _ rule.ID _ hl'' rfl rfl,
          MonitorService.UpdateTask_of_running_closed lib _ rule _ hl'' rfl rfl⟩
        simp only [MonitorService.IsTaskRunning, hl', Task.IsRunning]
        rfl
    · exact absurd h
        (MonitorService.UpdateTask_of_running_bad_interval lib s rule task hl hr hc
          (not_lt.mp hi))

/-- C15 against the code, at the running task of `demoRule`, started on an empty registry
and updated with `demoRule`: the call succeeds, and the task it leaves has a closed stop
channel. -/
theorem updateTask_restart_has_closed_stop_channel_witness :
    ∃ task', restartedService.tasks.lookup demoRule.ID = some task' ∧ task'.rule = demoRule ∧
      task'.running = true ∧ restartedService.IsTaskRunning demoRule.ID = true ∧
      task'.stopClosed = true ∧
      task'.selectReady false = [SelectCase.stop] ∧
      task'.Stop = .panic "close of closed channel" ∧
      restartedService.StopTask demoRule.ID = .panic "close of closed channel" ∧
      restartedService.UpdateTask demoLib demoRule = .panic "close of closed channel" :=
  updateTask_restart_has_closed_stop_channel demoLib startedService restartedService demoRule
    (Task.started demoRule (.css ".content") true) rfl rfl rfl

end ApiWatch
